import Mathlib

/-!
Expression Analyser: session recording, aggregation, archive and export

A shallow embedding of `scripts/main.js` (`formatDuration`,
`analyzeExpression`, the `StorageManager` and `SessionManager` classes,
`exportToCSV`, `exportToJSON` and the helpers they use), of the queue, the
video analysis and the batches of `scripts/upload.js`, of the loading, paging
and exporting of `scripts/dashboard.js` and of `exportCurrentSession` of
`scripts/live.js`, together with the properties proved about them.

Modelling conventions.

* A JavaScript object used as a dictionary is an insertion-ordered list of
  key/value pairs; `Object.keys` lists the keys in that order, which is what
  the language guarantees for keys that are not array indices.  The labels are
  the seven entries of `EMOTIONS`, none of which is an array index.
* `Date.now()` is a natural number of milliseconds and is passed in as an
  argument at every place where the source reads the clock; the values of
  `Math.random()` are passed in as well.
* A call that may raise returns `Option`, `none` standing for the exception;
  timers, promises and the DOM are left out.
* Integers are `Int` or `Nat`, the value of a Number is a rational.  Where
  the program computes a quotient, a product or a sum that need not be exact,
  the result is rounded to the nearest Number (IEEE double, a tie going to the
  even significand) by `Number.ofRat`, on integers by `Number.floorDiv` and
  `Number.ofNat`, and a whole Number is printed by `Number.toString`.  The
  definitions `percent`, `totalScore`, `percentOf` and `analyzeExpression`
  are the mock analysis on exact rationals; `Number.analyzeExpression` is the
  one the program computes.  The quotient `totalConfidence / this.data.length`
  has for confidences in [0,100] an integer numerator below `2 ^ 39` and a
  denominator below `2 ^ 32`, so the double nearest to it rounds to the same
  integer as the exact value does.  The mock analysis, which can divide by
  zero, computes in `Num`: an integer, `NaN` or an infinity.
* Built-ins of the browser that the code calls (`JSON.stringify`,
  `JSON.parse`, `Date.prototype.toISOString`, the quota of `localStorage`)
  are the fields of a `Browser` record that the definitions take as argument.
  Statements that depend on what the JSON built-ins do assume their contract,
  `Browser.RoundTrips`; `JSON.stringify` and `JSON.parse` below are a model of
  the two built-ins on the values of `JSON` that meets it.
-/

namespace ExpressionAnalyser

/-! ## Data model -/

/-- The closed label set: the entries of the constant `EMOTIONS`. -/
inductive Emotion where
  | happy
  | sad
  | angry
  | surprised
  | fear
  | disgust
  | neutral
  deriving DecidableEq, Repr

/-- The constant `EMOTIONS`, in source order. -/
def EMOTIONS : List Emotion :=
  [.happy, .sad, .angry, .surprised, .fear, .disgust, .neutral]

/-- The string a label is in the source. -/
def Emotion.name : Emotion → String
  | .happy => "happy"
  | .sad => "sad"
  | .angry => "angry"
  | .surprised => "surprised"
  | .fear => "fear"
  | .disgust => "disgust"
  | .neutral => "neutral"

/-- The object `analyzeExpression` resolves with and `addResult` receives:
`{emotions, dominant, confidence, timestamp}`. -/
structure Result where
  emotions : Emotion → Int
  dominant : Emotion
  confidence : Int
  timestamp : String

/-- An element of `SessionManager.data`: `{...result, sessionTime}`. -/
structure Sample extends Result where
  sessionTime : Int

/-- The fields of a `SessionManager`; `none` is `null`. -/
structure SessionManager where
  sessionId : Option String
  startTime : Option Nat
  data : List Sample

/-- The object returned by `getStats`. -/
structure Stats where
  count : Nat
  dominant : Emotion
  avgConfidence : Int
  deriving DecidableEq, Repr

/-- The object returned by `export`. -/
structure Summary where
  sessionId : Option String
  startTime : String
  duration : Int
  frameCount : Nat
  data : List Sample
  stats : Stats

/-- Values that JSON text denotes. -/
inductive JSON where
  | null
  | bool (b : Bool)
  | num (n : Int)
  | str (s : String)
  | arr (items : List JSON)
  | obj (members : List (String × JSON))

/-- The content of `localStorage`: the text stored under each key, if any. -/
abbrev Store := String → Option String

/-- The browser built-ins the code calls. `toISOString t` is
`new Date(t).toISOString()` for the time value `t`; `stringify v` is
`JSON.stringify(v)` and `stringifyIndented v n` is `JSON.stringify(v, null, n)`;
`parse` returns `none` where `JSON.parse` throws; `quotaExceeded ls k v` tells
whether `setItem(k, v)` throws on the store `ls`. -/
structure Browser where
  toISOString : Int → String
  stringify : JSON → String
  stringifyIndented : JSON → Nat → String
  parse : String → Option JSON
  quotaExceeded : Store → String → String → Bool

/-! ## Language primitives -/

/-- Read of `obj[k]` on a dictionary object; `none` is `undefined`. -/
def getProp (obj : List (Emotion × Nat)) (k : Emotion) : Option Nat :=
  (obj.find? (fun p => p.1 = k)).map Prod.snd

/-- Assignment `obj[k] = v`: an existing key keeps its place, a new key goes
last. -/
def setProp (obj : List (Emotion × Nat)) (k : Emotion) (v : Nat) : List (Emotion × Nat) :=
  if obj.any (fun p => p.1 = k) then
    obj.map (fun p => if p.1 = k then (k, v) else p)
  else
    obj ++ [(k, v)]

/-- The array `Object.keys(obj)`. -/
def objectKeys (obj : List (Emotion × Nat)) : List Emotion :=
  obj.map Prod.fst

/-- The operand of `x || 0` for a count read from a dictionary. -/
def orZero : Option Nat → Nat
  | none => 0
  | some n => if n = 0 then 0 else n

/-- The comparison `x > y` of two dictionary reads; a comparison with
`undefined` is false. -/
def jsGt : Option Nat → Option Nat → Bool
  | some x, some y => decide (x > y)
  | _, _ => false

/-- The method `Array.prototype.reduce` called without an initial value; it
throws on the empty array. -/
def reduce {α : Type} (f : α → α → α) : List α → Option α
  | [] => none
  | a :: rest => some (rest.foldl f a)

/-- The function `Math.round`: the nearest integer, a half going up. -/
def Math.round (x : ℚ) : Int :=
  ⌊x + 1 / 2⌋

/-- Truthiness of a session identifier: neither `null` nor the empty string. -/
def truthyId : Option String → Bool
  | none => false
  | some s => s ≠ ""

/-- Truthiness of a JSON value. -/
def JSON.truthy : JSON → Bool
  | .null => false
  | .bool b => b
  | .num n => n ≠ 0
  | .str s => s ≠ ""
  | .arr _ => true
  | .obj _ => true

/-! ## SessionManager -/

/-- The constructor of `SessionManager`. -/
def SessionManager.new : SessionManager :=
  { sessionId := none, startTime := none, data := [] }

/-- The method `start`. The clock is read twice: `now₁` for the identifier,
`now₂` for the start time. -/
def SessionManager.start (_m : SessionManager) (now₁ now₂ : Nat) : SessionManager :=
  { sessionId := some ("session_" ++ toString now₁)
    startTime := some now₂
    data := [] }

/-- The method `addResult`; a `null` start time counts as `0` in the
subtraction. -/
def SessionManager.addResult (m : SessionManager) (result : Result) (now : Nat) :
    SessionManager :=
  { m with
    data := m.data ++
      [{ toResult := result
         sessionTime := (now : Int) - ((m.startTime.getD 0 : Nat) : Int) }] }

/-- The method `getDuration`. -/
def SessionManager.getDuration (m : SessionManager) (now : Nat) : Int :=
  match m.startTime with
  | none => 0
  | some t => if t = 0 then 0 else ((now : Int) - (t : Int)) / 1000

/-- The two accumulators of the `forEach` loop of `getStats` after the given
samples: `emotionCounts` and `totalConfidence`. -/
def tally (data : List Sample) : List (Emotion × Nat) × Int :=
  data.foldl
    (fun acc result =>
      (setProp acc.1 result.dominant (orZero (getProp acc.1 result.dominant) + 1),
        acc.2 + result.confidence))
    ([], 0)

/-- The method `getStats`. -/
def SessionManager.getStats (m : SessionManager) : Option Stats :=
  if m.data.length = 0 then
    some { count := 0, dominant := .neutral, avgConfidence := 0 }
  else
    let emotionCounts := (tally m.data).1
    let totalConfidence := (tally m.data).2
    (reduce
        (fun a b => if jsGt (getProp emotionCounts a) (getProp emotionCounts b) then a else b)
        (objectKeys emotionCounts)).map
      fun dominant =>
        { count := m.data.length
          dominant := dominant
          avgConfidence := Math.round ((totalConfidence : ℚ) / (m.data.length : ℚ)) }

/-- The method `export`; `new Date(null)` is the epoch. -/
def SessionManager.export (B : Browser) (m : SessionManager) (now : Nat) : Option Summary :=
  m.getStats.map fun stats =>
    { sessionId := m.sessionId
      startTime := B.toISOString (m.startTime.getD 0)
      duration := m.getDuration now
      frameCount := m.data.length
      data := m.data
      stats := stats }

/-! ## Summaries as JSON values -/

/-- The seven label scores as an object, keys in `EMOTIONS` order. -/
def emotionsToJSON (scores : Emotion → Int) : JSON :=
  .obj (EMOTIONS.map fun e => (e.name, .num (scores e)))

/-- A sample as a JSON value. -/
def Sample.toJSON (s : Sample) : JSON :=
  .obj [("emotions", emotionsToJSON s.emotions),
        ("dominant", .str s.dominant.name),
        ("confidence", .num s.confidence),
        ("timestamp", .str s.timestamp),
        ("sessionTime", .num s.sessionTime)]

/-- A statistics object as a JSON value. -/
def Stats.toJSON (s : Stats) : JSON :=
  .obj [("count", .num s.count),
        ("dominant", .str s.dominant.name),
        ("avgConfidence", .num s.avgConfidence)]

/-- A session summary as a JSON value. -/
def Summary.toJSON (s : Summary) : JSON :=
  .obj [("sessionId", match s.sessionId with
                      | none => .null
                      | some i => .str i),
        ("startTime", .str s.startTime),
        ("duration", .num s.duration),
        ("frameCount", .num s.frameCount),
        ("data", .arr (s.data.map Sample.toJSON)),
        ("stats", s.stats.toJSON)]

/-! ## StorageManager -/

/-- The fields of a `StorageManager`: `pfx` is its field `prefix`, the key
namespace. -/
structure StorageManager where
  pfx : String

/-- The global instance `storage`. -/
def storage : StorageManager :=
  { pfx := "expression_analyser_" }

/-- The method `StorageManager.save`: the store afterwards and the boolean
returned. -/
def StorageManager.save (B : Browser) (sm : StorageManager) (ls : Store) (key : String)
    (data : JSON) : Store × Bool :=
  if B.quotaExceeded ls (sm.pfx ++ key) (B.stringify data) then
    (ls, false)
  else
    (Function.update ls (sm.pfx ++ key) (some (B.stringify data)), true)

/-- The method `StorageManager.load`; `JSON.null` is the `null` it returns for
a missing or empty entry and for text that does not parse. -/
def StorageManager.load (B : Browser) (sm : StorageManager) (ls : Store) (key : String) : JSON :=
  match ls (sm.pfx ++ key) with
  | none => .null
  | some data => if data = "" then .null else (B.parse data).getD .null

/-- The method `StorageManager.remove`. -/
def StorageManager.remove (sm : StorageManager) (ls : Store) (key : String) : Store :=
  Function.update ls (sm.pfx ++ key) none

/-- The method `SessionManager.save` on the global `storage`: the store
afterwards, or `none` when the call raises (`unshift` on a loaded value that
is not an array). -/
def SessionManager.save (B : Browser) (m : SessionManager) (now : Nat) (ls : Store) :
    Option Store :=
  if truthyId m.sessionId ∧ m.data.length > 0 then
    let loaded := storage.load B ls "sessions"
    let sessions := if loaded.truthy then loaded else .arr []
    match sessions with
    | .arr items =>
      (m.export B now).map fun summary =>
        let unshifted := summary.toJSON :: items
        let kept := if unshifted.length > 50 then unshifted.take 50 else unshifted
        (storage.save B ls "sessions" (.arr kept)).1
    | _ => none
  else
    some ls

/-! ## Scenarios used in the statements -/

/-- A result with the given dominant label and confidence, the other fields
fixed. -/
def mkResult (dominant : Emotion) (confidence : Int) : Result :=
  { emotions := fun _ => 0
    dominant := dominant
    confidence := confidence
    timestamp := "" }

/-- Feeding a list of `addResult` calls, each with its clock reading. -/
def addResults (m : SessionManager) (calls : List (Result × Nat)) : SessionManager :=
  calls.foldl (fun acc c => acc.addResult c.1 c.2) m

/-- The labels of a sample sequence, in order. -/
def labels (data : List Sample) : List Emotion :=
  data.map fun s => s.dominant

/-- The scenario of the specification: `start()`, then `addResult` of
(happy, 80) and of (sad, 60). -/
def happySad : SessionManager :=
  ((SessionManager.new.start 1000 1000).addResult (mkResult .happy 80) 1100).addResult
    (mkResult .sad 60) 1200

/-- A browser for the worked examples. -/
def exampleBrowser : Browser :=
  { toISOString := fun _ => "1970-01-01T00:00:01.000Z"
    stringify := fun _ => "[]"
    stringifyIndented := fun _ _ => "[]"
    parse := fun _ => some (.arr [])
    quotaExceeded := fun _ _ _ => false }

/-- A store for the worked examples: an empty archive under the `sessions`
key. -/
def exampleStore : Store :=
  Function.update (fun _ => none) "expression_analyser_sessions" (some "[]")

/-! ## Notions used in the proofs -/

/-- What the dictionary `emotionCounts` holds once the loop of `getStats` has
gone through the labels `ls`: one key per label that occurs, no key twice,
each with its number of occurrences, the keys in the order in which the
labels first occur. -/
structure Counted (obj : List (Emotion × Nat)) (ls : List Emotion) : Prop where
  nodup : (objectKeys obj).Nodup
  mem : ∀ k, k ∈ objectKeys obj ↔ k ∈ ls
  get : ∀ k, k ∈ ls → getProp obj k = some (ls.count k)
  order : ∀ a b, a ∈ ls → b ∈ ls →
    ((objectKeys obj).indexOf a < (objectKeys obj).indexOf b ↔ ls.indexOf a < ls.indexOf b)

/-- The number a decimal numeral denotes. -/
def decimalValue (cs : List Char) : Nat :=
  cs.foldl (fun acc c => 10 * acc + (c.toNat - 48)) 0

/-! ## The JSON built-ins on the values of the model -/

/-- The double quote character. -/
def dquote : Char :=
  Char.ofNat 34

/-- The backslash character. -/
def backslash : Char :=
  Char.ofNat 92

/-- One character of a string as `JSON.stringify` writes it: the quote, the
backslash and the control characters escaped, any other character as it is. -/
def quoteChar (c : Char) : List Char :=
  if c = dquote then [backslash, dquote]
  else if c = backslash then [backslash, backslash]
  else if c = Char.ofNat 8 then [backslash, 'b']
  else if c = Char.ofNat 12 then [backslash, 'f']
  else if c = Char.ofNat 10 then [backslash, 'n']
  else if c = Char.ofNat 13 then [backslash, 'r']
  else if c = Char.ofNat 9 then [backslash, 't']
  else if c.toNat < 32 then
    [backslash, 'u', '0', '0', Nat.digitChar (c.toNat / 16), Nat.digitChar (c.toNat % 16)]
  else [c]

/-- The characters of a string as `JSON.stringify` writes them. -/
def quoteChars : List Char → List Char
  | [] => []
  | c :: cs => quoteChar c ++ quoteChars cs

/-- A string as `JSON.stringify` writes it, between double quotes. -/
def quoteString (s : String) : List Char :=
  dquote :: (quoteChars s.data ++ [dquote])

/-- The line break `JSON.stringify` puts before an element: nothing without
indentation, else a line feed and the current indentation. -/
def newline (gap ind : Nat) : List Char :=
  if gap = 0 then [] else Char.ofNat 10 :: List.replicate ind ' '

/-- The separator between a key and its value: a colon, followed by a space
when there is indentation. -/
def colon (gap : Nat) : List Char :=
  if gap = 0 then [':'] else [':', ' ']

/-- The separator after an element that is not the last. -/
def comma (more : Bool) (gap ind : Nat) : List Char :=
  if more then ',' :: newline gap ind else []

mutual
/-- The characters of `JSON.stringify(v, null, gap)` at indentation `ind`, `gap`
being the number of spaces per level. -/
def JSON.render (gap ind : Nat) : JSON → List Char
  | .null => ['n', 'u', 'l', 'l']
  | .bool b => if b then ['t', 'r', 'u', 'e'] else ['f', 'a', 'l', 's', 'e']
  | .num n => (toString n).data
  | .str s => quoteString s
  | .arr items =>
    if items.isEmpty then ['[', ']']
    else '[' :: (newline gap (ind + gap) ++ (JSON.renderItems gap (ind + gap) items ++
      (newline gap ind ++ [']'])))
  | .obj members =>
    if members.isEmpty then ['{', '}']
    else '{' :: (newline gap (ind + gap) ++ (JSON.renderMembers gap (ind + gap) members ++
      (newline gap ind ++ ['}'])))

/-- The elements of an array, separated. -/
def JSON.renderItems (gap ind : Nat) : List JSON → List Char
  | [] => []
  | x :: xs => JSON.render gap ind x ++ (comma (!xs.isEmpty) gap ind ++ JSON.renderItems gap ind xs)

/-- The members of an object, separated. -/
def JSON.renderMembers (gap ind : Nat) : List (String × JSON) → List Char
  | [] => []
  | (k, v) :: kvs =>
    quoteString k ++ (colon gap ++ (JSON.render gap ind v ++
      (comma (!kvs.isEmpty) gap ind ++ JSON.renderMembers gap ind kvs)))
end

/-- The built-in `JSON.stringify(v, null, space)` on the values of the model;
`space` is clamped to 10, and `space = 0` is `JSON.stringify(v)`. Integers are
written in decimal, as the built-in writes them below `10 ^ 21`. -/
def JSON.stringify (v : JSON) (space : Nat) : String :=
  String.mk (v.render (min space 10) 0)

/-- The white space of the JSON grammar: space, line feed, carriage return, tab. -/
def isWs (c : Char) : Bool :=
  c = ' ' || c = Char.ofNat 10 || c = Char.ofNat 13 || c = Char.ofNat 9

/-- Dropping leading white space. -/
def skipWs : List Char → List Char
  | [] => []
  | c :: cs => if isWs c then skipWs cs else c :: cs

/-- The value of a hexadecimal digit. -/
def hexValue (c : Char) : Option Nat :=
  if 48 ≤ c.toNat ∧ c.toNat ≤ 57 then some (c.toNat - 48)
  else if 97 ≤ c.toNat ∧ c.toNat ≤ 102 then some (c.toNat - 87)
  else if 65 ≤ c.toNat ∧ c.toNat ≤ 70 then some (c.toNat - 55)
  else none

/-- The character a one-letter escape stands for. -/
def unescape (e : Char) : Option Char :=
  if e = dquote then some dquote
  else if e = backslash then some backslash
  else if e = '/' then some '/'
  else if e = 'b' then some (Char.ofNat 8)
  else if e = 'f' then some (Char.ofNat 12)
  else if e = 'n' then some (Char.ofNat 10)
  else if e = 'r' then some (Char.ofNat 13)
  else if e = 't' then some (Char.ofNat 9)
  else none

/-- The character an escape of four hexadecimal digits stands for; a surrogate
code unit is outside the model. -/
def unicodeEscape (h₁ h₂ h₃ h₄ : Char) : Option Char :=
  match hexValue h₁, hexValue h₂, hexValue h₃, hexValue h₄ with
  | some a, some b, some c, some d =>
    let code := 4096 * a + 256 * b + 16 * c + d
    if 55296 ≤ code ∧ code ≤ 57343 then none else some (Char.ofNat code)
  | _, _, _, _ => none

/-- Reading a string after its opening quote: the characters up to the closing
quote and the text after it. -/
def parseChars : List Char → Option (List Char × List Char)
  | [] => none
  | c :: cs =>
    if c = dquote then some ([], cs)
    else if c = backslash then
      match cs with
      | [] => none
      | e :: cs₁ =>
        if e = 'u' then
          match cs₁ with
          | h₁ :: h₂ :: h₃ :: h₄ :: cs₂ =>
            match unicodeEscape h₁ h₂ h₃ h₄, parseChars cs₂ with
            | some ch, some p => some (ch :: p.1, p.2)
            | _, _ => none
          | _ => none
        else
          match unescape e, parseChars cs₁ with
          | some ch, some p => some (ch :: p.1, p.2)
          | _, _ => none
    else if c.toNat < 32 then none
    else
      match parseChars cs with
      | some p => some (c :: p.1, p.2)
      | none => none

/-- The decimal digits. -/
def isDigit (c : Char) : Bool :=
  48 ≤ c.toNat && c.toNat ≤ 57

/-- Reading a run of digits onto the number read so far. -/
def parseDigits (acc : Nat) : List Char → Nat × List Char
  | [] => (acc, [])
  | c :: cs => if isDigit c then parseDigits (10 * acc + (c.toNat - 48)) cs else (acc, c :: cs)

/-- Whether the text starts with a character of the given kind. -/
def headIs (p : Char → Bool) : List Char → Bool
  | [] => false
  | c :: _ => p c

/-- The characters that start a fraction or an exponent. -/
def startsFraction (c : Char) : Bool :=
  c = '.' || c = 'e' || c = 'E'

/-- Reading a number without sign: no leading zero, and no fraction or exponent
since the numbers of the model are integers. -/
def parseNat (cs : List Char) : Option (Nat × List Char) :=
  if headIs isDigit cs then
    if headIs (fun c => c = '0') cs ∧ headIs isDigit cs.tail then none
    else if headIs startsFraction (parseDigits 0 cs).2 then none
    else some (parseDigits 0 cs)
  else none

/-- The text after a number does not go on as a number. -/
def numEnd (rest : List Char) : Prop :=
  headIs isDigit rest = false ∧ headIs startsFraction rest = false

mutual
/-- Reading a JSON value, with the text after it; `fuel` bounds the nesting and
the number of elements. -/
def parseValue : Nat → List Char → Option (JSON × List Char)
  | 0, _ => none
  | fuel + 1, cs =>
    match skipWs cs with
    | [] => none
    | c :: rest =>
      if c = 'n' then
        if rest.take 3 = ['u', 'l', 'l'] then some (.null, rest.drop 3) else none
      else if c = 't' then
        if rest.take 3 = ['r', 'u', 'e'] then some (.bool true, rest.drop 3) else none
      else if c = 'f' then
        if rest.take 4 = ['a', 'l', 's', 'e'] then some (.bool false, rest.drop 4) else none
      else if c = dquote then
        match parseChars rest with
        | some p => some (.str (String.mk p.1), p.2)
        | none => none
      else if c = '[' then
        if headIs (fun d => d = ']') (skipWs rest) then some (.arr [], (skipWs rest).tail)
        else
          match parseItems fuel rest with
          | some p => some (.arr p.1, p.2)
          | none => none
      else if c = '{' then
        if headIs (fun d => d = '}') (skipWs rest) then some (.obj [], (skipWs rest).tail)
        else
          match parseMembers fuel rest with
          | some p => some (.obj p.1, p.2)
          | none => none
      else if c = '-' then
        match parseNat rest with
        | some p => some (.num (-(p.1 : Int)), p.2)
        | none => none
      else
        match parseNat (c :: rest) with
        | some p => some (.num (p.1 : Int), p.2)
        | none => none

/-- Reading the elements of a non-empty array up to the closing bracket. -/
def parseItems : Nat → List Char → Option (List JSON × List Char)
  | 0, _ => none
  | fuel + 1, cs =>
    match parseValue fuel cs with
    | none => none
    | some (v, rest) =>
      match skipWs rest with
      | [] => none
      | d :: r =>
        if d = ',' then
          match parseItems fuel r with
          | some p => some (v :: p.1, p.2)
          | none => none
        else if d = ']' then some ([v], r)
        else none

/-- Reading the members of a non-empty object up to the closing brace. -/
def parseMembers : Nat → List Char → Option (List (String × JSON) × List Char)
  | 0, _ => none
  | fuel + 1, cs =>
    match skipWs cs with
    | [] => none
    | q :: afterQuote =>
      if q = dquote then
        match parseChars afterQuote with
        | none => none
        | some (k, afterKey) =>
          match skipWs afterKey with
          | [] => none
          | c :: afterColon =>
            if c = ':' then
              match parseValue fuel afterColon with
              | none => none
              | some (v, rest) =>
                match skipWs rest with
                | [] => none
                | d :: r =>
                  if d = ',' then
                    match parseMembers fuel r with
                    | some p => some ((String.mk k, v) :: p.1, p.2)
                    | none => none
                  else if d = '}' then some ([(String.mk k, v)], r)
                  else none
            else none
      else none
end

/-- The built-in `JSON.parse` on the texts of the model; `none` where it throws. -/
def JSON.parse (text : String) : Option JSON :=
  match parseValue (text.data.length + 1) text.data with
  | some (v, rest) => if (skipWs rest).isEmpty then some v else none
  | none => none

/-- The characters a value can start with. -/
def startsValue (c : Char) : Prop :=
  isWs c = false ∧ c ≠ ']' ∧ c ≠ '}' ∧ c ≠ ','

/-! ## Browsers and stores for the statements -/

/-- The contract of the JSON built-ins on the values of the model: the text
of a value is never empty and parses back to the value, with and without
indentation. -/
structure Browser.RoundTrips (B : Browser) : Prop where
  stringify_ne : ∀ v, B.stringify v ≠ ""
  parse_stringify : ∀ v, B.parse (B.stringify v) = some v
  parse_indented : ∀ v n, B.parse (B.stringifyIndented v n) = some v

/-- The browser whose JSON built-ins are `JSON.stringify` and `JSON.parse` as
defined above, with the given date formatting and storage quota. -/
def jsonBrowser (toISOString : Int → String) (quotaExceeded : Store → String → String → Bool) :
    Browser :=
  { toISOString := toISOString
    stringify := fun v => v.stringify 0
    stringifyIndented := fun v n => v.stringify n
    parse := JSON.parse
    quotaExceeded := quotaExceeded }

/-- A browser whose storage accepts every write. -/
def roomyBrowser : Browser :=
  jsonBrowser exampleBrowser.toISOString (fun _ _ _ => false)

/-- A browser whose storage is full: every `setItem` throws. -/
def fullBrowser : Browser :=
  jsonBrowser exampleBrowser.toISOString (fun _ _ _ => true)

/-- The empty `localStorage`. -/
def emptyStore : Store :=
  fun _ => none

/-- A call of `save` or `remove` on a `StorageManager`. -/
inductive StorageOp where
  | save (key : String) (data : JSON)
  | remove (key : String)

/-- The key a storage call is made on. -/
def StorageOp.key : StorageOp → String
  | .save key _ => key
  | .remove key => key

/-- The store after one storage call. -/
def StorageManager.perform (B : Browser) (sm : StorageManager) (ls : Store) : StorageOp → Store
  | .save key data => (sm.save B ls key data).1
  | .remove key => sm.remove ls key

/-- The store after a sequence of storage calls. -/
def StorageManager.performAll (B : Browser) (sm : StorageManager) (ls : Store)
    (ops : List StorageOp) : Store :=
  ops.foldl (sm.perform B) ls

/-! ## Export functions -/

/-- The arguments `downloadFile` is called with. -/
structure Download where
  content : String
  filename : String
  mimeType : String

/-- The function `exportToJSON`: the download it starts. -/
def exportToJSON (B : Browser) (data : JSON) (filename : String) : Download :=
  { content := B.stringifyIndented data 2
    filename := filename
    mimeType := "application/json" }

/-- A row handed to `exportToCSV`: the own properties of the object in the
order `Object.keys` lists them, `none` standing for the value `undefined`. -/
abbrev Row := List (String × Option JSON)

/-- The read `row[h]`; a missing key reads as `undefined` (what a row
inherits from `Object.prototype` is not modelled). -/
def Row.get (row : Row) (h : String) : Option JSON :=
  (row.find? (fun p => p.1 = h)).bind Prod.snd

/-- The method `Array.prototype.join` on an array of strings and `undefined`s;
`undefined` is rendered as the empty string. -/
def arrayJoin (sep : String) (xs : List (Option String)) : String :=
  sep.intercalate (xs.map fun x => x.getD "")

/-- The function `exportToCSV`: the download it starts, or `none` when it
raises (`Object.keys(data[0])` on an empty array). -/
def exportToCSV (B : Browser) (data : List Row) (filename : String) : Option Download :=
  match data with
  | [] => none
  | first :: _ =>
    let headers := first.map Prod.fst
    let csv := arrayJoin "\n"
      (some (arrayJoin "," (headers.map some)) ::
        data.map fun row =>
          some (arrayJoin "," (headers.map fun h => (row.get h).map B.stringify)))
    some { content := csv, filename := filename, mimeType := "text/csv" }

/-- The object `processFile` pushes onto `processedResults` for an image:
`{filename, type, size, ...result}` with the result of `analyzeImage`, which
is `{...analysis, frames: 1, width, height}`. -/
def processedImageRow (filename type : String) (size : Int) (r : Result) (width height : Int) :
    Row :=
  [("filename", some (.str filename)),
   ("type", some (.str type)),
   ("size", some (.num size)),
   ("emotions", some (emotionsToJSON r.emotions)),
   ("dominant", some (.str r.dominant.name)),
   ("confidence", some (.num r.confidence)),
   ("timestamp", some (.str r.timestamp)),
   ("frames", some (.num 1)),
   ("width", some (.num width)),
   ("height", some (.num height))]

/-- A batch result for the worked examples. -/
def batchRow : Row :=
  processedImageRow "a.png" "image/png" 2048
    { emotions := fun _ => 14, dominant := .happy, confidence := 14, timestamp := "t" } 640 480

/-- The rows of the example of the specification: `[{a:1,b:2}, {a:3}]`. -/
def abRows : List Row :=
  [[("a", some (.num 1)), ("b", some (.num 2))], [("a", some (.num 3))]]

/-- The text of a cell as the claims describe it: the JSON serialization of
the value the row has for the header key, empty when the row has none. -/
def csvCell (B : Browser) (row : Row) (h : String) : String :=
  match row.get h with
  | some v => B.stringify v
  | none => ""

/-- The header line of the table built for `[batchRow]`. -/
def batchHeader : String :=
  "filename,type,size,emotions,dominant,confidence,timestamp,frames,width,height"

/-- The data line of the table built for `[batchRow]`. -/
def batchLine : String :=
  "\"a.png\",\"image/png\",2048,\x7b\"happy\":14,\"sad\":14,\"angry\":14,\"surprised\":14,\"fear\":14,\"disgust\":14,\"neutral\":14\x7d,\"happy\",14,\"t\",1,640,480"

/-- The number of fields a line splits into at the delimiter. -/
def fieldCount (line : String) : Nat :=
  line.data.count ',' + 1

/-! ## Mock analysis -/

/-- The numbers the mock analysis computes with: an integer, `NaN`, or an
infinity. -/
inductive Num where
  | nan
  | negInf
  | int (n : Int)
  | posInf
  deriving DecidableEq, Repr

/-- The expression `Math.round((s / total) * 100)` on exact rationals; a zero
total gives `NaN` for a zero score and an infinity otherwise. The program
rounds the quotient and the product to Numbers first: see `Number.percent`. -/
def percent (s total : ℚ) : Num :=
  if total = 0 then
    if s = 0 then .nan else if 0 < s then .posInf else .negInf
  else
    .int (Math.round (s / total * 100))

/-- The larger of two numbers as `Math.max` takes it: `NaN` if either is. -/
def Num.max : Num → Num → Num
  | .nan, _ => .nan
  | _, .nan => .nan
  | .posInf, _ => .posInf
  | _, .posInf => .posInf
  | .negInf, b => b
  | a, .negInf => a
  | .int a, .int b => .int (if a < b then b else a)

/-- The function `Math.max` applied to the elements of an array; with no
argument it is `-Infinity`. -/
def Math.max (xs : List Num) : Num :=
  xs.foldl Num.max .negInf

/-- Strict equality `===` of two numbers; `NaN` equals nothing. -/
def Num.strictEq : Num → Num → Bool
  | .nan, _ => false
  | _, .nan => false
  | a, b => a = b

/-- The method `Array.prototype.indexOf`; `none` is the result `-1`. -/
def indexOf (xs : List Num) (x : Num) : Option Nat :=
  if xs.findIdx (fun y => y.strictEq x) < xs.length then
    some (xs.findIdx fun y => y.strictEq x)
  else
    none

/-- The object `analyzeExpression` resolves with, as computed: `emotions` is
the object `result`, `dominant` is `none` when it is `undefined`. -/
structure Analysis where
  emotions : List (Emotion × Num)
  dominant : Option Emotion
  confidence : Num
  timestamp : String

/-- The read `emotions[e]`. -/
def Analysis.score (a : Analysis) (e : Emotion) : Option Num :=
  (a.emotions.find? (fun p => p.1 = e)).map Prod.snd

/-- The value of `total` in `analyzeExpression`: `scores.reduce((a, b) => a + b, 0)`
for the draws `draw`, on exact rationals. -/
def totalScore (draw : Emotion → ℚ) : ℚ :=
  (EMOTIONS.map draw).foldl (fun a b => a + b) 0

/-- The function `analyzeExpression` on exact rationals: `draw e` is the value
of `Math.random()` drawn for the label `e`, `timestamp` the text of
`new Date().toISOString()`. The computation of the program, which rounds every
result to a Number, is `Number.analyzeExpression`; the two agree at a zero
total. -/
def analyzeExpression (draw : Emotion → ℚ) (timestamp : String) : Analysis :=
  let scores := EMOTIONS.map draw
  let total := totalScore draw
  let normalized := scores.map fun s => percent s total
  let result := EMOTIONS.zip normalized
  let dominant := (indexOf normalized (Math.max normalized)).bind fun i => EMOTIONS[i]?
  { emotions := result
    dominant := dominant
    confidence := Math.max normalized
    timestamp := timestamp }

/-- A store whose archive holds sixty entries. -/
def crowdedStore : Store :=
  (storage.save roomyBrowser emptyStore "sessions" (.arr (List.replicate 60 .null))).1

/-- A store whose archive holds exactly fifty entries. -/
def fiftyStore : Store :=
  (storage.save roomyBrowser emptyStore "sessions" (.arr (List.replicate 50 .null))).1

/-- A store whose `sessions` entry is not JSON text. -/
def brokenStore : Store :=
  Function.update emptyStore "expression_analyser_sessions" (some "[oops")

/-- The larger of two integers, as `Num.max` takes it. -/
def intMax (a b : Int) : Int :=
  if a < b then b else a

/-- The percentage `round(100 * s / total)` for the label `e`, on exact
rationals. -/
def percentOf (draw : Emotion → ℚ) (e : Emotion) : Int :=
  Math.round (draw e / totalScore draw * 100)

/-- Draws for the worked examples: a half for sad, a quarter for every other
label. -/
def sadDraws : Emotion → ℚ
  | .sad => 1 / 2
  | _ => 1 / 4

/-! ## Numbers -/

/-- The number of binary digits of `n`, counted with the fuel `fuel`. -/
def bitLengthAux : Nat → Nat → Nat
  | 0, _ => 0
  | fuel + 1, n => if n = 0 then 0 else bitLengthAux fuel (n / 2) + 1

/-- The number of binary digits of `n`; `0` has none. -/
def bitLength (n : Nat) : Nat :=
  bitLengthAux n n

/-- The integer nearest to `a / b`, a tie going to the even one. -/
def roundHalfEven (a b : Nat) : Nat :=
  if 2 * (a % b) < b then a / b
  else if b < 2 * (a % b) then a / b + 1
  else if a / b % 2 = 0 then a / b
  else a / b + 1

/-- The scale at which `p / q` has a significand of 53 binary digits: the
pair `(up, down)` with `2 ^ 52 ≤ (p / q) * 2 ^ up / 2 ^ down < 2 ^ 53`, one of
the two being `0`. -/
def binaryScale (p q : Nat) : Nat × Nat :=
  let d : Int := (bitLength p : Int) - (bitLength q : Int)
  let e : Int := if q * 2 ^ d.toNat ≤ p * 2 ^ (-d).toNat then d else d - 1
  ((52 - e).toNat, (e - 52).toNat)

/-- The significand of the Number nearest to `p / q`: with `(up, down)` the
scale of `p / q`, that Number is `significand * 2 ^ down / 2 ^ up`. -/
def significand (p q : Nat) : Nat :=
  roundHalfEven (p * 2 ^ (binaryScale p q).1) (q * 2 ^ (binaryScale p q).2)

/-- The value of `Math.floor(p / q)` for two whole Numbers `p` and `q`, the
division being rounded to the nearest Number. -/
def Number.floorDiv (p q : Nat) : Nat :=
  significand p q * 2 ^ (binaryScale p q).2 / 2 ^ (binaryScale p q).1

/-- The Number nearest to the integer `n`. -/
def Number.ofNat (n : Nat) : Nat :=
  Number.floorDiv n 1

/-- The Number nearest to a rational, a tie going to the even significand; the
rationals beyond the largest Number or below the smallest normal one, which no
computation here reaches, are rounded in the same way. -/
def Number.ofRat (x : ℚ) : ℚ :=
  let p := x.num.natAbs
  let q := x.den
  let v : ℚ := (significand p q : ℚ) * 2 ^ (binaryScale p q).2 / 2 ^ (binaryScale p q).1
  if x < 0 then -v else v

/-- The multiple of `10 ^ j` that `Number.prototype.toString` may print for the
whole Number `x`: the one nearest to `x` among the multiples next to `x` whose
nearest Number is `x`, if there is one. -/
def shortestCandidate (x j : Nat) : Option Nat :=
  let below := x / 10 ^ j * 10 ^ j
  let above := below + 10 ^ j
  let c₁ := below ≠ 0 ∧ Number.ofNat below = x
  let c₂ := Number.ofNat above = x
  if c₁ ∧ c₂ then
    if x - below < above - x then some below
    else if above - x < x - below then some above
    else if x / 10 ^ j % 2 = 0 then some below
    else some above
  else if c₁ then some below
  else if c₂ then some above
  else none

/-- The integer whose digits `Number.prototype.toString` prints for the whole
Number `x`: among the integers whose nearest Number is `x`, one with the
fewest significant digits. -/
def shortest (x : Nat) : Nat :=
  if x = 0 then 0
  else ((List.range (bitLength x + 1)).reverse.findSome? (shortestCandidate x)).getD x

/-- An integer without its trailing zeros, counted with fuel. -/
def stripZeros : Nat → Nat → Nat
  | 0, n => n
  | fuel + 1, n => if n ≠ 0 ∧ n % 10 = 0 then stripZeros fuel (n / 10) else n

/-- The method `Number.prototype.toString` on a whole Number that is not
negative: plain digits below `10 ^ 21`, a decimal fraction with an exponent
from there on. -/
def Number.toString (x : Nat) : String :=
  let n := shortest x
  if n < 10 ^ 21 then Nat.repr n
  else
    let digits := (Nat.repr (stripZeros n n)).data
    let fraction := if digits.length > 1 then '.' :: digits.tail else []
    String.mk (digits.take 1 ++ fraction) ++ "e+" ++ Nat.repr ((Nat.repr n).length - 1)

/-- The value of `total` in `analyzeExpression` on Numbers: every addition of
`scores.reduce((a, b) => a + b, 0)` is rounded; a draw is the Number nearest
to `draw e`. -/
def Number.totalScore (draw : Emotion → ℚ) : ℚ :=
  (EMOTIONS.map fun e => Number.ofRat (draw e)).foldl (fun a b => Number.ofRat (a + b)) 0

/-- The expression `Math.round((s / total) * 100)` on Numbers: the division
and the multiplication are each rounded to the nearest Number, `Math.round`
takes the integer nearest to the result. A zero total gives `NaN` for a zero
score and an infinity otherwise. -/
def Number.percent (s total : ℚ) : Num :=
  if total = 0 then
    if s = 0 then .nan else if 0 < s then .posInf else .negInf
  else
    .int (Math.round (Number.ofRat (Number.ofRat (s / total) * 100)))

/-- The percentage `analyzeExpression` computes on Numbers for the label
`e`. -/
def Number.percentOf (draw : Emotion → ℚ) (e : Emotion) : Int :=
  Math.round
    (Number.ofRat (Number.ofRat (Number.ofRat (draw e) / Number.totalScore draw) * 100))

/-- The function `analyzeExpression` as the program computes it, on Numbers:
`draw e` is the value of `Math.random()` drawn for the label `e`, `timestamp`
the text of `new Date().toISOString()`. The function `analyzeExpression` above
is the same computation on exact rationals. -/
def Number.analyzeExpression (draw : Emotion → ℚ) (timestamp : String) : Analysis :=
  let scores := EMOTIONS.map fun e => Number.ofRat (draw e)
  let total := Number.totalScore draw
  let normalized := scores.map fun s => Number.percent s total
  let result := EMOTIONS.zip normalized
  let dominant := (indexOf normalized (Math.max normalized)).bind fun i => EMOTIONS[i]?
  { emotions := result
    dominant := dominant
    confidence := Math.max normalized
    timestamp := timestamp }

/-- Draws that put four scores on a tie of the rounding: 28, 29, 29, 29, 29,
28 and 28 parts of 256. -/
def nearTieDraws : Emotion → ℚ
  | .happy => 28 / 256
  | .sad => 29 / 256
  | .angry => 29 / 256
  | .surprised => 29 / 256
  | .fear => 29 / 256
  | .disgust => 28 / 256
  | .neutral => 28 / 256

/-! ## Durations -/

/-- The method `String.prototype.padStart` with a one-character pad. -/
def padStart (s : String) (targetLength : Nat) (pad : Char) : String :=
  String.mk (List.replicate (targetLength - s.length) pad) ++ s

/-- The function `formatDuration` on the integer `seconds`, which it receives
as the Number nearest to it. From `2 ^ 1024` on that is `Infinity`, whose
quotient is `Infinity` and whose remainders are `NaN`. The remainders of a
finite Number are exact. -/
def formatDuration (seconds : Nat) : String :=
  let seconds := Number.ofNat seconds
  if 1024 < bitLength seconds then "Infinity:NaN:NaN"
  else
    let hrs := Number.floorDiv seconds 3600
    let mins := Number.floorDiv (seconds % 3600) 60
    let secs := seconds % 60
    padStart (Number.toString hrs) 2 '0' ++ ":" ++ padStart (Number.toString mins) 2 '0' ++
      ":" ++ padStart (Number.toString secs) 2 '0'

/-- The two-digit numeral of a number below one hundred. -/
def twoDigits (k : Nat) : List Char :=
  [Nat.digitChar (k / 10), Nat.digitChar (k % 10)]

/-! ## The upload page -/

/-- The method `String.prototype.startsWith`. -/
def startsWith (s p : String) : Bool :=
  p.data.isPrefixOf s.data

/-- What the code reads of a `File`: its name, its MIME type and its size in
bytes. -/
structure File where
  name : String
  type : String
  size : Nat
  deriving DecidableEq

/-- The values the field `status` of a queue item takes. -/
inductive Status where
  | pending
  | processing
  | completed
  | error
  deriving DecidableEq

/-- An item of the queue `uploadedFiles`; `result` is `none` while it is
`null`. -/
structure QueueItem where
  file : File
  id : String
  status : Status
  result : Option Row

/-- The two module variables of the upload page. -/
structure UploadPage where
  uploadedFiles : List QueueItem
  processedResults : List Row

/-- The page as the script leaves it when it is loaded. -/
def UploadPage.initial : UploadPage :=
  { uploadedFiles := [], processedResults := [] }

/-- The test of the filter in `handleFiles`: an image or a video, of at most
50 MB. -/
def isValidFile (file : File) : Bool :=
  let isImage := startsWith file.type "image/"
  let isVideo := startsWith file.type "video/"
  let isValidSize := decide (file.size ≤ 50 * 1024 * 1024)
  if !isImage && !isVideo then false
  else if !isValidSize then false
  else true

/-- The item `handleFiles` pushes for a file: `now` is the reading of the
clock and `random` the text of the number drawn for its identifier. -/
def newItem (file : File) (now : Nat) (random : String) : QueueItem :=
  { file := file
    id := "file_" ++ toString now ++ "_" ++ random
    status := .pending
    result := none }

/-- The part of `processFile(index)` that runs before its first `await`: a
pending item is marked as processing. -/
def processFileBegin (page : UploadPage) (index : Nat) : UploadPage :=
  match page.uploadedFiles[index]? with
  | none => page
  | some item =>
    if item.status ≠ .pending then page
    else { page with uploadedFiles := page.uploadedFiles.set index { item with status := .processing } }

/-- The part of `processAllFiles()` that runs before its first `await`: the
loop reaches the first pending item and starts `processFile` on it. -/
def processAllFilesBegin (page : UploadPage) : UploadPage :=
  let pendingFiles := page.uploadedFiles.filter fun f => f.status = .pending
  if pendingFiles.length = 0 then page
  else
    match page.uploadedFiles.findIdx? (fun f => f.status = .pending) with
    | none => page
    | some i => processFileBegin page i

/-- The function `handleFiles`, up to its return: `now i` and `random i` are
the clock reading and the text of the number drawn for the `i`-th valid file,
`autoProcess` tells whether the box `autoProcess` is checked. -/
def handleFiles (page : UploadPage) (files : List File) (now : Nat → Nat) (random : Nat → String)
    (autoProcess : Bool) : UploadPage :=
  let validFiles := files.filter isValidFile
  if validFiles.length = 0 then page
  else
    let pushed : UploadPage :=
      { page with
        uploadedFiles := page.uploadedFiles ++
          validFiles.enum.map fun p => newItem p.2 (now p.1) (random p.1) }
    if autoProcess then processAllFilesBegin pushed else pushed

/-- The object spread `{...target, ...source}`: a key of `source` that
`target` has keeps its place and takes the new value, a new key goes last. -/
def spread (target source : Row) : Row :=
  source.foldl
    (fun acc p =>
      if acc.any (fun q => q.1 = p.1) then acc.map (fun q => if q.1 = p.1 then p else q)
      else acc ++ [p])
    target

/-- A complete run of `processFile(index)`, from the call to the settling of
its promise, with no other operation in between. `analysis` is what loading
and analysing the file give: the result object, or `none` when one of them
raises. -/
def processFile (page : UploadPage) (index : Nat) (analysis : Option Row) : UploadPage :=
  match page.uploadedFiles[index]? with
  | none => page
  | some item =>
    if item.status ≠ .pending then page
    else
      match analysis with
      | some result =>
        { uploadedFiles :=
            page.uploadedFiles.set index { item with result := some result, status := .completed }
          processedResults := page.processedResults ++
            [spread [("filename", some (.str item.file.name)),
                     ("type", some (.str item.file.type)),
                     ("size", some (.num item.file.size))] result] }
      | none =>
        { page with uploadedFiles := page.uploadedFiles.set index { item with status := .error } }

/-- The function `removeFile`: `uploadedFiles.splice(index, 1)`. -/
def removeFile (page : UploadPage) (index : Nat) : UploadPage :=
  { page with uploadedFiles := page.uploadedFiles.eraseIdx index }

/-- The function `clearQueue`; `confirmed` is the answer to its question. -/
def clearQueue (page : UploadPage) (confirmed : Bool) : UploadPage :=
  if page.uploadedFiles.length = 0 then page
  else if confirmed then { uploadedFiles := [], processedResults := [] }
  else page

/-- The number `updateStats` shows as processed: the queue items whose status
is completed. -/
def processedFiles (page : UploadPage) : Nat :=
  (page.uploadedFiles.filter fun f => f.status = .completed).length

/-- An image file for the worked examples. -/
def pngFile : File :=
  { name := "a.png", type := "image/png", size := 2048 }

/-- The result object of an image analysis for the worked examples. -/
def pngResult : Row :=
  [("emotions", some (emotionsToJSON fun _ => 14)),
   ("dominant", some (.str "happy")),
   ("confidence", some (.num 14)),
   ("timestamp", some (.str "t")),
   ("frames", some (.num 1)),
   ("width", some (.num 640)),
   ("height", some (.num 480))]

/-! ## Video analysis and batches -/

/-- The sum `a + b` of two numbers: `NaN` if either is, or if the two are
opposite infinities. -/
def Num.add : Num → Num → Num
  | .nan, _ => .nan
  | _, .nan => .nan
  | .posInf, .negInf => .nan
  | .negInf, .posInf => .nan
  | .posInf, _ => .posInf
  | _, .posInf => .posInf
  | .negInf, _ => .negInf
  | _, .negInf => .negInf
  | .int a, .int b => .int (a + b)

/-- The expression `Math.round(sum / length)` for a sum and the length of an
array: `0 / 0` is `NaN`, another number over `0` is an infinity. -/
def roundedMean (sum : Num) (length : Nat) : Num :=
  match sum with
  | .nan => .nan
  | .posInf => .posInf
  | .negInf => .negInf
  | .int s =>
    if length = 0 then
      if s = 0 then .nan else if 0 < s then .posInf else .negInf
    else
      .int (Math.round ((s : ℚ) / (length : ℚ)))

/-- The object `analyzeVideo` resolves with; `dominant` is `none` when it is
`undefined`. -/
structure VideoResult where
  emotions : List (Emotion × Num)
  dominant : Option Emotion
  confidence : Num
  frames : Int
  sampledFrames : Num
  timestamp : String
  deriving DecidableEq

/-- The read `emotions[e]` on a video result. -/
def VideoResult.score (v : VideoResult) (e : Emotion) : Option Num :=
  (v.emotions.find? (fun p => p.1 = e)).map Prod.snd

/-- The value of `sampled`, `Math.floor(frameCount / samplingRate)`; a rate of
`0` gives `Infinity` for a positive frame count. -/
def sampledFrames (frameCount : Int) (samplingRate : Nat) : Num :=
  if samplingRate = 0 then
    if frameCount = 0 then .nan else if 0 < frameCount then .posInf else .negInf
  else
    .int ⌊(frameCount : ℚ) / (samplingRate : ℚ)⌋

/-- The number of turns of the loop `for (i = 0; i < Math.min(sampled, 5); i++)`. -/
def analysedFrames : Num → Nat
  | .nan => 0
  | .negInf => 0
  | .posInf => 5
  | .int k => (min k 5).toNat

/-- The function `analyzeVideo`. `samplingRate` is the whole number `parseInt`
reads from the control `videoSampling`, `frameDraw` the number drawn for the
frame count, `draws i` the seven numbers drawn by the `i`-th call of
`analyzeExpression` and `stamps i` its timestamp, `timestamp` the text of the
final `new Date().toISOString()`. -/
def analyzeVideo (samplingRate : Nat) (frameDraw : ℚ) (draws : Nat → Emotion → ℚ)
    (stamps : Nat → String) (timestamp : String) : VideoResult :=
  let frameCount := ⌊Number.ofRat (Number.ofRat frameDraw * 100)⌋ + 10
  let sampled := sampledFrames frameCount samplingRate
  let results := (List.range (analysedFrames sampled)).map fun i =>
    Number.analyzeExpression (draws i) (stamps i)
  let avgEmotions := EMOTIONS.map fun emotion =>
    (emotion,
      roundedMean (results.foldl (fun sum r => sum.add ((r.score emotion).getD .nan)) (.int 0))
        results.length)
  let values := avgEmotions.map Prod.snd
  { emotions := avgEmotions
    dominant := (indexOf values (Math.max values)).bind fun i => EMOTIONS[i]?
    confidence := Math.max values
    frames := frameCount
    sampledFrames := sampled
    timestamp := timestamp }

/-- A number as `JSON.stringify` writes it: `NaN` and the infinities become
`null`. -/
def Num.toJSON : Num → JSON
  | .int n => .num n
  | _ => .null

/-- A row as a JSON value: `JSON.stringify` leaves out the members whose
value is `undefined`. -/
def Row.toJSON (row : Row) : JSON :=
  .obj (row.filterMap fun p => p.2.map fun v => (p.1, v))

/-- The object `saveBatchResults` puts in front of the stored batches; `now₁`
is the clock reading of its identifier, `now₂` that of its timestamp. -/
def batchSummary (B : Browser) (page : UploadPage) (now₁ now₂ : Nat) : JSON :=
  .obj [("id", .str ("batch_" ++ toString now₁)),
        ("timestamp", .str (B.toISOString now₂)),
        ("fileCount", .num page.uploadedFiles.length),
        ("results", .arr (page.processedResults.map Row.toJSON))]

/-- The function `saveBatchResults`: the store afterwards, or `none` when the
call raises (`unshift` on a loaded value that is not an array). -/
def saveBatchResults (B : Browser) (page : UploadPage) (now₁ now₂ : Nat) (ls : Store) :
    Option Store :=
  let loaded := storage.load B ls "batches"
  let batches := if loaded.truthy then loaded else .arr []
  match batches with
  | .arr items =>
    let unshifted := batchSummary B page now₁ now₂ :: items
    let kept := if unshifted.length > 20 then unshifted.take 20 else unshifted
    some (storage.save B ls "batches" (.arr kept)).1
  | _ => none

/-- A store whose `batches` entry holds twenty-five entries. -/
def batchStore : Store :=
  (storage.save roomyBrowser emptyStore "batches" (.arr (List.replicate 25 .null))).1

/-- The upload page after one image was queued and processed. -/
def processedPage : UploadPage :=
  processFile (handleFiles UploadPage.initial [pngFile] (fun _ => 5) (fun _ => "0.5") false) 0
    (some pngResult)

/-! ## The dashboard -/

/-- The comparison `a > b` of two numbers; a comparison with `NaN` is
false. -/
def Num.gt : Num → Num → Bool
  | .nan, _ => false
  | _, .nan => false
  | .negInf, _ => false
  | _, .posInf => false
  | .posInf, _ => true
  | _, .negInf => true
  | .int a, .int b => decide (a > b)

/-- The difference `a - b` of two numbers. -/
def Num.sub : Num → Num → Num
  | .nan, _ => .nan
  | _, .nan => .nan
  | .posInf, .posInf => .nan
  | .negInf, .negInf => .nan
  | .posInf, _ => .posInf
  | .negInf, _ => .negInf
  | _, .posInf => .negInf
  | _, .negInf => .posInf
  | .int a, .int b => .int (a - b)

/-- The read `v[key]` on a value that is not `null`; `none` is `undefined`. Of
several members with one name the last counts, as `JSON.parse` keeps it. What
a value inherits from its prototype is not modelled. -/
def JSON.get (v : JSON) (key : String) : Option JSON :=
  match v with
  | .obj members => (members.reverse.find? fun p => p.1 = key).map Prod.snd
  | _ => none

/-- Optional chaining `v?.key` on the result of a read. -/
def optionalGet (v : Option JSON) (key : String) : Option JSON :=
  match v with
  | none => none
  | some .null => none
  | some w => w.get key

mutual
/-- The text a value turns into inside a template literal. -/
def JSON.toText : JSON → String
  | .null => "null"
  | .bool b => if b then "true" else "false"
  | .num n => toString n
  | .str s => s
  | .arr items => JSON.joinText items
  | .obj _ => "[object Object]"
/-- The text of an array: its elements joined with commas, `null` giving the
empty text. -/
def JSON.joinText : List JSON → String
  | [] => ""
  | .null :: [] => ""
  | x :: [] => x.toText
  | .null :: rest => "," ++ JSON.joinText rest
  | x :: rest => x.toText ++ "," ++ JSON.joinText rest
end

/-- The text of the result of a read inside a template literal. -/
def templateText : Option JSON → String
  | none => "undefined"
  | some v => v.toText

/-- What the read `ranges[key]` gives: one of the four numbers of the table,
a member every object inherits from `Object.prototype`, or `undefined`. -/
inductive RangeEntry where
  | millis (n : Num)
  | inherited
  | undefined

/-- The names of the members every object inherits from `Object.prototype`. -/
def inheritedNames : List String :=
  ["constructor", "__defineGetter__", "__defineSetter__", "hasOwnProperty", "__lookupGetter__",
   "__lookupSetter__", "isPrototypeOf", "propertyIsEnumerable", "toString", "valueOf",
   "__proto__", "toLocaleString"]

/-- The read `ranges[key]` on the table `ranges` of `loadDashboardData`, whose
own members are four numbers of milliseconds. -/
def ranges (key : String) : RangeEntry :=
  if key = "today" then .millis (.int (24 * 60 * 60 * 1000))
  else if key = "week" then .millis (.int (7 * 24 * 60 * 60 * 1000))
  else if key = "month" then .millis (.int (30 * 24 * 60 * 60 * 1000))
  else if key = "all" then .millis .posInf
  else if key ∈ inheritedNames then .inherited
  else .undefined

/-- The value of `cutoff`: `now - (ranges[timeRange] || ranges.week)`. The four
numbers are truthy; an inherited member is a function or an object, which is
truthy too and counts as `NaN` in the subtraction; only `undefined` gives way
to `ranges.week`. -/
def cutoff (timeRange : String) (now : Nat) : Num :=
  match ranges timeRange with
  | .millis n => (Num.int now).sub n
  | .inherited => .nan
  | .undefined => (Num.int now).sub (.int (7 * 24 * 60 * 60 * 1000))

/-- The call `allSessions.filter(s => new Date(s.startTime).getTime() > cutoff)`;
`getTime v` is the built-in `new Date(v).getTime()`. The result is `none` when
the call raises: reading `startTime` of `null`. -/
def filterSessions (getTime : Option JSON → Num) (cutoff : Num) : List JSON → Option (List JSON)
  | [] => some []
  | .null :: _ => none
  | s :: rest =>
    (filterSessions getTime cutoff rest).map fun kept =>
      if (getTime (s.get "startTime")).gt cutoff then s :: kept else kept

/-- The integer a `Date` is built on for a number that is not whole: the
number cut towards zero. -/
def truncate (x : ℚ) : Int :=
  if 0 ≤ x then ⌊x⌋ else ⌈x⌉

/-- The numbers `generateMockSessions` draws for one session, in the order it
draws them. -/
structure MockDraws where
  hoursAgo : ℚ
  duration : ℚ
  frames : ℚ
  emotions : Emotion → ℚ
  confidence : ℚ

/-- What `generateMockSessions` reads from its environment: the clock at its
start, the clock in each turn of its loop, and the numbers drawn in each
turn. -/
structure MockInput where
  now : Nat
  idNow : Nat → Nat
  draws : Nat → MockDraws

/-- The comparison `x > y` of two reads of a score; a comparison with
`undefined` is false. -/
def scoreGt : Option Num → Option Num → Bool
  | some x, some y => x.gt y
  | _, _ => false

/-- The object the `i`-th turn of the loop of `generateMockSessions` pushes;
`none` when the turn raises. Every draw is the Number nearest to the one given
and every product, sum and quotient is rounded to the nearest Number, as the
program computes it. -/
def mockSession (B : Browser) (input : MockInput) (i : Nat) : Option JSON :=
  let r := input.draws i
  let hoursAgo := Number.ofRat (Number.ofRat r.hoursAgo * 168)
  let startTime := truncate (Number.ofRat ((input.now : ℚ) -
    Number.ofRat (Number.ofRat (Number.ofRat (hoursAgo * 60) * 60) * 1000)))
  let duration := ⌊Number.ofRat (Number.ofRat r.duration * 300)⌋ + 60
  let frameCount :=
    ⌊Number.ofRat ((duration : ℚ) / 2)⌋ + ⌊Number.ofRat (Number.ofRat r.frames * 50)⌋
  let value := fun e => Number.ofRat (Number.ofRat (Number.ofRat (r.emotions e) * 30) + 20)
  let total := Number.totalScore value
  let emotions := EMOTIONS.map fun e => (e, Number.percent (value e) total)
  let score := fun e => (emotions.find? fun p => p.1 = e).map Prod.snd
  (reduce (fun a b => if scoreGt (score a) (score b) then a else b) (emotions.map Prod.fst)).map
    fun dominantEmotion =>
      .obj [("id", .num (input.idNow i + i)),
            ("startTime", .str (B.toISOString startTime)),
            ("duration", .num duration),
            ("frameCount", .num frameCount),
            ("dominantEmotion", .str dominantEmotion.name),
            ("avgConfidence", .num (⌊Number.ofRat (Number.ofRat r.confidence * 20)⌋ + 70)),
            ("emotions", .obj (emotions.map fun p => (p.1.name, p.2.toJSON)))]

/-- The function `generateMockSessions`: the sessions of the loop, sorted by
start time, latest first; the comparator `new Date(b.startTime) - new
Date(a.startTime)` puts `a` after `b` exactly when it is positive. -/
def generateMockSessions (B : Browser) (getTime : Option JSON → Num) (count : Nat)
    (input : MockInput) : Option (List JSON) :=
  ((List.range count).mapM (mockSession B input)).map fun sessions =>
    sessions.mergeSort fun a b =>
      !(getTime (b.get "startTime")).gt (getTime (a.get "startTime"))

/-- The two module variables of the dashboard the table depends on. -/
structure Dashboard where
  currentPage : Int
  sessionsData : List JSON

/-- The dashboard as the script leaves it when it is loaded, before the first
`loadDashboardData`. -/
def Dashboard.initial : Dashboard :=
  { currentPage := 1, sessionsData := [] }

/-- The function `loadDashboardData`, up to the assignment of `sessionsData`:
the dashboard after it, or `none` when the call raises before it. The
redrawing that follows changes neither variable, whether it returns or raises.
`now` is the clock reading of the call, `input` what `generateMockSessions`
reads if it is called. -/
def loadDashboardData (B : Browser) (getTime : Option JSON → Num) (d : Dashboard)
    (timeRange : String) (now : Nat) (input : MockInput) (ls : Store) : Option Dashboard :=
  let loaded := storage.load B ls "sessions"
  let allSessions := if loaded.truthy then loaded else .arr []
  match allSessions with
  | .arr items =>
    (filterSessions getTime (cutoff timeRange now) items).bind fun filtered =>
      if filtered.length < 10 then
        (generateMockSessions B getTime 15 input).map fun mock => { d with sessionsData := mock }
      else
        some { d with sessionsData := filtered }
  | _ => none

/-- The value of `totalPages` in `updateTable`. -/
def totalPages (d : Dashboard) : Int :=
  ⌈(d.sessionsData.length : ℚ) / 10⌉

/-- The method `Array.prototype.slice` with two whole arguments. -/
def slice {α : Type} (xs : List α) (start stop : Int) : List α :=
  let len : Int := xs.length
  let k := if start < 0 then max (len + start) 0 else min start len
  let final := if stop < 0 then max (len + stop) 0 else min stop len
  (xs.drop k.toNat).take (final - k).toNat

/-- The value of `pageData` in `updateTable`: the rows of the current page. -/
def pageData (d : Dashboard) : List JSON :=
  slice d.sessionsData ((d.currentPage - 1) * 10) ((d.currentPage - 1) * 10 + 10)

/-- The value `updateTable` gives the property `disabled` of the button
`prevPage`. -/
def prevDisabled (d : Dashboard) : Bool :=
  decide (d.currentPage = 1)

/-- The value `updateTable` gives the property `disabled` of the button
`nextPage`. -/
def nextDisabled (d : Dashboard) : Bool :=
  decide (d.currentPage = totalPages d)

/-- The function `changePage`. -/
def changePage (d : Dashboard) (delta : Int) : Dashboard :=
  { d with currentPage := d.currentPage + delta }

/-! ## The export entry points -/

/-- What an export entry point does before it returns: nothing, an alert, or
a download. -/
inductive Outcome where
  | nothing
  | alert (message : String)
  | download (d : Download)

/-- The two settings the export entry points read. -/
structure Settings where
  exportFormat : String
  includeTimestamp : Bool

/-- The values of `SettingsManager.defaults` for them. -/
def Settings.defaults : Settings :=
  { exportFormat := "csv", includeTimestamp := true }

/-- The expression `value || fallback` on a text. -/
def orDefault (value fallback : String) : String :=
  if value = "" then fallback else value

/-- The own members a spread `...v` copies from an object; of another value
none is copied (the indexed members of a text or an array are not
modelled). -/
def spreadSource : Option JSON → Row
  | some (.obj members) => members.map fun p => (p.1, some p.2)
  | _ => []

/-- The row `exportSession` builds for a sample; `none` when reading the
sample raises. -/
def sessionCsvRow (item : JSON) : Option Row :=
  match item with
  | .null => none
  | _ =>
    some (spread [("timestamp", item.get "timestamp"),
                  ("dominant", item.get "dominant"),
                  ("confidence", item.get "confidence")]
      (spreadSource (item.get "emotions")))

/-- The function `exportSession`; `none` when it raises. -/
def exportSession (B : Browser) (settings : Settings) (d : Dashboard) (index : Nat) :
    Option Outcome :=
  match d.sessionsData[index]? with
  | none => some .nothing
  | some session =>
    if !session.truthy then some .nothing
    else
      let format := orDefault settings.exportFormat "json"
      let filename := "session_" ++ templateText (session.get "sessionId")
      if format = "json" then
        some (.download (exportToJSON B session (filename ++ ".json")))
      else
        match session.get "data" with
        | some (.arr items) =>
          (items.mapM sessionCsvRow).bind fun csvData =>
            (exportToCSV B csvData (filename ++ ".csv")).map .download
        | _ => none

/-- The row `exportTableData` builds for a session; `none` when reading the
session raises. -/
def tableRow (s : JSON) : Option Row :=
  match s with
  | .null => none
  | _ =>
    some [("startTime", s.get "startTime"),
          ("duration", s.get "duration"),
          ("frameCount", s.get "frameCount"),
          ("dominantEmotion", optionalGet (s.get "stats") "dominant"),
          ("avgConfidence", optionalGet (s.get "stats") "avgConfidence")]

/-- The function `exportTableData`; `none` when it raises. -/
def exportTableData (B : Browser) (d : Dashboard) : Option Outcome :=
  if d.sessionsData.length = 0 then some (.alert "No data to export")
  else
    (d.sessionsData.mapM tableRow).bind fun csvData =>
      (exportToCSV B csvData "sessions_summary.csv").map .download

/-- The function `exportBatchResults`; `now` is the clock reading of the file
name. -/
def exportBatchResults (B : Browser) (settings : Settings) (page : UploadPage) (now : Nat) :
    Option Outcome :=
  if page.processedResults.length = 0 then some (.alert "No results to export")
  else
    let format := orDefault settings.exportFormat "csv"
    let timestamp := if settings.includeTimestamp then "_" ++ toString now else ""
    if format = "json" then
      some (.download (exportToJSON B (.arr (page.processedResults.map Row.toJSON))
        ("batch_results" ++ timestamp ++ ".json")))
    else
      (exportToCSV B page.processedResults ("batch_results" ++ timestamp ++ ".csv")).map .download

/-- The function `exportCurrentSession` on the session manager `m`; `now₁` is
the clock reading of `export()`, `now₂` that of the file name. -/
def exportCurrentSession (B : Browser) (settings : Settings) (m : SessionManager)
    (now₁ now₂ : Nat) : Option Outcome :=
  (m.export B now₁).bind fun data =>
    if data.data.length = 0 then some (.alert "No data to export. Start analysis first.")
    else
      let format := orDefault settings.exportFormat "json"
      let timestamp := if settings.includeTimestamp then "_" ++ toString now₂ else ""
      if format = "json" then
        some (.download (exportToJSON B data.toJSON ("session" ++ timestamp ++ ".json")))
      else
        let csvData := data.data.map fun item =>
          spread [("timestamp", some (.str item.timestamp)),
                  ("dominant", some (.str item.dominant.name)),
                  ("confidence", some (.num item.confidence)),
                  ("sessionTime", some (.num item.sessionTime))]
            (EMOTIONS.map fun e => (e.name, some (.num (item.emotions e))))
        (exportToCSV B csvData ("session" ++ timestamp ++ ".csv")).map .download

/-! ## A dashboard scenario -/

/-- A date built-in for the worked examples: a number is its own time value,
`null` is the epoch, the one text `exampleBrowser` writes is one second after
the epoch, and anything else is given no time value. -/
def exampleGetTime : Option JSON → Num
  | some (.num n) => .int n
  | some .null => .int 0
  | some (.str s) => if s = "1970-01-01T00:00:01.000Z" then .int 1000 else .nan
  | _ => .nan

/-- The summary `save()` stores for the scenario of the specification. -/
def storedSession : JSON :=
  ((happySad.export roomyBrowser 2000).map Summary.toJSON).getD .null

/-- A store whose archive holds twenty-one copies of that summary. -/
def weekStore : Store :=
  (storage.save roomyBrowser emptyStore "sessions" (.arr (List.replicate 21 storedSession))).1

/-- An environment for `generateMockSessions`: the clock stands three days
after the epoch and every number drawn is a half. -/
def exampleMock : MockInput :=
  { now := 259200000
    idNow := fun _ => 259200000
    draws := fun _ =>
      { hoursAgo := 1 / 2, duration := 1 / 2, frames := 1 / 2, emotions := fun _ => 1 / 2,
        confidence := 1 / 2 } }

/-! ## The dictionary primitives -/

/-- The operand of `x || 0` is the count read, `0` when there is none. -/
theorem orZero_eq (o : Option Nat) : orZero o = o.getD 0 := by
  cases o with
  | none => rfl
  | some n => by_cases h : n = 0 <;> simp [orZero, h]

/-- The test of `setProp` is membership among the keys. -/
theorem any_key_iff (obj : List (Emotion × Nat)) (k : Emotion) :
    obj.any (fun p => decide (p.1 = k)) = true ↔ k ∈ objectKeys obj := by
  simp [objectKeys, List.any_eq_true]

/-- A read looks at the first member, then at the rest. -/
theorem getProp_cons (q : Emotion × Nat) (l : List (Emotion × Nat)) (k : Emotion) :
    getProp (q :: l) k = if q.1 = k then some q.2 else getProp l k := by
  by_cases e : q.1 = k <;> simp [getProp, List.find?_cons, e]

/-- A key that is absent reads as `undefined`. -/
theorem getProp_of_not_mem (obj : List (Emotion × Nat)) (k : Emotion)
    (h : k ∉ objectKeys obj) : getProp obj k = none := by
  induction obj with
  | nil => rfl
  | cons p t ih =>
    simp [objectKeys] at h
    have h1 : ¬ p.1 = k := fun e => h.1 e.symm
    have h2 : k ∉ objectKeys t := by
      simp [objectKeys]
      exact h.2
    have := ih h2
    simp [getProp, List.find?_cons, h1] at this ⊢
    exact this

/-- Assigning to an existing key leaves the key order as it is. -/
theorem objectKeys_setProp_mem (obj : List (Emotion × Nat)) (k : Emotion) (v : Nat)
    (h : k ∈ objectKeys obj) : objectKeys (setProp obj k v) = objectKeys obj := by
  have hany := (any_key_iff obj k).2 h
  simp only [setProp, hany, if_true, objectKeys, List.map_map]
  apply List.map_congr_left
  intro p _
  by_cases e : p.1 = k <;> simp [e]

/-- Assigning to a new key puts it last. -/
theorem objectKeys_setProp_not_mem (obj : List (Emotion × Nat)) (k : Emotion) (v : Nat)
    (h : k ∉ objectKeys obj) : objectKeys (setProp obj k v) = objectKeys obj ++ [k] := by
  have hany : ¬ obj.any (fun p => decide (p.1 = k)) = true := fun e => h ((any_key_iff obj k).1 e)
  simp [setProp, hany, objectKeys]

/-- A key reads as what was last assigned to it. -/
theorem getProp_setProp_same (obj : List (Emotion × Nat)) (k : Emotion) (v : Nat) :
    getProp (setProp obj k v) k = some v := by
  by_cases h : k ∈ objectKeys obj
  · have hany := (any_key_iff obj k).2 h
    simp only [setProp, hany, if_true]
    induction obj with
    | nil => simp [objectKeys] at h
    | cons p t ih =>
      by_cases e : p.1 = k
      · simp [getProp, List.find?_cons, e]
      · have h2 : k ∈ objectKeys t := by
          simp [objectKeys] at h ⊢
          rcases h with h | h
          · exact absurd h.symm e
          · exact h
        have := ih h2 ((any_key_iff t k).2 h2)
        simp [getProp, List.find?_cons, e] at this ⊢
        exact this
  · have hany : ¬ obj.any (fun p => decide (p.1 = k)) = true :=
      fun e => h ((any_key_iff obj k).1 e)
    have hn := getProp_of_not_mem obj k h
    simp [getProp] at hn
    simp [setProp, hany, getProp, List.find?_append]
    exact ⟨k, Or.inr ⟨hn, rfl⟩⟩

/-- An assignment does not change what another key reads as. -/
theorem getProp_setProp_other (obj : List (Emotion × Nat)) (k k' : Emotion) (v : Nat)
    (hk : k' ≠ k) : getProp (setProp obj k v) k' = getProp obj k' := by
  by_cases h : k ∈ objectKeys obj
  · have hany := (any_key_iff obj k).2 h
    simp only [setProp, hany, if_true]
    clear h hany
    induction obj with
    | nil => rfl
    | cons p t ih =>
      rw [List.map_cons, getProp_cons, getProp_cons, ih]
      by_cases e : p.1 = k
      · have e' : ¬ p.1 = k' := fun e2 => hk (e2.symm.trans e)
        rw [if_pos e, if_neg e', if_neg (Ne.symm hk)]
      · rw [if_neg e]
  · have hany : ¬ obj.any (fun p => decide (p.1 = k)) = true :=
      fun e => h ((any_key_iff obj k).1 e)
    simp [setProp, hany, getProp, List.find?_append, hk.symm]

/-! ## The counting loop -/

/-- The empty dictionary counts the empty label sequence. -/
theorem counted_nil : Counted [] [] :=
  { nodup := by simp [objectKeys]
    mem := by simp [objectKeys]
    get := by simp
    order := by simp }

/-- One round of the loop of `getStats` counts one more label. -/
theorem counted_step (obj : List (Emotion × Nat)) (ls : List Emotion) (l : Emotion)
    (h : Counted obj ls) :
    Counted (setProp obj l (orZero (getProp obj l) + 1)) (ls ++ [l]) := by
  by_cases hl : l ∈ ls
  · have hk : l ∈ objectKeys obj := (h.mem l).2 hl
    have hkeys := objectKeys_setProp_mem obj l (orZero (getProp obj l) + 1) hk
    refine ⟨?_, ?_, ?_, ?_⟩
    · rw [hkeys]
      exact h.nodup
    · intro k
      rw [hkeys, h.mem k]
      simp only [List.mem_append, List.mem_singleton]
      constructor
      · exact Or.inl
      · rintro (hk' | rfl)
        · exact hk'
        · exact hl
    · intro k hk'
      by_cases e : k = l
      · subst e
        rw [getProp_setProp_same, h.get k hl, orZero_eq]
        simp
      · rw [getProp_setProp_other obj l k _ e]
        have hkl : k ∈ ls := by
          simp only [List.mem_append, List.mem_singleton] at hk'
          rcases hk' with hk' | hk'
          · exact hk'
          · exact absurd hk' e
        rw [h.get k hkl]
        simp [List.count_singleton, e, Ne.symm e]
    · intro a b ha hb
      have ha' : a ∈ ls := by
        simp only [List.mem_append, List.mem_singleton] at ha
        rcases ha with ha | rfl
        · exact ha
        · exact hl
      have hb' : b ∈ ls := by
        simp only [List.mem_append, List.mem_singleton] at hb
        rcases hb with hb | rfl
        · exact hb
        · exact hl
      rw [hkeys, List.indexOf_append_of_mem ha', List.indexOf_append_of_mem hb']
      exact h.order a b ha' hb'
  · have hk : l ∉ objectKeys obj := fun e => hl ((h.mem l).1 e)
    have hkeys := objectKeys_setProp_not_mem obj l (orZero (getProp obj l) + 1) hk
    have hnone := getProp_of_not_mem obj l hk
    refine ⟨?_, ?_, ?_, ?_⟩
    · rw [hkeys]
      exact List.Nodup.append h.nodup (List.nodup_singleton l) (by simpa using hk)
    · intro k
      rw [hkeys]
      simp only [List.mem_append, List.mem_singleton, h.mem k]
    · intro k hk'
      by_cases e : k = l
      · subst e
        rw [getProp_setProp_same, hnone]
        simp [orZero, List.count_eq_zero_of_not_mem hl]
      · rw [getProp_setProp_other obj l k _ e]
        have hkl : k ∈ ls := by
          simp only [List.mem_append, List.mem_singleton] at hk'
          rcases hk' with hk' | hk'
          · exact hk'
          · exact absurd hk' e
        rw [h.get k hkl]
        simp [List.count_singleton, e, Ne.symm e]
    · intro a b ha hb
      rw [hkeys]
      simp only [List.mem_append, List.mem_singleton] at ha hb
      have hlen : (objectKeys obj).indexOf l = (objectKeys obj).length :=
        List.indexOf_eq_length.2 hk
      have hlen' : ls.indexOf l = ls.length := List.indexOf_eq_length.2 hl
      rcases ha with ha | rfl <;> rcases hb with hb | rfl
      · rw [List.indexOf_append_of_mem ((h.mem a).2 ha),
          List.indexOf_append_of_mem ((h.mem b).2 hb),
          List.indexOf_append_of_mem ha, List.indexOf_append_of_mem hb]
        exact h.order a b ha hb
      · rw [List.indexOf_append_of_mem ((h.mem a).2 ha), List.indexOf_append_of_mem ha,
          List.indexOf_append_of_not_mem hk, List.indexOf_append_of_not_mem hl]
        have h1 := List.indexOf_lt_length.2 ((h.mem a).2 ha)
        have h2 := List.indexOf_lt_length.2 ha
        simp only [List.indexOf_cons_self]
        constructor <;> intro _ <;> omega
      · rw [List.indexOf_append_of_mem ((h.mem b).2 hb), List.indexOf_append_of_mem hb,
          List.indexOf_append_of_not_mem hk, List.indexOf_append_of_not_mem hl]
        have h1 := List.indexOf_lt_length.2 ((h.mem b).2 hb)
        have h2 := List.indexOf_lt_length.2 hb
        simp only [List.indexOf_cons_self]
        constructor <;> intro _ <;> omega
      · simp

/-- The loop of `getStats` on a sequence with one more sample. -/
theorem tally_snoc (data : List Sample) (s : Sample) :
    tally (data ++ [s]) =
      (setProp (tally data).1 s.dominant (orZero (getProp (tally data).1 s.dominant) + 1),
        (tally data).2 + s.confidence) := by
  simp [tally, List.foldl_append]

/-- After the loop, `emotionCounts` counts the labels of the samples. -/
theorem tally_counted (data : List Sample) : Counted (tally data).1 (labels data) := by
  induction data using List.reverseRecOn with
  | nil => exact counted_nil
  | append_singleton data s ih =>
    rw [tally_snoc]
    have : labels (data ++ [s]) = labels data ++ [s.dominant] := by simp [labels]
    rw [this]
    exact counted_step _ _ _ ih

/-- After the loop, `totalConfidence` is the sum of the confidences. -/
theorem tally_total (data : List Sample) :
    (tally data).2 = (data.map fun s => s.confidence).sum := by
  induction data using List.reverseRecOn with
  | nil => rfl
  | append_singleton data s ih =>
    rw [tally_snoc]
    simp [ih]

/-! ## Reduction and rounding -/

/-- Reducing an array with one more element at the end. -/
theorem reduce_snoc {α : Type} (f : α → α → α) (l : List α) (b : α) (h : l ≠ []) :
    reduce f (l ++ [b]) = (reduce f l).map fun r => f r b := by
  cases l with
  | nil => exact absurd rfl h
  | cons a rest => simp [reduce, List.foldl_append]

/-- Reducing distinct keys with `(a, b) => gt(a, b) ? a : b`, where `gt`
compares the values `c`, returns a key of highest value, and every key of the
same value stands no later in the array. -/
theorem reduce_max {α : Type} [DecidableEq α] (c : α → Nat) (gt : α → α → Bool)
    (l : List α) (hne : l ≠ []) (hnd : l.Nodup)
    (hgt : ∀ a ∈ l, ∀ b ∈ l, gt a b = decide (c a > c b)) :
    ∃ r, reduce (fun a b => if gt a b then a else b) l = some r ∧ r ∈ l ∧
      ∀ k ∈ l, c k ≤ c r ∧ (c k = c r → l.indexOf k ≤ l.indexOf r) := by
  induction l using List.reverseRecOn with
  | nil => exact absurd rfl hne
  | append_singleton l b ih =>
    by_cases hl : l = []
    · subst hl
      refine ⟨b, by simp [reduce], by simp, ?_⟩
      intro k hk
      simp only [List.nil_append, List.mem_singleton] at hk
      subst hk
      simp
    · have hnd' : l.Nodup := (List.nodup_append.1 hnd).1
      have hb : b ∉ l := by
        intro hb
        exact (List.nodup_append.1 hnd).2.2 hb (List.mem_singleton_self b)
      obtain ⟨r, hr, hrl, hmax⟩ := ih hl hnd'
        (fun a ha b' hb' => hgt a (List.mem_append_left _ ha) b' (List.mem_append_left _ hb'))
      have hrb := hgt r (List.mem_append_left _ hrl) b
        (List.mem_append_right _ (List.mem_singleton_self b))
      rw [reduce_snoc _ _ _ hl, hr]
      by_cases hc : c r > c b
      · refine ⟨r, by simp [hrb, hc], List.mem_append_left _ hrl, ?_⟩
        intro k hk
        simp only [List.mem_append, List.mem_singleton] at hk
        rcases hk with hk | rfl
        · refine ⟨(hmax k hk).1, fun e => ?_⟩
          rw [List.indexOf_append_of_mem hk, List.indexOf_append_of_mem hrl]
          exact (hmax k hk).2 e
        · exact ⟨Nat.le_of_lt hc, fun e => absurd e (Nat.ne_of_lt hc)⟩
      · refine ⟨b, by simp [hrb, hc], List.mem_append_right _ (List.mem_singleton_self b), ?_⟩
        intro k hk
        have hbi : (l ++ [b]).indexOf b = l.length := by
          rw [List.indexOf_append_of_not_mem hb]
          simp
        simp only [List.mem_append, List.mem_singleton] at hk
        rcases hk with hk | rfl
        · refine ⟨Nat.le_trans (hmax k hk).1 (Nat.le_of_not_gt hc), fun _ => ?_⟩
          rw [hbi, List.indexOf_append_of_mem hk]
          exact List.indexOf_le_length
        · exact ⟨Nat.le_refl _, fun _ => Nat.le_refl _⟩

/-- Rounding a quotient of an integer by a positive natural number. -/
theorem round_div (a : Int) (n : Nat) (hn : 0 < n) :
    Math.round ((a : ℚ) / (n : ℚ)) = (2 * a + n) / (2 * n) := by
  have hq : (n : ℚ) ≠ 0 := by exact_mod_cast (Nat.pos_iff_ne_zero.1 hn)
  have e : (a : ℚ) / (n : ℚ) + 1 / 2 = (((2 * a + n : Int) : ℚ)) / (((2 * n : Nat)) : ℚ) := by
    push_cast
    field_simp
    ring
  unfold Math.round
  rw [e, Rat.floor_intCast_div_natCast]
  push_cast
  rfl

/-! ## Statistics and identifiers -/

/-- What `getStats` returns on a non-empty sample list: the count, the mean
confidence rounded half up, and a label of highest count that every other
label of the same count precedes in order of first occurrence. -/
theorem getStats_spec (m : SessionManager) (h : m.data ≠ []) :
    ∃ d, m.getStats =
        some { count := m.data.length
               dominant := d
               avgConfidence :=
                 (2 * (m.data.map fun s => s.confidence).sum + m.data.length) /
                   (2 * m.data.length) } ∧
      d ∈ labels m.data ∧
      (∀ k, (labels m.data).count k ≤ (labels m.data).count d) ∧
      ∀ l, l ≠ d → (labels m.data).count l = (labels m.data).count d →
        (labels m.data).indexOf l < (labels m.data).indexOf d := by
  have hC := tally_counted m.data
  have hlen : m.data.length ≠ 0 := fun e => h (List.length_eq_zero.1 e)
  have hpos : 0 < m.data.length := Nat.pos_of_ne_zero hlen
  have hkeys : objectKeys (tally m.data).1 ≠ [] := by
    intro e
    cases hd : m.data with
    | nil => exact h hd
    | cons s t =>
      have : s.dominant ∈ objectKeys (tally m.data).1 := by
        rw [hC.mem, hd]
        simp [labels]
      rw [e] at this
      simp at this
  obtain ⟨d, hd, hdk, hmax⟩ := reduce_max (fun k => (labels m.data).count k)
    (fun a b => jsGt (getProp (tally m.data).1 a) (getProp (tally m.data).1 b))
    (objectKeys (tally m.data).1) hkeys hC.nodup
    (by
      intro a ha b hb
      show jsGt (getProp (tally m.data).1 a) (getProp (tally m.data).1 b) = _
      rw [hC.get a ((hC.mem a).1 ha), hC.get b ((hC.mem b).1 hb)]
      rfl)
  have hdl : d ∈ labels m.data := (hC.mem d).1 hdk
  refine ⟨d, ?_, hdl, ?_, ?_⟩
  · simp only [SessionManager.getStats, if_neg hlen, hd, Option.map_some', tally_total,
      round_div _ _ hpos]
  · intro k
    by_cases hk : k ∈ labels m.data
    · exact (hmax k ((hC.mem k).2 hk)).1
    · rw [List.count_eq_zero_of_not_mem hk]
      exact Nat.zero_le _
  · intro l hne hcount
    have hl : l ∈ labels m.data := by
      by_contra hl
      rw [List.count_eq_zero_of_not_mem hl] at hcount
      have := List.count_pos_iff.2 hdl
      omega
    have hle := (hmax l ((hC.mem l).2 hl)).2 hcount
    have hne' : (objectKeys (tally m.data).1).indexOf l ≠
        (objectKeys (tally m.data).1).indexOf d := by
      intro e
      exact hne ((List.indexOf_inj ((hC.mem l).2 hl) hdk).1 e)
    exact (hC.order l d hl hdl).1 (lt_of_le_of_ne hle hne')

/-- What `getStats` returns on an empty sample list. -/
theorem getStats_empty (m : SessionManager) (h : m.data = []) :
    m.getStats = some { count := 0, dominant := .neutral, avgConfidence := 0 } := by
  simp [SessionManager.getStats, h]

/-- The method `getStats` returns, and its count is the number of samples. -/
theorem getStats_count (m : SessionManager) :
    ∃ s, m.getStats = some s ∧ s.count = m.data.length := by
  by_cases h : m.data = []
  · exact ⟨_, getStats_empty m h, by simp [h]⟩
  · obtain ⟨d, hd, _⟩ := getStats_spec m h
    exact ⟨_, hd, rfl⟩

/-- Every `addResult` call adds one sample. -/
theorem addResults_data_length (calls : List (Result × Nat)) (m : SessionManager) :
    (addResults m calls).data.length = m.data.length + calls.length := by
  induction calls generalizing m with
  | nil => rfl
  | cons c cs ih =>
    have : addResults m (c :: cs) = addResults (m.addResult c.1 c.2) cs := rfl
    rw [this, ih]
    simp [SessionManager.addResult]
    omega

/-- A decimal digit character denotes its digit. -/
theorem digitChar_value (k : Nat) (hk : k < 10) : (Nat.digitChar k).toNat - 48 = k := by
  interval_cases k <;> rfl

/-- The digits produced for `n`, put before `ds`, denote `n` followed by `ds`. -/
theorem toDigitsCore_value (fuel : Nat) : ∀ (n : Nat) (ds : List Char), n < fuel →
    (Nat.toDigitsCore 10 fuel n ds).foldl (fun acc c => 10 * acc + (c.toNat - 48)) 0 =
      ds.foldl (fun acc c => 10 * acc + (c.toNat - 48)) n := by
  induction fuel with
  | zero => intro n ds h; omega
  | succ fuel ih =>
    intro n ds h
    have hd := digitChar_value (n % 10) (Nat.mod_lt _ (by decide))
    by_cases h0 : n / 10 = 0
    · have hn : n % 10 = n := Nat.mod_eq_of_lt (by omega)
      simp only [Nat.toDigitsCore, h0, if_true, List.foldl_cons, hd]
      rw [hn]
      simp
    · simp only [Nat.toDigitsCore, h0, if_false]
      rw [ih (n / 10) _ (by omega)]
      simp only [List.foldl_cons, hd]
      congr 1
      omega

/-- The decimal numeral of `n` denotes `n`. -/
theorem decimalValue_repr (n : Nat) : decimalValue (toString n).data = n := by
  have : (toString n).data = Nat.toDigits 10 n := rfl
  rw [this, decimalValue, Nat.toDigits, toDigitsCore_value _ _ _ (Nat.lt_succ_self n)]
  rfl

/-- Different numbers have different decimal numerals. -/
theorem toString_nat_injective (a b : Nat) (h : toString a = toString b) : a = b := by
  rw [← decimalValue_repr a, ← decimalValue_repr b, h]

/-- Two identifiers are equal exactly when their clock readings are. -/
theorem sessionId_eq_iff (a b : Nat) :
    ("session_" ++ toString a = "session_" ++ toString b) ↔ a = b := by
  constructor
  · intro h
    apply toString_nat_injective
    have h2 := congrArg String.data h
    simp only [String.data_append] at h2
    exact String.ext (List.append_cancel_left h2)
  · rintro rfl
    rfl

/-! ## The claims -/

/-- Claim C1, as stated, fails: in the scenario `start()`, `addResult` of
(happy, 80), `addResult` of (sad, 60) the two labels are tied with one
occurrence each, happy was encountered first, and `getStats().dominant` is
sad. -/
theorem getStats_tie_not_first_encountered :
    labels happySad.data = [Emotion.happy, Emotion.sad] ∧
      happySad.getStats.map Stats.dominant = some Emotion.sad ∧
      happySad.getStats.map Stats.dominant ≠ some Emotion.happy := by
  refine ⟨rfl, by decide, by decide⟩

/-- Claim C1, amended: for every non-empty sample sequence `getStats()`
returns, its `dominant` has the highest number of occurrences, and every
other label tied with it was first encountered earlier in the sample
sequence, so among tied labels the one whose first occurrence is latest
wins. -/
theorem getStats_dominant_tie_latest (m : SessionManager) (h : m.data ≠ []) :
    ∃ s, m.getStats = some s ∧
      (∀ k, (labels m.data).count k ≤ (labels m.data).count s.dominant) ∧
      ∀ l, l ≠ s.dominant →
        (labels m.data).count l = (labels m.data).count s.dominant →
        (labels m.data).indexOf l < (labels m.data).indexOf s.dominant := by
  obtain ⟨d, hd, _, hmax, htie⟩ := getStats_spec m h
  exact ⟨_, hd, hmax, htie⟩

/-- Claim C1, amended, at the scenario of the specification. -/
theorem getStats_dominant_tie_latest_witness :
    happySad.data ≠ [] ∧
      ∃ s, happySad.getStats = some s ∧
        (∀ k, (labels happySad.data).count k ≤ (labels happySad.data).count s.dominant) ∧
        ∀ l, l ≠ s.dominant →
          (labels happySad.data).count l = (labels happySad.data).count s.dominant →
          (labels happySad.data).indexOf l < (labels happySad.data).indexOf s.dominant :=
  ⟨by simp [happySad, SessionManager.addResult],
    getStats_dominant_tie_latest happySad (by simp [happySad, SessionManager.addResult])⟩

/-- Claim C2: for every non-empty sample sequence `getStats()` returns, and
its `dominant` is the label of some sample and no label occurs as a sample's
`dominant` strictly more often. -/
theorem getStats_dominant_most_frequent (m : SessionManager) (h : m.data ≠ []) :
    ∃ s, m.getStats = some s ∧ s.dominant ∈ labels m.data ∧
      ∀ k, (labels m.data).count k ≤ (labels m.data).count s.dominant := by
  obtain ⟨d, hd, hmem, hmax, _⟩ := getStats_spec m h
  exact ⟨_, hd, hmem, hmax⟩

/-- Claim C2 at a session with the labels happy, sad, happy. -/
theorem getStats_dominant_most_frequent_witness :
    (happySad.addResult (mkResult .happy 90) 1300).data ≠ [] ∧
      ∃ s, (happySad.addResult (mkResult .happy 90) 1300).getStats = some s ∧
        s.dominant ∈ labels (happySad.addResult (mkResult .happy 90) 1300).data ∧
        ∀ k, (labels (happySad.addResult (mkResult .happy 90) 1300).data).count k ≤
          (labels (happySad.addResult (mkResult .happy 90) 1300).data).count s.dominant :=
  ⟨by simp [happySad, SessionManager.addResult],
    getStats_dominant_most_frequent _ (by simp [happySad, SessionManager.addResult])⟩

/-- Claim C3: for every non-empty sequence of `n` samples whose confidences
are integers in [0,100], `getStats().avgConfidence` is the mean rounded to the
nearest integer, a half going up:
`floor((2 * (c_1 + ... + c_n) + n) / (2 * n))`. The bound on the confidences
is what keeps the sum among the integers a double holds exactly. -/
theorem getStats_avgConfidence_round_half_up (m : SessionManager) (h : m.data ≠ [])
    (_hrange : ∀ x ∈ m.data, 0 ≤ x.confidence ∧ x.confidence ≤ 100) :
    ∃ s, m.getStats = some s ∧
      s.avgConfidence =
        (2 * (m.data.map fun x => x.confidence).sum + m.data.length) / (2 * m.data.length) := by
  obtain ⟨d, hd, _⟩ := getStats_spec m h
  exact ⟨_, hd, rfl⟩

/-- Claim C3 at the scenario of the specification: for the confidences 80 and
60 the average is 70. -/
theorem getStats_avgConfidence_round_half_up_witness :
    happySad.data ≠ [] ∧ (∀ x ∈ happySad.data, 0 ≤ x.confidence ∧ x.confidence ≤ 100) ∧
      ∃ s, happySad.getStats = some s ∧ s.avgConfidence = 70 :=
  ⟨by simp [happySad, SessionManager.addResult], by decide,
    getStats_avgConfidence_round_half_up happySad
      (by simp [happySad, SessionManager.addResult]) (by decide)⟩

/-- Claim C4: after `start()` followed by `k` calls of `addResult`,
`getStats().count` is `k`, and `export().frameCount` and the length of
`export().data` are `k` as well. -/
theorem count_eq_number_of_addResult_calls (B : Browser) (m : SessionManager)
    (now₁ now₂ now : Nat) (calls : List (Result × Nat)) :
    (∃ s, (addResults (m.start now₁ now₂) calls).getStats = some s ∧
        s.count = calls.length) ∧
      ∃ e, (addResults (m.start now₁ now₂) calls).export B now = some e ∧
        e.frameCount = calls.length ∧ e.data.length = calls.length := by
  have hlen : (addResults (m.start now₁ now₂) calls).data.length = calls.length := by
    rw [addResults_data_length]
    simp [SessionManager.start]
  obtain ⟨s, hs, hc⟩ := getStats_count (addResults (m.start now₁ now₂) calls)
  refine ⟨⟨s, hs, hc.trans hlen⟩, ?_⟩
  rw [SessionManager.export, hs]
  exact ⟨_, rfl, hlen, hlen⟩

/-- Claim C5: on a `SessionManager` whose sample list is empty `getStats()`
returns, without raising, exactly `{count: 0, dominant: 'neutral',
avgConfidence: 0}`. -/
theorem getStats_no_samples (m : SessionManager) (h : m.data = []) :
    m.getStats = some { count := 0, dominant := .neutral, avgConfidence := 0 } :=
  getStats_empty m h

/-- Claim C5 at a freshly constructed `SessionManager`. -/
theorem getStats_no_samples_witness :
    SessionManager.new.data = [] ∧
      SessionManager.new.getStats =
        some { count := 0, dominant := .neutral, avgConfidence := 0 } :=
  ⟨rfl, getStats_no_samples SessionManager.new rfl⟩

/-- Claim C6, as stated, fails: on a freshly constructed `SessionManager`
(`sessionId` and `startTime` are `null`) `addResult` returns normally and the
sample list is no longer what it was. -/
theorem addResult_before_start_changes_data :
    SessionManager.new.sessionId = none ∧ SessionManager.new.startTime = none ∧
      (SessionManager.new.addResult (mkResult .happy 80) 1100).data ≠
        SessionManager.new.data := by
  refine ⟨rfl, rfl, ?_⟩
  simp [SessionManager.new, SessionManager.addResult]

/-- Claim C6, amended: `addResult` has no guard on the session state; on a
`SessionManager` on which `start()` was never called it appends exactly one
sample, carrying the fields of the result, after the samples already held, and
leaves `sessionId` and `startTime` `null`. -/
theorem addResult_never_started_appends (m : SessionManager) (r : Result) (now : Nat)
    (hid : m.sessionId = none) (ht : m.startTime = none) :
    (∃ s, (m.addResult r now).data = m.data ++ [s] ∧ s.toResult = r) ∧
      (m.addResult r now).sessionId = none ∧ (m.addResult r now).startTime = none :=
  ⟨⟨_, rfl, rfl⟩, hid, ht⟩

/-- Claim C6, amended, at a freshly constructed `SessionManager`. -/
theorem addResult_never_started_appends_witness :
    SessionManager.new.sessionId = none ∧ SessionManager.new.startTime = none ∧
      (∃ s, (SessionManager.new.addResult (mkResult .sad 60) 1200).data =
          SessionManager.new.data ++ [s] ∧ s.toResult = mkResult .sad 60) ∧
      (SessionManager.new.addResult (mkResult .sad 60) 1200).sessionId = none ∧
      (SessionManager.new.addResult (mkResult .sad 60) 1200).startTime = none :=
  ⟨rfl, rfl, addResult_never_started_appends SessionManager.new (mkResult .sad 60) 1200 rfl rfl⟩

/-- Claim C7: on a started `SessionManager` (start time `t`) holding samples
`s_1..s_k`, `addResult(r)` at clock reading `now` leaves `s_1..s_k` in place
and in order and appends exactly one sample, which has all fields of `r` and
`sessionTime = now - t`; `sessionId` and `startTime` are unchanged. -/
theorem addResult_appends_one_sample (m : SessionManager) (t : Nat) (r : Result) (now : Nat)
    (h : m.startTime = some t) :
    (m.addResult r now).data =
        m.data ++ [{ toResult := r, sessionTime := (now : Int) - (t : Int) }] ∧
      (m.addResult r now).sessionId = m.sessionId ∧
      (m.addResult r now).startTime = m.startTime := by
  simp [SessionManager.addResult, h]

/-- Claim C7 at a third `addResult` in the scenario of the specification. -/
theorem addResult_appends_one_sample_witness :
    happySad.startTime = some 1000 ∧
      (happySad.addResult (mkResult .angry 55) 1300).data =
        happySad.data ++
          [{ toResult := mkResult .angry 55, sessionTime := ((1300 : Nat) : Int) - ((1000 : Nat) : Int) }] ∧
      (happySad.addResult (mkResult .angry 55) 1300).sessionId = happySad.sessionId ∧
      (happySad.addResult (mkResult .angry 55) 1300).startTime = happySad.startTime :=
  ⟨rfl, addResult_appends_one_sample happySad 1000 (mkResult .angry 55) 1300 rfl⟩

/-- Claim C8: from every `SessionManager` state, also one that is started and
holds samples, `start()` at clock reading `now` sets `startTime = now`, sets
`sessionId` to `'session_'` followed by the decimal numeral of `now`, and
empties the sample list, so that `getStats()` right afterwards returns
count 0. -/
theorem start_resets (m : SessionManager) (now : Nat) :
    (m.start now now).startTime = some now ∧
      (m.start now now).sessionId = some ("session_" ++ toString now) ∧
      (m.start now now).data = [] ∧
      ∃ s, (m.start now now).getStats = some s ∧ s.count = 0 :=
  ⟨rfl, rfl, rfl, _, getStats_empty _ rfl, rfl⟩

/-- Claim C9, as stated, fails: two `start()` calls on different
`SessionManager` instances that read the same millisecond for the identifier
generate the same `sessionId`. -/
theorem sessionId_collides_within_millisecond :
    (SessionManager.new.start 1000 1000).sessionId = (happySad.start 1000 1001).sessionId :=
  rfl

/-- Claim C9, amended: the `sessionId` values generated by two `start()` calls,
on the same or on different instances, are equal exactly when the two calls
read the same millisecond for the identifier; calls at different clock
readings get different identifiers. -/
theorem sessionId_eq_iff_same_millisecond (m m' : SessionManager) (a b a' b' : Nat) :
    (m.start a b).sessionId = (m'.start a' b').sessionId ↔ a = a' := by
  simp only [SessionManager.start, Option.some.injEq]
  exact sessionId_eq_iff a a'

/-- Claim C10: for every store content and every `SessionManager` whose sample
list is empty, started or not, `save()` returns without writing: the store
afterwards is the store before, for the `sessions` entry and for every other
key. -/
theorem save_without_samples_writes_nothing (B : Browser) (m : SessionManager) (now : Nat)
    (ls : Store) (h : m.data = []) : m.save B now ls = some ls := by
  simp [SessionManager.save, h]

/-- Claim C10 at a session that was started and received no sample. -/
theorem save_without_samples_writes_nothing_witness :
    (SessionManager.new.start 1000 1000).data = [] ∧
      (SessionManager.new.start 1000 1000).save exampleBrowser 2000 exampleStore =
        some exampleStore :=
  ⟨rfl, save_without_samples_writes_nothing exampleBrowser _ 2000 exampleStore rfl⟩

/-! ## JSON text: numbers -/

/-- The character of a digit below ten is a decimal digit. -/
theorem isDigit_digitChar (k : Nat) (hk : k < 10) : isDigit (Nat.digitChar k) = true := by
  interval_cases k <;> rfl

/-- The character of a non-zero digit is not the zero character. -/
theorem digitChar_ne_zero (k : Nat) (hk : k < 10) (h0 : k ≠ 0) : Nat.digitChar k ≠ '0' := by
  interval_cases k <;> first | exact absurd rfl h0 | decide

/-- A decimal numeral consists of decimal digits. -/
theorem toDigitsCore_digits (fuel : Nat) : ∀ (n : Nat) (ds : List Char),
    (∀ c ∈ ds, isDigit c = true) → ∀ c ∈ Nat.toDigitsCore 10 fuel n ds, isDigit c = true := by
  induction fuel with
  | zero => intro n ds h; simpa [Nat.toDigitsCore] using h
  | succ fuel ih =>
    intro n ds h
    have hd := isDigit_digitChar (n % 10) (Nat.mod_lt _ (by decide))
    have hds : ∀ c ∈ Nat.digitChar (n % 10) :: ds, isDigit c = true := by
      intro c hc
      rcases List.mem_cons.1 hc with rfl | hc
      · exact hd
      · exact h c hc
    by_cases h0 : n / 10 = 0
    · simpa [Nat.toDigitsCore, h0] using hds
    · simp only [Nat.toDigitsCore, h0, if_false]
      exact ih _ _ hds

/-- The decimal numeral of a positive number has no leading zero. -/
theorem toDigitsCore_head (fuel : Nat) : ∀ (n : Nat) (ds : List Char), n < fuel → 0 < n →
    ∃ c t, Nat.toDigitsCore 10 fuel n ds = c :: t ∧ c ≠ '0' := by
  induction fuel with
  | zero => intro n ds h; omega
  | succ fuel ih =>
    intro n ds h hpos
    by_cases h0 : n / 10 = 0
    · have hn : n % 10 = n := Nat.mod_eq_of_lt (by omega)
      refine ⟨Nat.digitChar (n % 10), ds, by simp [Nat.toDigitsCore, h0], ?_⟩
      rw [hn]
      exact digitChar_ne_zero n (by omega) (by omega)
    · simp only [Nat.toDigitsCore, h0, if_false]
      exact ih _ _ (by omega) (by omega)

/-- Reading a run of digits followed by something else gives their value and
the text that follows. -/
theorem parseDigits_append (ds : List Char) : ∀ (acc : Nat) (rest : List Char),
    (∀ c ∈ ds, isDigit c = true) → headIs isDigit rest = false →
    parseDigits acc (ds ++ rest) =
      (ds.foldl (fun a c => 10 * a + (c.toNat - 48)) acc, rest) := by
  induction ds with
  | nil =>
    intro acc rest _ hrest
    cases rest with
    | nil => rfl
    | cons c cs =>
      simp only [headIs] at hrest
      simp [parseDigits, hrest]
  | cons d ds ih =>
    intro acc rest h hrest
    have hd : isDigit d = true := h d (List.mem_cons_self _ _)
    simp only [List.cons_append, parseDigits, hd, if_true, List.foldl_cons]
    exact ih _ _ (fun c hc => h c (List.mem_cons_of_mem _ hc)) hrest

/-- Reading the decimal numeral of `n` gives `n`. -/
theorem parseNat_toDigits (n : Nat) (rest : List Char) (h1 : headIs isDigit rest = false)
    (h2 : headIs startsFraction rest = false) :
    parseNat (Nat.toDigits 10 n ++ rest) = some (n, rest) := by
  have hall : ∀ c ∈ Nat.toDigits 10 n, isDigit c = true :=
    toDigitsCore_digits _ _ _ (by simp)
  have hval : (Nat.toDigits 10 n).foldl (fun a c => 10 * a + (c.toNat - 48)) 0 = n := by
    have := toDigitsCore_value (n + 1) n [] (Nat.lt_succ_self n)
    simpa [Nat.toDigits] using this
  have hparse := parseDigits_append (Nat.toDigits 10 n) 0 rest hall h1
  rw [hval] at hparse
  by_cases hn : n = 0
  · subst hn
    have : Nat.toDigits 10 0 = ['0'] := rfl
    rw [this] at hparse ⊢
    have ht : (['0'] ++ rest).tail = rest := rfl
    have hh : headIs isDigit (['0'] ++ rest) = true := rfl
    simp only [parseNat, hparse, h2, hh, ht, h1]
    simp
  · obtain ⟨c, t, hct, hc0⟩ := toDigitsCore_head (n + 1) n [] (Nat.lt_succ_self n)
      (Nat.pos_of_ne_zero hn)
    have hct' : Nat.toDigits 10 n = c :: t := hct
    have hcd : isDigit c = true := hall c (by rw [hct']; exact List.mem_cons_self _ _)
    simp only [parseNat, hparse, h2]
    rw [hct']
    simp [headIs, hcd, hc0]

/-! ## JSON text: strings and white space -/

/-- Reading a one-letter escape. -/
theorem parseChars_escape (e ch : Char) (he : e ≠ 'u') (hu : unescape e = some ch)
    (tail : List Char) :
    parseChars (backslash :: e :: tail) =
      (parseChars tail).map fun p => (ch :: p.1, p.2) := by
  have h1 : backslash ≠ dquote := by decide
  rw [parseChars.eq_def]
  simp only [if_neg h1, if_true, if_neg he, hu]
  cases parseChars tail <;> rfl

/-- The four-digit escape of a control character stands for it. -/
theorem unicodeEscape_control (n : Nat) (hn : n < 32) :
    unicodeEscape '0' '0' (Nat.digitChar (n / 16)) (Nat.digitChar (n % 16)) =
      some (Char.ofNat n) := by
  interval_cases n <;> rfl

/-- Reading the four-digit escape of a control character. -/
theorem parseChars_unicode (c : Char) (hc : c.toNat < 32) (tail : List Char) :
    parseChars (backslash :: 'u' :: '0' :: '0' :: Nat.digitChar (c.toNat / 16) ::
        Nat.digitChar (c.toNat % 16) :: tail) =
      (parseChars tail).map fun p => (c :: p.1, p.2) := by
  have h1 : backslash ≠ dquote := by decide
  rw [parseChars.eq_def]
  simp only [if_neg h1, if_true, unicodeEscape_control _ hc, Char.ofNat_toNat]
  cases parseChars tail <;> rfl

/-- Reading a character that is written as it is. -/
theorem parseChars_plain (c : Char) (h1 : c ≠ dquote) (h2 : c ≠ backslash)
    (h3 : ¬ c.toNat < 32) (tail : List Char) :
    parseChars (c :: tail) = (parseChars tail).map fun p => (c :: p.1, p.2) := by
  rw [parseChars.eq_def]
  simp only [if_neg h1, if_neg h2, if_neg h3]
  cases parseChars tail <;> rfl

/-- Reading a character as `quoteChar` writes it. -/
theorem parseChars_quoteChar (c : Char) (tail : List Char) :
    parseChars (quoteChar c ++ tail) = (parseChars tail).map fun p => (c :: p.1, p.2) := by
  unfold quoteChar
  split_ifs with h1 h2 h3 h4 h5 h6 h7 h8
  · subst h1
    exact parseChars_escape dquote dquote (by decide) rfl tail
  · subst h2
    exact parseChars_escape backslash backslash (by decide) rfl tail
  · subst h3
    exact parseChars_escape 'b' (Char.ofNat 8) (by decide) rfl tail
  · subst h4
    exact parseChars_escape 'f' (Char.ofNat 12) (by decide) rfl tail
  · subst h5
    exact parseChars_escape 'n' (Char.ofNat 10) (by decide) rfl tail
  · subst h6
    exact parseChars_escape 'r' (Char.ofNat 13) (by decide) rfl tail
  · subst h7
    exact parseChars_escape 't' (Char.ofNat 9) (by decide) rfl tail
  · exact parseChars_unicode c h8 tail
  · exact parseChars_plain c h1 h2 h8 tail

/-- Reading a written string up to its closing quote gives the string. -/
theorem parseChars_quoteChars (cs : List Char) (rest : List Char) :
    parseChars (quoteChars cs ++ dquote :: rest) = some (cs, rest) := by
  induction cs with
  | nil =>
    rw [quoteChars, List.nil_append, parseChars.eq_def]
    simp
  | cons c cs ih =>
    rw [quoteChars, List.append_assoc, parseChars_quoteChar, ih]
    rfl

/-- The line break is white space. -/
theorem isWs_newline (gap ind : Nat) : ∀ c ∈ newline gap ind, isWs c = true := by
  intro c hc
  unfold newline at hc
  split_ifs at hc with h
  · simp at hc
  · rcases List.mem_cons.1 hc with rfl | hc
    · rfl
    · rw [List.eq_of_mem_replicate hc]
      rfl

/-- Leading white space is dropped. -/
theorem skipWs_append (lead : List Char) (h : ∀ c ∈ lead, isWs c = true) (x : List Char) :
    skipWs (lead ++ x) = skipWs x := by
  induction lead with
  | nil => rfl
  | cons c cs ih =>
    have hc := h c (List.mem_cons_self _ _)
    simp only [List.cons_append, skipWs, hc, if_true]
    exact ih fun d hd => h d (List.mem_cons_of_mem _ hd)

/-- Nothing is dropped from a text that starts with another character. -/
theorem skipWs_cons (c : Char) (cs : List Char) (h : isWs c = false) :
    skipWs (c :: cs) = c :: cs := by
  simp [skipWs, h]

/-! ## JSON text: how a value starts -/

/-- A decimal numeral starts with a digit. -/
theorem toDigits_cons (n : Nat) : ∃ c t, Nat.toDigits 10 n = c :: t ∧ isDigit c = true := by
  have hall : ∀ c ∈ Nat.toDigits 10 n, isDigit c = true :=
    toDigitsCore_digits _ _ _ (by simp)
  by_cases hn : n = 0
  · subst hn
    exact ⟨'0', [], rfl, rfl⟩
  · obtain ⟨c, t, hct, _⟩ := toDigitsCore_head (n + 1) n [] (Nat.lt_succ_self n)
      (Nat.pos_of_ne_zero hn)
    have hct' : Nat.toDigits 10 n = c :: t := hct
    exact ⟨c, t, hct', hall c (by rw [hct']; exact List.mem_cons_self _ _)⟩

/-- A digit is none of the characters the parser tests for before numbers. -/
theorem startsValue_digit (c : Char) (h : isDigit c = true) :
    startsValue c ∧ c ≠ 'n' ∧ c ≠ 't' ∧ c ≠ 'f' ∧ c ≠ dquote ∧ c ≠ '[' ∧ c ≠ '{' ∧ c ≠ '-' := by
  have h' : 48 ≤ c.toNat ∧ c.toNat ≤ 57 := by simpa [isDigit] using h
  have key : ∀ d : Char, (d.toNat < 48 ∨ 57 < d.toNat) → c ≠ d := by
    rintro d hd rfl
    omega
  refine ⟨⟨?_, key _ (by decide), key _ (by decide), key _ (by decide)⟩, key _ (by decide),
    key _ (by decide), key _ (by decide), key _ (by decide), key _ (by decide),
    key _ (by decide), key _ (by decide)⟩
  have a1 := key ' ' (by decide)
  have a2 := key (Char.ofNat 10) (by decide)
  have a3 := key (Char.ofNat 13) (by decide)
  have a4 := key (Char.ofNat 9) (by decide)
  simp [isWs, a1, a2, a3, a4]

/-- The text of a non-negative integer is its decimal numeral. -/
theorem int_render_ofNat (m : Nat) : (toString (Int.ofNat m)).data = Nat.toDigits 10 m := rfl

/-- The text of a negative integer is a minus sign and a decimal numeral. -/
theorem int_render_negSucc (m : Nat) :
    (toString (Int.negSucc m)).data = '-' :: Nat.toDigits 10 (m + 1) := rfl

/-- The text of a value is not empty and starts with a character that is
neither white space nor a closing bracket, closing brace or comma. -/
theorem render_cons (gap ind : Nat) (v : JSON) :
    ∃ c t, v.render gap ind = c :: t ∧ startsValue c := by
  cases v with
  | null => exact ⟨'n', _, by rw [JSON.render], by unfold startsValue; decide⟩
  | bool b =>
    cases b
    · exact ⟨'f', ['a', 'l', 's', 'e'], by simp [JSON.render], by unfold startsValue; decide⟩
    · exact ⟨'t', ['r', 'u', 'e'], by simp [JSON.render], by unfold startsValue; decide⟩
  | num n =>
    cases n with
    | ofNat m =>
      obtain ⟨c, t, hct, hc⟩ := toDigits_cons m
      exact ⟨c, t, by rw [JSON.render, int_render_ofNat, hct], (startsValue_digit c hc).1⟩
    | negSucc m =>
      exact ⟨'-', _, by rw [JSON.render, int_render_negSucc], by unfold startsValue; decide⟩
  | str s => exact ⟨dquote, _, by rw [JSON.render, quoteString], by unfold startsValue; decide⟩
  | arr items =>
    by_cases h : items.isEmpty
    · exact ⟨'[', _, by rw [JSON.render, if_pos h], by unfold startsValue; decide⟩
    · exact ⟨'[', _, by rw [JSON.render, if_neg h], by unfold startsValue; decide⟩
  | obj members =>
    by_cases h : members.isEmpty
    · exact ⟨'{', _, by rw [JSON.render, if_pos h], by unfold startsValue; decide⟩
    · exact ⟨'{', _, by rw [JSON.render, if_neg h], by unfold startsValue; decide⟩

/-! ## JSON text: reading back what was written -/

/-- White space does not continue a number. -/
theorem isWs_not_number (c : Char) (h : isWs c = true) :
    isDigit c = false ∧ startsFraction c = false := by
  simp only [isWs, Bool.or_eq_true, decide_eq_true_eq] at h
  rcases h with ((rfl | rfl) | rfl) | rfl <;> exact ⟨rfl, rfl⟩

/-- A number ends before white space followed by the end of a number. -/
theorem numEnd_append (ws x : List Char) (hws : ∀ c ∈ ws, isWs c = true) (hx : numEnd x) :
    numEnd (ws ++ x) := by
  cases ws with
  | nil => exact hx
  | cons c t =>
    have := isWs_not_number c (hws c (List.mem_cons_self _ _))
    exact ⟨this.1, this.2⟩

/-- The text of a value has at least one character. -/
theorem render_length_pos (gap ind : Nat) (v : JSON) : 1 ≤ (v.render gap ind).length := by
  obtain ⟨c, t, hct, _⟩ := render_cons gap ind v
  rw [hct]
  simp

/-- White space before a value is dropped and the value is kept. -/
theorem skipWs_render (gap ind : Nat) (v : JSON) (lead rest : List Char)
    (hlead : ∀ c ∈ lead, isWs c = true) :
    skipWs (lead ++ (v.render gap ind ++ rest)) = v.render gap ind ++ rest := by
  obtain ⟨c, t, hct, hsv⟩ := render_cons gap ind v
  rw [skipWs_append _ hlead, hct]
  exact skipWs_cons _ _ hsv.1

/-- The text of a non-empty element list starts like a value. -/
theorem renderItems_cons (gap ind : Nat) (x : JSON) (xs : List JSON) :
    ∃ c t, JSON.renderItems gap ind (x :: xs) = c :: t ∧ startsValue c := by
  obtain ⟨c, t, hct, hsv⟩ := render_cons gap ind x
  exact ⟨c, _, by rw [JSON.renderItems, hct, List.cons_append], hsv⟩

/-- The text of a non-empty member list starts with a quote. -/
theorem renderMembers_cons (gap ind : Nat) (kv : String × JSON) (kvs : List (String × JSON)) :
    ∃ t, JSON.renderMembers gap ind (kv :: kvs) = dquote :: t := by
  obtain ⟨k, v⟩ := kv
  exact ⟨_, by rw [JSON.renderMembers, quoteString, List.cons_append]⟩

/-- White space before a closing character is dropped. -/
theorem skipWs_closer (close rest : List Char) (d : Char) (hd : isWs d = false)
    (hclose : ∀ c ∈ close, isWs c = true) : skipWs (close ++ d :: rest) = d :: rest := by
  rw [skipWs_append _ hclose]
  exact skipWs_cons _ _ hd

/-- The key separator is a colon followed by white space only. -/
theorem colon_eq (gap : Nat) : ∃ ws, colon gap = ':' :: ws ∧ ∀ c ∈ ws, isWs c = true := by
  unfold colon
  split_ifs
  · exact ⟨[], rfl, by simp⟩
  · exact ⟨[' '], rfl, by simp [isWs]⟩

/-- With enough fuel the parser reads back what `render` writes: a value, the
elements of an array up to the bracket, the members of an object up to the
brace, whatever white space comes before and whatever text comes after. -/
theorem parse_render_aux (fuel : Nat) :
    (∀ (v : JSON) (gap ind : Nat) (lead rest : List Char),
        (∀ c ∈ lead, isWs c = true) → (v.render gap ind).length ≤ fuel → numEnd rest →
        parseValue fuel (lead ++ (v.render gap ind ++ rest)) = some (v, rest)) ∧
    (∀ (xs : List JSON) (gap ind : Nat) (lead close rest : List Char), xs ≠ [] →
        (∀ c ∈ lead, isWs c = true) → (∀ c ∈ close, isWs c = true) →
        (JSON.renderItems gap ind xs).length + 1 ≤ fuel →
        parseItems fuel (lead ++ (JSON.renderItems gap ind xs ++ (close ++ ']' :: rest))) =
          some (xs, rest)) ∧
    (∀ (kvs : List (String × JSON)) (gap ind : Nat) (lead close rest : List Char), kvs ≠ [] →
        (∀ c ∈ lead, isWs c = true) → (∀ c ∈ close, isWs c = true) →
        (JSON.renderMembers gap ind kvs).length + 1 ≤ fuel →
        parseMembers fuel (lead ++ (JSON.renderMembers gap ind kvs ++ (close ++ '}' :: rest))) =
          some (kvs, rest)) := by
  induction fuel with
  | zero =>
    refine ⟨?_, ?_, ?_⟩
    · intro v gap ind lead rest _ hlen _
      have := render_length_pos gap ind v
      omega
    · intro xs gap ind lead close rest _ _ _ hlen
      omega
    · intro kvs gap ind lead close rest _ _ _ hlen
      omega
  | succ f ih =>
    obtain ⟨ihV, ihI, ihM⟩ := ih
    refine ⟨?_, ?_, ?_⟩
    · intro v gap ind lead rest hlead hlen hend
      have hskip := skipWs_render gap ind v lead rest hlead
      rw [parseValue, hskip]
      cases v with
      | null =>
        simp [JSON.render]
      | bool b =>
        cases b <;> simp [JSON.render]
      | num n =>
        cases n with
        | ofNat m =>
          obtain ⟨c, t, hct, hc⟩ := toDigits_cons m
          obtain ⟨_, n1, n2, n3, n4, n5, n6, n7⟩ := startsValue_digit c hc
          have hp := parseNat_toDigits m rest hend.1 hend.2
          rw [hct, List.cons_append] at hp
          simp only [JSON.render, int_render_ofNat, hct, List.cons_append, if_neg n1, if_neg n2,
            if_neg n3, if_neg n4, if_neg n5, if_neg n6, if_neg n7, hp]
          rfl
        | negSucc m =>
          have hp := parseNat_toDigits (m + 1) rest hend.1 hend.2
          have e1 : ('-' : Char) ≠ 'n' := by decide
          have e2 : ('-' : Char) ≠ 't' := by decide
          have e3 : ('-' : Char) ≠ 'f' := by decide
          have e4 : ('-' : Char) ≠ dquote := by decide
          have e5 : ('-' : Char) ≠ '[' := by decide
          have e6 : ('-' : Char) ≠ '{' := by decide
          simp only [JSON.render, int_render_negSucc, List.cons_append, if_neg e1, if_neg e2,
            if_neg e3, if_neg e4, if_neg e5, if_neg e6, if_true, hp]
          rfl
      | str s =>
        have e1 : dquote ≠ 'n' := by decide
        have e2 : dquote ≠ 't' := by decide
        have e3 : dquote ≠ 'f' := by decide
        have hp := parseChars_quoteChars s.data rest
        simp only [JSON.render, quoteString, List.cons_append, List.append_assoc,
          List.singleton_append, List.nil_append, if_neg e1, if_neg e2, if_neg e3, if_true, hp]
      | arr items =>
        have e1 : ('[' : Char) ≠ 'n' := by decide
        have e2 : ('[' : Char) ≠ 't' := by decide
        have e3 : ('[' : Char) ≠ 'f' := by decide
        have e4 : ('[' : Char) ≠ dquote := by decide
        cases items with
        | nil =>
          have hs : skipWs (']' :: rest) = ']' :: rest := skipWs_cons _ _ (by decide)
          simp only [JSON.render, List.isEmpty_nil, if_true, List.cons_append, List.nil_append,
            if_neg e1, if_neg e2, if_neg e3, if_neg e4, hs, headIs, decide_True, List.tail_cons]
        | cons x xs =>
          obtain ⟨c, t, hct, hsv⟩ := renderItems_cons gap (ind + gap) x xs
          have hr : JSON.render gap ind (.arr (x :: xs)) =
              '[' :: (newline gap (ind + gap) ++ (JSON.renderItems gap (ind + gap) (x :: xs) ++
                (newline gap ind ++ [']']))) := by
            rw [JSON.render]
            rfl
          rw [hr] at hlen ⊢
          simp only [List.length_cons, List.length_append, List.length_nil] at hlen
          have hI := ihI (x :: xs) gap (ind + gap) (newline gap (ind + gap)) (newline gap ind) rest
            (List.cons_ne_nil _ _) (isWs_newline _ _) (isWs_newline _ _) (by omega)
          have hs : skipWs (newline gap (ind + gap) ++ (JSON.renderItems gap (ind + gap) (x :: xs) ++
              (newline gap ind ++ ']' :: rest))) =
              c :: (t ++ (newline gap ind ++ ']' :: rest)) := by
            rw [skipWs_append _ (isWs_newline _ _), hct]
            exact skipWs_cons _ _ hsv.1
          have hc : decide (c = ']') = false := by simpa using hsv.2.1
          simp only [List.cons_append, List.append_assoc, List.singleton_append, List.nil_append,
            if_neg e1, if_neg e2, if_neg e3, if_neg e4, if_true, hs, headIs, hc, hI]
          simp
      | obj members =>
        have e1 : ('{' : Char) ≠ 'n' := by decide
        have e2 : ('{' : Char) ≠ 't' := by decide
        have e3 : ('{' : Char) ≠ 'f' := by decide
        have e4 : ('{' : Char) ≠ dquote := by decide
        have e5 : ('{' : Char) ≠ '[' := by decide
        cases members with
        | nil =>
          have hs : skipWs ('}' :: rest) = '}' :: rest := skipWs_cons _ _ (by decide)
          simp only [JSON.render, List.isEmpty_nil, if_true, List.cons_append, List.nil_append,
            if_neg e1, if_neg e2, if_neg e3, if_neg e4, if_neg e5, hs, headIs, decide_True,
            List.tail_cons]
        | cons kv kvs =>
          obtain ⟨t, hct⟩ := renderMembers_cons gap (ind + gap) kv kvs
          have hr : JSON.render gap ind (.obj (kv :: kvs)) =
              '{' :: (newline gap (ind + gap) ++ (JSON.renderMembers gap (ind + gap) (kv :: kvs) ++
                (newline gap ind ++ ['}']))) := by
            rw [JSON.render]
            rfl
          rw [hr] at hlen ⊢
          simp only [List.length_cons, List.length_append, List.length_nil] at hlen
          have hM := ihM (kv :: kvs) gap (ind + gap) (newline gap (ind + gap)) (newline gap ind)
            rest (List.cons_ne_nil _ _) (isWs_newline _ _) (isWs_newline _ _) (by omega)
          have hs : skipWs (newline gap (ind + gap) ++
              (JSON.renderMembers gap (ind + gap) (kv :: kvs) ++
              (newline gap ind ++ '}' :: rest))) =
              dquote :: (t ++ (newline gap ind ++ '}' :: rest)) := by
            rw [skipWs_append _ (isWs_newline _ _), hct]
            exact skipWs_cons _ _ (by decide)
          have hc : decide (dquote = '}') = false := by decide
          simp only [List.cons_append, List.append_assoc, List.singleton_append, List.nil_append,
            if_neg e1, if_neg e2, if_neg e3, if_neg e4, if_neg e5, if_true, hs, headIs, hc, hM]
          simp
    · intro xs gap ind lead close rest hne hlead hclose hlen
      cases xs with
      | nil => exact absurd rfl hne
      | cons x xs =>
        rw [parseItems]
        cases xs with
        | nil =>
          have hr : JSON.renderItems gap ind [x] = JSON.render gap ind x := by
            simp [JSON.renderItems, comma]
          rw [hr] at hlen ⊢
          have hV := ihV x gap ind lead (close ++ ']' :: rest) hlead (by omega)
            (numEnd_append _ _ hclose ⟨rfl, rfl⟩)
          have hs := skipWs_closer close rest ']' (by decide) hclose
          have e1 : (']' : Char) ≠ ',' := by decide
          simp only [hV, hs, if_neg e1, if_true]
        | cons y ys =>
          have hr : JSON.renderItems gap ind (x :: y :: ys) =
              JSON.render gap ind x ++ (',' :: (newline gap ind ++
                JSON.renderItems gap ind (y :: ys))) := by
            rw [JSON.renderItems]
            simp [comma]
          rw [hr] at hlen ⊢
          simp only [List.length_cons, List.length_append] at hlen
          have hpos := render_length_pos gap ind x
          have hV := ihV x gap ind lead (',' :: (newline gap ind ++
            (JSON.renderItems gap ind (y :: ys) ++ (close ++ ']' :: rest)))) hlead (by omega)
            ⟨rfl, rfl⟩
          have hI := ihI (y :: ys) gap ind (newline gap ind) close rest (List.cons_ne_nil _ _)
            (isWs_newline _ _) hclose (by omega)
          have hs : skipWs (',' :: (newline gap ind ++
              (JSON.renderItems gap ind (y :: ys) ++ (close ++ ']' :: rest)))) =
              ',' :: (newline gap ind ++
                (JSON.renderItems gap ind (y :: ys) ++ (close ++ ']' :: rest))) :=
            skipWs_cons _ _ (by decide)
          simp only [List.cons_append, List.append_assoc, hV, hs, if_true, hI]
    · intro kvs gap ind lead close rest hne hlead hclose hlen
      cases kvs with
      | nil => exact absurd rfl hne
      | cons kv kvs =>
        obtain ⟨k, v⟩ := kv
        obtain ⟨ws, hcolon, hws⟩ := colon_eq gap
        have e1 : (':' : Char) = ':' := rfl
        have hpos := render_length_pos gap ind v
        rw [parseMembers]
        cases kvs with
        | nil =>
          have hr : JSON.renderMembers gap ind [(k, v)] =
              dquote :: (quoteChars k.data ++ (dquote :: (':' :: (ws ++
                JSON.render gap ind v)))) := by
            simp [JSON.renderMembers, comma, quoteString, hcolon]
          rw [hr] at hlen ⊢
          simp only [List.length_cons, List.length_append] at hlen
          have hs1 : skipWs (lead ++ (dquote :: (quoteChars k.data ++ (dquote :: (':' :: (ws ++
              JSON.render gap ind v)))) ++ (close ++ '}' :: rest))) =
              dquote :: (quoteChars k.data ++ (dquote :: (':' :: (ws ++
                (JSON.render gap ind v ++ (close ++ '}' :: rest)))))) := by
            rw [skipWs_append _ hlead]
            simp only [List.cons_append, List.append_assoc]
            exact skipWs_cons _ _ (by decide)
          have hp := parseChars_quoteChars k.data (':' :: (ws ++
            (JSON.render gap ind v ++ (close ++ '}' :: rest))))
          have hs2 : skipWs (':' :: (ws ++ (JSON.render gap ind v ++ (close ++ '}' :: rest)))) =
              ':' :: (ws ++ (JSON.render gap ind v ++ (close ++ '}' :: rest))) :=
            skipWs_cons _ _ (by decide)
          have hV := ihV v gap ind ws (close ++ '}' :: rest) hws (by omega)
            (numEnd_append _ _ hclose ⟨rfl, rfl⟩)
          have hs3 := skipWs_closer close rest '}' (by decide) hclose
          have e2 : ('}' : Char) ≠ ',' := by decide
          simp only [hs1, if_true, hp, hs2, hV, hs3, if_neg e2]
        | cons kv' kvs' =>
          have hr : JSON.renderMembers gap ind ((k, v) :: kv' :: kvs') =
              dquote :: (quoteChars k.data ++ (dquote :: (':' :: (ws ++
                (JSON.render gap ind v ++ (',' :: (newline gap ind ++
                  JSON.renderMembers gap ind (kv' :: kvs')))))))) := by
            rw [JSON.renderMembers]
            simp [comma, quoteString, hcolon]
          rw [hr] at hlen ⊢
          simp only [List.length_cons, List.length_append] at hlen
          have hs1 : skipWs (lead ++ (dquote :: (quoteChars k.data ++ (dquote :: (':' :: (ws ++
              (JSON.render gap ind v ++ (',' :: (newline gap ind ++
                JSON.renderMembers gap ind (kv' :: kvs')))))))) ++ (close ++ '}' :: rest))) =
              dquote :: (quoteChars k.data ++ (dquote :: (':' :: (ws ++
                (JSON.render gap ind v ++ (',' :: (newline gap ind ++
                  (JSON.renderMembers gap ind (kv' :: kvs') ++
                    (close ++ '}' :: rest))))))))) := by
            rw [skipWs_append _ hlead]
            simp only [List.cons_append, List.append_assoc]
            exact skipWs_cons _ _ (by decide)
          have hp := parseChars_quoteChars k.data (':' :: (ws ++
            (JSON.render gap ind v ++ (',' :: (newline gap ind ++
              (JSON.renderMembers gap ind (kv' :: kvs') ++ (close ++ '}' :: rest)))))))
          have hs2 : skipWs (':' :: (ws ++
              (JSON.render gap ind v ++ (',' :: (newline gap ind ++
                (JSON.renderMembers gap ind (kv' :: kvs') ++ (close ++ '}' :: rest))))))) =
              ':' :: (ws ++
                (JSON.render gap ind v ++ (',' :: (newline gap ind ++
                  (JSON.renderMembers gap ind (kv' :: kvs') ++ (close ++ '}' :: rest)))))) :=
            skipWs_cons _ _ (by decide)
          have hV := ihV v gap ind ws (',' :: (newline gap ind ++
            (JSON.renderMembers gap ind (kv' :: kvs') ++ (close ++ '}' :: rest)))) hws (by omega)
            ⟨rfl, rfl⟩
          have hs3 : skipWs (',' :: (newline gap ind ++
              (JSON.renderMembers gap ind (kv' :: kvs') ++ (close ++ '}' :: rest)))) =
              ',' :: (newline gap ind ++
                (JSON.renderMembers gap ind (kv' :: kvs') ++ (close ++ '}' :: rest))) :=
            skipWs_cons _ _ (by decide)
          have hM := ihM (kv' :: kvs') gap ind (newline gap ind) close rest
            (List.cons_ne_nil _ _) (isWs_newline _ _) hclose (by omega)
          simp only [hs1, if_true, hp, hs2, hV, hs3, hM]

/-- The model of `JSON.parse` inverts the model of `JSON.stringify`, for every
value and every indentation. -/
theorem parse_stringify (v : JSON) (space : Nat) : JSON.parse (v.stringify space) = some v := by
  have h := (parse_render_aux ((v.render (min space 10) 0).length + 1)).1 v (min space 10) 0 []
    [] (by simp) (by omega) ⟨rfl, rfl⟩
  simp only [List.nil_append, List.append_nil] at h
  simp [JSON.parse, JSON.stringify, h, skipWs]

/-- The text of a value is not the empty string. -/
theorem stringify_ne_empty (v : JSON) (space : Nat) : v.stringify space ≠ "" := by
  intro h
  have h2 := congrArg String.data h
  have h3 := render_length_pos (min space 10) 0 v
  simp only [JSON.stringify] at h2
  rw [h2] at h3
  simp at h3

/-! ## Storage and archive -/

/-- Two keys with the same namespace in front are equal only if they are equal. -/
theorem append_left_cancel (p a b : String) (h : p ++ a = p ++ b) : a = b := by
  have h2 := congrArg String.data h
  simp only [String.data_append] at h2
  exact String.ext (List.append_cancel_left h2)

/-- The JSON built-ins defined here meet the contract. -/
theorem jsonBrowser_roundTrips (iso : Int → String) (quota : Store → String → String → Bool) :
    (jsonBrowser iso quota).RoundTrips :=
  { stringify_ne := fun v => stringify_ne_empty v 0
    parse_stringify := fun v => parse_stringify v 0
    parse_indented := fun v n => parse_stringify v n }

/-- Loading a key whose entry is the text of `v` gives `v`. -/
theorem load_of_entry (B : Browser) (hB : B.RoundTrips) (sm : StorageManager) (ls : Store)
    (key : String) (v : JSON) (h : ls (sm.pfx ++ key) = some (B.stringify v)) :
    sm.load B ls key = v := by
  simp [StorageManager.load, h, hB.stringify_ne v, hB.parse_stringify v]

/-- A `save` that `localStorage` accepts returns `true`, stores the text of the
value under the namespaced key and leaves every other key as it was. -/
theorem save_entry (B : Browser) (sm : StorageManager) (ls : Store) (key : String) (v : JSON)
    (h : B.quotaExceeded ls (sm.pfx ++ key) (B.stringify v) = false) :
    (sm.save B ls key v).1 (sm.pfx ++ key) = some (B.stringify v) ∧
      (sm.save B ls key v).2 = true ∧
      ∀ k, k ≠ sm.pfx ++ key → (sm.save B ls key v).1 k = ls k := by
  simp only [StorageManager.save, h]
  refine ⟨by simp, by simp, ?_⟩
  intro k hk
  simp [Function.update, hk]

/-- Loading a key right after an accepted `save` gives the value saved. -/
theorem load_save (B : Browser) (hB : B.RoundTrips) (sm : StorageManager) (ls : Store)
    (key : String) (v : JSON)
    (h : B.quotaExceeded ls (sm.pfx ++ key) (B.stringify v) = false) :
    sm.load B (sm.save B ls key v).1 key = v :=
  load_of_entry B hB sm _ key v (save_entry B sm ls key v h).1

/-- Cutting an array down to 50 when it is longer is taking its first 50
elements. -/
theorem keep_eq_take (u : List JSON) : (if u.length > 50 then u.take 50 else u) = u.take 50 := by
  split_ifs with h
  · rfl
  · exact (List.take_of_length_le (by omega)).symm

/-- The method `export` returns, with the identifier and the samples of the
session. -/
theorem export_of_data (B : Browser) (m : SessionManager) (now : Nat) :
    ∃ summary, m.export B now = some summary ∧ summary.sessionId = m.sessionId ∧
      summary.data = m.data := by
  obtain ⟨s, hs, _⟩ := getStats_count m
  rw [SessionManager.export, hs]
  exact ⟨_, rfl, rfl, rfl⟩

/-- What `SessionManager.save` does on a started session with samples when the
value it reads for the archive is the array `items`: it hands `storage.save`
the first 50 elements of the summary followed by `items`. -/
theorem save_started (B : Browser) (m : SessionManager) (now : Nat) (ls : Store)
    (items : List JSON) (hid : truthyId m.sessionId = true) (hdata : m.data ≠ [])
    (hsessions : (if (storage.load B ls "sessions").truthy then storage.load B ls "sessions"
      else .arr []) = .arr items) :
    ∃ summary, m.export B now = some summary ∧ summary.sessionId = m.sessionId ∧
      m.save B now ls =
        some (storage.save B ls "sessions" (.arr ((summary.toJSON :: items).take 50))).1 := by
  obtain ⟨summary, hs, hsid, _⟩ := export_of_data B m now
  have hlen : m.data.length > 0 := List.length_pos.2 hdata
  refine ⟨summary, hs, hsid, ?_⟩
  simp only [SessionManager.save, hid, hlen, and_self, if_true, hsessions, hs, Option.map_some',
    keep_eq_take]

/-- A loaded array is used as it is. -/
theorem sessions_of_array (B : Browser) (ls : Store) (old : List JSON)
    (hold : storage.load B ls "sessions" = .arr old) :
    (if (storage.load B ls "sessions").truthy then storage.load B ls "sessions"
      else .arr []) = .arr old := by
  rw [hold]
  rfl

/-- A loaded `null` is replaced by the empty array. -/
theorem sessions_of_null (B : Browser) (ls : Store)
    (hold : storage.load B ls "sessions" = .null) :
    (if (storage.load B ls "sessions").truthy then storage.load B ls "sessions"
      else .arr []) = .arr [] := by
  rw [hold]
  rfl

/-- Loading a key that has no entry gives `null`. -/
theorem load_absent (B : Browser) (sm : StorageManager) (ls : Store) (key : String)
    (h : ls (sm.pfx ++ key) = none) : sm.load B ls key = .null := by
  simp [StorageManager.load, h]

/-- Loading a key whose entry does not parse gives `null`. -/
theorem load_malformed (B : Browser) (sm : StorageManager) (ls : Store) (key text : String)
    (h : ls (sm.pfx ++ key) = some text) (hp : B.parse text = none) :
    sm.load B ls key = .null := by
  simp [StorageManager.load, h, hp]

/-- Cutting down to 50 twice around an insertion is cutting down once. -/
theorem take_cons_take (a : JSON) (l : List JSON) :
    (a :: l.take 50).take 50 = (a :: l).take 50 := by
  simp [List.take_succ_cons, List.take_take]

/-- A storage call on another key leaves the entry of a key as it was. -/
theorem perform_other (B : Browser) (sm : StorageManager) (ls : Store) (op : StorageOp)
    (k : String) (h : op.key ≠ k) : sm.perform B ls op (sm.pfx ++ k) = ls (sm.pfx ++ k) := by
  have hne : sm.pfx ++ k ≠ sm.pfx ++ op.key := fun e => h (append_left_cancel _ _ _ e).symm
  cases op with
  | save key data =>
    simp only [StorageManager.perform, StorageManager.save]
    split_ifs
    · rfl
    · exact Function.update_noteq hne _ _
  | remove key =>
    simp only [StorageManager.perform, StorageManager.remove]
    exact Function.update_noteq hne _ _

/-- Storage calls on other keys leave the entry of a key as it was. -/
theorem performAll_other (B : Browser) (sm : StorageManager) (ops : List StorageOp) (k : String)
    (h : ∀ op ∈ ops, op.key ≠ k) (ls : Store) :
    sm.performAll B ls ops (sm.pfx ++ k) = ls (sm.pfx ++ k) := by
  induction ops generalizing ls with
  | nil => rfl
  | cons op ops ih =>
    have : sm.performAll B ls (op :: ops) = sm.performAll B (sm.perform B ls op) ops := rfl
    rw [this, ih (fun o ho => h o (List.mem_cons_of_mem _ ho)),
      perform_other B sm ls op k (h op (List.mem_cons_self _ _))]

/-! ## The claims on the archive -/

/-- Claim C11: for every stored `sessions` array, of any length, and every
started `SessionManager` with at least one sample, after a `save()` whose
write is accepted the stored `sessions` array has at most 50 entries. -/
theorem save_keeps_at_most_50 (B : Browser) (hB : B.RoundTrips) (m : SessionManager)
    (now : Nat) (ls : Store) (items : List JSON) (hid : truthyId m.sessionId = true)
    (hdata : m.data ≠ []) (hold : storage.load B ls "sessions" = .arr items)
    (hq : ∀ k t, B.quotaExceeded ls k t = false) :
    ∃ ls' kept, m.save B now ls = some ls' ∧
      storage.load B ls' "sessions" = .arr kept ∧ kept.length ≤ 50 := by
  obtain ⟨summary, _, _, hsave⟩ :=
    save_started B m now ls items hid hdata (sessions_of_array B ls items hold)
  refine ⟨_, _, hsave, load_save B hB storage ls "sessions" _ (hq _ _), ?_⟩
  simp only [List.length_take]
  omega

/-- Claim C11 at an archive of sixty entries. -/
theorem save_keeps_at_most_50_witness :
    truthyId happySad.sessionId = true ∧ happySad.data ≠ [] ∧
      storage.load roomyBrowser crowdedStore "sessions" = .arr (List.replicate 60 .null) ∧
      (∀ k t, roomyBrowser.quotaExceeded crowdedStore k t = false) ∧
      ∃ ls' kept, happySad.save roomyBrowser 2000 crowdedStore = some ls' ∧
        storage.load roomyBrowser ls' "sessions" = .arr kept ∧ kept.length ≤ 50 :=
  ⟨by decide, by simp [happySad, SessionManager.addResult],
    load_save roomyBrowser (jsonBrowser_roundTrips _ _) storage emptyStore "sessions" _ rfl,
    fun _ _ => rfl,
    save_keeps_at_most_50 roomyBrowser (jsonBrowser_roundTrips _ _) happySad 2000 crowdedStore
      (List.replicate 60 .null) (by decide) (by simp [happySad, SessionManager.addResult])
      (load_save roomyBrowser (jsonBrowser_roundTrips _ _) storage emptyStore "sessions" _ rfl)
      (fun _ _ => rfl)⟩

/-- Claim C12, as stated, fails: when `localStorage` refuses the write,
`save()` of a started session with two samples returns normally and the
archive, absent before, is absent afterwards; it does not hold the new
summary. -/
theorem save_on_full_storage_stores_nothing :
    truthyId happySad.sessionId = true ∧ happySad.data ≠ [] ∧
      happySad.save fullBrowser 2000 emptyStore = some emptyStore ∧
      emptyStore "expression_analyser_sessions" = none ∧
      storage.load fullBrowser emptyStore "sessions" = .null := by
  refine ⟨by decide, by simp [happySad, SessionManager.addResult], ?_, rfl, rfl⟩
  obtain ⟨summary, _, _, hsave⟩ := save_started fullBrowser happySad 2000 emptyStore []
    (by decide) (by simp [happySad, SessionManager.addResult])
    (sessions_of_null fullBrowser emptyStore rfl)
  rw [hsave]
  rfl

/-- Claim C12, amended: for every stored archive `old` (an absent key counting
as the empty list) and every started `SessionManager` with at least one
sample, after a `save()` whose write `localStorage` accepts the stored archive
is the first 50 elements of the `export()` summary followed by `old`: the new
summary, carrying the `sessionId` of the session, is at index 0, and when `old`
had exactly 50 entries its first 49 follow and only its last entry is
dropped. -/
theorem save_inserts_at_front (B : Browser) (hB : B.RoundTrips) (m : SessionManager)
    (now : Nat) (ls : Store) (old : List JSON) (hid : truthyId m.sessionId = true)
    (hdata : m.data ≠ [])
    (hold : (ls "expression_analyser_sessions" = none ∧ old = []) ∨
      storage.load B ls "sessions" = .arr old)
    (hq : ∀ k t, B.quotaExceeded ls k t = false) :
    ∃ summary ls', m.export B now = some summary ∧ summary.sessionId = m.sessionId ∧
      m.save B now ls = some ls' ∧
      storage.load B ls' "sessions" = .arr ((summary.toJSON :: old).take 50) ∧
      ((summary.toJSON :: old).take 50).head? = some summary.toJSON ∧
      (old.length = 50 → (summary.toJSON :: old).take 50 = summary.toJSON :: old.dropLast) := by
  have hsessions : (if (storage.load B ls "sessions").truthy then storage.load B ls "sessions"
      else .arr []) = .arr old := by
    rcases hold with ⟨habs, rfl⟩ | hold
    · exact sessions_of_null B ls (load_absent B storage ls "sessions" habs)
    · exact sessions_of_array B ls old hold
  obtain ⟨summary, hs, hsid, hsave⟩ := save_started B m now ls old hid hdata hsessions
  refine ⟨summary, _, hs, hsid, hsave, load_save B hB storage ls "sessions" _ (hq _ _), rfl, ?_⟩
  intro h50
  rw [List.take_succ_cons, List.dropLast_eq_take, h50]

/-- Claim C12, amended, at the scenario of the specification on an archive of
exactly fifty entries. -/
theorem save_inserts_at_front_witness :
    truthyId happySad.sessionId = true ∧ happySad.data ≠ [] ∧
      ((fiftyStore "expression_analyser_sessions" = none ∧ List.replicate 50 JSON.null = []) ∨
        storage.load roomyBrowser fiftyStore "sessions" = .arr (List.replicate 50 .null)) ∧
      (∀ k t, roomyBrowser.quotaExceeded fiftyStore k t = false) ∧
      ∃ summary ls', happySad.export roomyBrowser 2000 = some summary ∧
        summary.sessionId = happySad.sessionId ∧
        happySad.save roomyBrowser 2000 fiftyStore = some ls' ∧
        storage.load roomyBrowser ls' "sessions" =
          .arr ((summary.toJSON :: List.replicate 50 .null).take 50) ∧
        ((summary.toJSON :: List.replicate 50 .null).take 50).head? = some summary.toJSON ∧
        ((List.replicate 50 JSON.null).length = 50 →
          (summary.toJSON :: List.replicate 50 .null).take 50 =
            summary.toJSON :: (List.replicate 50 JSON.null).dropLast) :=
  ⟨by decide, by simp [happySad, SessionManager.addResult],
    Or.inr (load_save roomyBrowser (jsonBrowser_roundTrips _ _) storage emptyStore "sessions" _
      rfl),
    fun _ _ => rfl,
    save_inserts_at_front roomyBrowser (jsonBrowser_roundTrips _ _) happySad 2000 fiftyStore
      (List.replicate 50 .null) (by decide) (by simp [happySad, SessionManager.addResult])
      (Or.inr (load_save roomyBrowser (jsonBrowser_roundTrips _ _) storage emptyStore "sessions"
        _ rfl))
      (fun _ _ => rfl)⟩

/-- Claim C13, as stated, fails: a session that was started, given two
samples and saved once is stored a second time by a second `save()` with no
`start()` in between; the archive then holds its summary twice. -/
theorem second_save_stores_again :
    ∃ ls₁ ls₂ summary, happySad.save roomyBrowser 2000 emptyStore = some ls₁ ∧
      happySad.save roomyBrowser 2000 ls₁ = some ls₂ ∧
      storage.load roomyBrowser ls₁ "sessions" = .arr [summary] ∧
      storage.load roomyBrowser ls₂ "sessions" = .arr [summary, summary] ∧
      storage.load roomyBrowser ls₂ "sessions" ≠ storage.load roomyBrowser ls₁ "sessions" := by
  have hB := jsonBrowser_roundTrips exampleBrowser.toISOString (fun _ _ _ => false)
  obtain ⟨summary, hs, _, hsave⟩ := save_started roomyBrowser happySad 2000 emptyStore []
    (by decide) (by simp [happySad, SessionManager.addResult])
    (sessions_of_null roomyBrowser emptyStore rfl)
  have hl₁ := load_save roomyBrowser hB storage emptyStore "sessions"
    (.arr ((summary.toJSON :: []).take 50)) rfl
  obtain ⟨summary', hs', _, hsave'⟩ := save_started roomyBrowser happySad 2000 _
    ((summary.toJSON :: []).take 50) (by decide) (by simp [happySad, SessionManager.addResult])
    (sessions_of_array roomyBrowser _ _ hl₁)
  have hsame : summary' = summary := Option.some.inj (hs'.symm.trans hs)
  subst hsame
  have hl₂ := load_save roomyBrowser hB storage
    (storage.save roomyBrowser emptyStore "sessions" (.arr ((summary'.toJSON :: []).take 50))).1
    "sessions" (.arr ((summary'.toJSON :: (summary'.toJSON :: []).take 50).take 50)) rfl
  refine ⟨_, _, summary'.toJSON, hsave, hsave', hl₁, hl₂, ?_⟩
  rw [hl₁, hl₂]
  intro h
  have := congrArg (fun v => match v with
    | JSON.arr xs => xs.length
    | _ => 0) h
  simp at this

/-- Claim C13, amended: `save()` has no notion of a finalized session; for
every session that was started and given at least one sample, a second
`save()` with no `start()` in between inserts the summary of the session
again, in front of the one the first `save()` stored (both writes being
accepted), so that the session appears in the archive twice. -/
theorem second_save_inserts_again (B : Browser) (hB : B.RoundTrips) (m : SessionManager)
    (now₁ now₂ : Nat) (ls : Store) (old : List JSON) (hid : truthyId m.sessionId = true)
    (hdata : m.data ≠ []) (hold : storage.load B ls "sessions" = .arr old)
    (hq : ∀ s k t, B.quotaExceeded s k t = false) :
    ∃ s₁ s₂ ls₁ ls₂, m.export B now₁ = some s₁ ∧ m.export B now₂ = some s₂ ∧
      s₁.sessionId = m.sessionId ∧ s₂.sessionId = m.sessionId ∧
      m.save B now₁ ls = some ls₁ ∧ m.save B now₂ ls₁ = some ls₂ ∧
      storage.load B ls₁ "sessions" = .arr ((s₁.toJSON :: old).take 50) ∧
      storage.load B ls₂ "sessions" = .arr ((s₂.toJSON :: s₁.toJSON :: old).take 50) := by
  obtain ⟨s₁, hs₁, hid₁, hsave₁⟩ :=
    save_started B m now₁ ls old hid hdata (sessions_of_array B ls old hold)
  have hl₁ := load_save B hB storage ls "sessions" (.arr ((s₁.toJSON :: old).take 50))
    (hq _ _ _)
  obtain ⟨s₂, hs₂, hid₂, hsave₂⟩ := save_started B m now₂ _ ((s₁.toJSON :: old).take 50) hid
    hdata (sessions_of_array B _ _ hl₁)
  have hl₂ := load_save B hB storage
    (storage.save B ls "sessions" (.arr ((s₁.toJSON :: old).take 50))).1 "sessions"
    (.arr ((s₂.toJSON :: (s₁.toJSON :: old).take 50).take 50)) (hq _ _ _)
  rw [take_cons_take] at hl₂ hsave₂
  exact ⟨s₁, s₂, _, _, hs₁, hs₂, hid₁, hid₂, hsave₁, hsave₂, hl₁, hl₂⟩

/-- Claim C13, amended, at the scenario of the specification saved twice on a
store holding an empty archive. -/
theorem second_save_inserts_again_witness :
    truthyId happySad.sessionId = true ∧ happySad.data ≠ [] ∧
      storage.load roomyBrowser exampleStore "sessions" = .arr [] ∧
      (∀ s k t, roomyBrowser.quotaExceeded s k t = false) ∧
      ∃ s₁ s₂ ls₁ ls₂, happySad.export roomyBrowser 2000 = some s₁ ∧
        happySad.export roomyBrowser 3000 = some s₂ ∧
        s₁.sessionId = happySad.sessionId ∧ s₂.sessionId = happySad.sessionId ∧
        happySad.save roomyBrowser 2000 exampleStore = some ls₁ ∧
        happySad.save roomyBrowser 3000 ls₁ = some ls₂ ∧
        storage.load roomyBrowser ls₁ "sessions" = .arr ((s₁.toJSON :: []).take 50) ∧
        storage.load roomyBrowser ls₂ "sessions" =
          .arr ((s₂.toJSON :: s₁.toJSON :: []).take 50) :=
  ⟨by decide, by simp [happySad, SessionManager.addResult], rfl, fun _ _ _ => rfl,
    second_save_inserts_again roomyBrowser (jsonBrowser_roundTrips _ _) happySad 2000 3000
      exampleStore [] (by decide) (by simp [happySad, SessionManager.addResult]) rfl
      (fun _ _ _ => rfl)⟩

/-- Claim C14: for every key `k` and every JSON value `v`, if
`StorageManager.save(k, v)` returns `true` then `load(k)` on the same
`StorageManager` returns `v`, right away and after any sequence of `save` and
`remove` calls on keys other than `k`. -/
theorem load_returns_saved_value (B : Browser) (hB : B.RoundTrips) (sm : StorageManager)
    (ls : Store) (k : String) (v : JSON) (ops : List StorageOp)
    (hsave : (sm.save B ls k v).2 = true) (hops : ∀ op ∈ ops, op.key ≠ k) :
    sm.load B (sm.save B ls k v).1 k = v ∧
      sm.load B (sm.performAll B (sm.save B ls k v).1 ops) k = v := by
  have hq : B.quotaExceeded ls (sm.pfx ++ k) (B.stringify v) = false := by
    by_contra hq
    simp [StorageManager.save, hq] at hsave
  have hentry := (save_entry B sm ls k v hq).1
  refine ⟨load_of_entry B hB sm _ k v hentry, load_of_entry B hB sm _ k v ?_⟩
  rw [performAll_other B sm ops k hops, hentry]

/-- Claim C14 at a settings value, followed by a `save` and a `remove` on
other keys. -/
theorem load_returns_saved_value_witness :
    (storage.save roomyBrowser emptyStore "settings" (.obj [("theme", .str "dark")])).2 = true ∧
      (∀ op ∈ [StorageOp.save "sessions" (.arr []), StorageOp.remove "batches"],
        op.key ≠ "settings") ∧
      storage.load roomyBrowser
          (storage.save roomyBrowser emptyStore "settings" (.obj [("theme", .str "dark")])).1
          "settings" = .obj [("theme", .str "dark")] ∧
      storage.load roomyBrowser
          (storage.performAll roomyBrowser
            (storage.save roomyBrowser emptyStore "settings" (.obj [("theme", .str "dark")])).1
            [StorageOp.save "sessions" (.arr []), StorageOp.remove "batches"])
          "settings" = .obj [("theme", .str "dark")] :=
  ⟨rfl, by decide,
    load_returns_saved_value roomyBrowser (jsonBrowser_roundTrips _ _) storage emptyStore
      "settings" (.obj [("theme", .str "dark")])
      [StorageOp.save "sessions" (.arr []), StorageOp.remove "batches"] rfl (by decide)⟩

/-- Claim C15: `StorageManager.load(key)` returns `null`, without raising,
when the store has no entry for the namespaced key and when the stored text is
not valid JSON; and `SessionManager.save()` of a started session with at least
one sample, on a store whose `sessions` entry is malformed, hands
`storage.save` an archive that holds the new summary and nothing else. -/
theorem load_null_when_absent_or_malformed (B : Browser) (sm : StorageManager) (ls : Store)
    (key : String) (m : SessionManager) (now : Nat) (text : String)
    (hkey : ls (sm.pfx ++ key) = none ∨
      ∃ t, ls (sm.pfx ++ key) = some t ∧ B.parse t = none)
    (hid : truthyId m.sessionId = true) (hdata : m.data ≠ [])
    (htext : ls "expression_analyser_sessions" = some text) (hparse : B.parse text = none) :
    sm.load B ls key = .null ∧
      ∃ summary, m.export B now = some summary ∧
        m.save B now ls = some (storage.save B ls "sessions" (.arr [summary.toJSON])).1 := by
  constructor
  · rcases hkey with h | ⟨t, h, hp⟩
    · exact load_absent B sm ls key h
    · exact load_malformed B sm ls key t h hp
  · have hnull : storage.load B ls "sessions" = .null :=
      load_malformed B storage ls "sessions" text htext hparse
    obtain ⟨summary, hs, _, hsave⟩ :=
      save_started B m now ls [] hid hdata (sessions_of_null B ls hnull)
    exact ⟨summary, hs, hsave⟩

/-- Claim C15 at a store whose `sessions` entry is the text `[oops`. -/
theorem load_null_when_absent_or_malformed_witness :
    (brokenStore (storage.pfx ++ "sessions") = none ∨
        ∃ t, brokenStore (storage.pfx ++ "sessions") = some t ∧ roomyBrowser.parse t = none) ∧
      truthyId happySad.sessionId = true ∧ happySad.data ≠ [] ∧
      brokenStore "expression_analyser_sessions" = some "[oops" ∧
      roomyBrowser.parse "[oops" = none ∧
      storage.load roomyBrowser brokenStore "sessions" = .null ∧
      ∃ summary, happySad.export roomyBrowser 2000 = some summary ∧
        happySad.save roomyBrowser 2000 brokenStore =
          some (storage.save roomyBrowser brokenStore "sessions" (.arr [summary.toJSON])).1 :=
  ⟨Or.inr ⟨"[oops", rfl, rfl⟩, by decide, by simp [happySad, SessionManager.addResult], rfl, rfl,
    load_null_when_absent_or_malformed roomyBrowser storage brokenStore "sessions" happySad 2000
      "[oops" (Or.inr ⟨"[oops", rfl, rfl⟩) (by decide)
      (by simp [happySad, SessionManager.addResult]) rfl rfl⟩

/-! ## Mock analysis -/

/-- Folding with `intMax` gives the start value or an element, at least the
start value and at least every element. -/
theorem foldl_intMax (xs : List Int) : ∀ a : Int,
    (xs.foldl intMax a = a ∨ xs.foldl intMax a ∈ xs) ∧ a ≤ xs.foldl intMax a ∧
      ∀ y ∈ xs, y ≤ xs.foldl intMax a := by
  induction xs with
  | nil => intro a; simp
  | cons x xs ih =>
    intro a
    obtain ⟨h1, h2, h3⟩ := ih (intMax a x)
    have ha : a ≤ intMax a x := by unfold intMax; split_ifs <;> omega
    have hx : x ≤ intMax a x := by unfold intMax; split_ifs <;> omega
    have hor : intMax a x = a ∨ intMax a x = x := by unfold intMax; split_ifs <;> simp
    simp only [List.foldl_cons, List.mem_cons]
    refine ⟨?_, le_trans ha h2, ?_⟩
    · rcases h1 with h1 | h1
      · rcases hor with hor | hor
        · exact Or.inl (h1.trans hor)
        · exact Or.inr (Or.inl (h1.trans hor))
      · exact Or.inr (Or.inr h1)
    · rintro y (rfl | hy)
      · exact le_trans hx h2
      · exact h3 y hy

/-- On integers `Num.max` folds like `intMax`. -/
theorem foldl_max_int (xs : List Int) : ∀ a : Int,
    (xs.map Num.int).foldl Num.max (.int a) = .int (xs.foldl intMax a) := by
  induction xs with
  | nil => intro a; rfl
  | cons x xs ih =>
    intro a
    simp only [List.map_cons, List.foldl_cons]
    exact ih (intMax a x)

/-- The value of `Math.max` on integers is one of them and at least each of
them. -/
theorem mathMax_int (x : Int) (xs : List Int) :
    ∃ c, Math.max ((x :: xs).map Num.int) = .int c ∧ c ∈ x :: xs ∧ ∀ y ∈ x :: xs, y ≤ c := by
  obtain ⟨h1, h2, h3⟩ := foldl_intMax xs x
  refine ⟨xs.foldl intMax x, ?_, ?_, ?_⟩
  · simp only [Math.max, List.map_cons, List.foldl_cons]
    exact foldl_max_int xs x
  · rcases h1 with h1 | h1
    · rw [h1]; exact List.mem_cons_self _ _
    · exact List.mem_cons_of_mem _ h1
  · intro y hy
    rcases List.mem_cons.1 hy with rfl | hy
    · exact h2
    · exact h3 y hy

/-- On integers the search of `indexOf` is the search for the first occurrence. -/
theorem findIdx_map_int (xs : List Int) (c : Int) :
    (xs.map Num.int).findIdx (fun y => y.strictEq (.int c)) = xs.indexOf c := by
  induction xs with
  | nil => rfl
  | cons x xs ih =>
    by_cases h : x = c
    · subst h
      simp [List.findIdx_cons, Num.strictEq]
    · have hb : (x == c) = false := by simpa using h
      simp only [List.map_cons, List.findIdx_cons, List.indexOf_cons, ih, hb]
      simp [Num.strictEq, h]

/-- On integers `indexOf` finds the first occurrence of an element. -/
theorem indexOf_map_int (xs : List Int) (c : Int) (hc : c ∈ xs) :
    indexOf (xs.map Num.int) (.int c) = some (xs.indexOf c) := by
  have hlt : xs.indexOf c < xs.length := List.indexOf_lt_length.2 hc
  simp [indexOf, findIdx_map_int, hlt]

/-- The label at the first position where `f` takes the value `c` takes that
value, and no label before it does. -/
theorem first_attaining (f : Emotion → Int) (c : Int) : ∀ (l : List Emotion), l.Nodup →
    c ∈ l.map f →
    ∃ d, l[(l.map f).indexOf c]? = some d ∧ d ∈ l ∧ f d = c ∧
      ∀ e ∈ l, l.indexOf e < l.indexOf d → f e ≠ c := by
  intro l
  induction l with
  | nil => intro _ h; simp at h
  | cons a l ih =>
    intro hnd hc
    by_cases ha : f a = c
    · refine ⟨a, by simp [ha], List.mem_cons_self _ _, ha, ?_⟩
      intro e _ he
      simp at he
    · have hc' : c ∈ l.map f := by
        simp only [List.map_cons, List.mem_cons] at hc
        rcases hc with hc | hc
        · exact absurd hc.symm ha
        · exact hc
      obtain ⟨d, hd, hdl, hfd, hfirst⟩ := ih (List.nodup_cons.1 hnd).2 hc'
      have hda : d ≠ a := fun e => (List.nodup_cons.1 hnd).1 (e ▸ hdl)
      refine ⟨d, ?_, List.mem_cons_of_mem _ hdl, hfd, ?_⟩
      · rw [List.map_cons, List.indexOf_cons_ne _ (fun e => ha e)]
        simpa using hd
      · intro e he hlt
        rcases List.mem_cons.1 he with rfl | he
        · exact ha
        · have hea : e ≠ a := fun h => (List.nodup_cons.1 hnd).1 (h ▸ he)
          rw [List.indexOf_cons_ne _ (Ne.symm hea), List.indexOf_cons_ne _ (Ne.symm hda)] at hlt
          exact hfirst e he (by omega)

/-- With a non-zero total every normalized score is the integer percentage. -/
theorem normalized_int (draw : Emotion → ℚ) (h : totalScore draw ≠ 0) :
    (EMOTIONS.map draw).map (fun s => percent s (totalScore draw)) =
      (EMOTIONS.map (percentOf draw)).map Num.int := by
  simp [percent, h, percentOf, List.map_map, Function.comp_def]

/-- What `analyzeExpression` computes when the total is not zero. -/
theorem analyzeExpression_of_total (draw : Emotion → ℚ) (timestamp : String)
    (h : totalScore draw ≠ 0) :
    analyzeExpression draw timestamp =
      { emotions := EMOTIONS.zip ((EMOTIONS.map (percentOf draw)).map Num.int)
        dominant := (indexOf ((EMOTIONS.map (percentOf draw)).map Num.int)
          (Math.max ((EMOTIONS.map (percentOf draw)).map Num.int))).bind fun i => EMOTIONS[i]?
        confidence := Math.max ((EMOTIONS.map (percentOf draw)).map Num.int)
        timestamp := timestamp } := by
  simp only [analyzeExpression, normalized_int draw h]

/-- Every label is an entry of `EMOTIONS`. -/
theorem mem_EMOTIONS (e : Emotion) : e ∈ EMOTIONS := by
  cases e <;> simp [EMOTIONS]

/-- No label occurs twice in `EMOTIONS`. -/
theorem nodup_EMOTIONS : EMOTIONS.Nodup := by
  decide

/-- The read `emotions[e]` on the object built from integer percentages. -/
theorem score_of_int (f : Emotion → Int) (dominant : Option Emotion) (confidence : Num)
    (timestamp : String) (e : Emotion) :
    Analysis.score
        { emotions := EMOTIONS.zip ((EMOTIONS.map f).map Num.int)
          dominant := dominant
          confidence := confidence
          timestamp := timestamp } e = some (.int (f e)) := by
  cases e <;> rfl

/-- What `analyzeExpression` computes on Numbers when the total is not
zero. -/
theorem number_analyzeExpression_of_total (draw : Emotion → ℚ) (timestamp : String)
    (h : Number.totalScore draw ≠ 0) :
    Number.analyzeExpression draw timestamp =
      { emotions := EMOTIONS.zip ((EMOTIONS.map (Number.percentOf draw)).map Num.int)
        dominant := (indexOf ((EMOTIONS.map (Number.percentOf draw)).map Num.int)
          (Math.max ((EMOTIONS.map (Number.percentOf draw)).map Num.int))).bind
            fun i => EMOTIONS[i]?
        confidence := Math.max ((EMOTIONS.map (Number.percentOf draw)).map Num.int)
        timestamp := timestamp } := by
  have hn : (EMOTIONS.map fun e => Number.ofRat (draw e)).map
      (fun s => Number.percent s (Number.totalScore draw)) =
      (EMOTIONS.map (Number.percentOf draw)).map Num.int := by
    simp [Number.percent, h, Number.percentOf, List.map_map, Function.comp_def]
  simp only [Number.analyzeExpression, hn]

/-- At the draws 28, 29, 29, 29, 29, 28, 28 parts of 256 the program rounds
every score to 14, `29 / 200 * 100` being the Number just below 14.5, and the
dominant label is happy; on exact rationals four scores are 15 and the
dominant label is sad. -/
theorem nearTieDraws_scores :
    (∀ e, Number.percentOf nearTieDraws e = 14) ∧
      (Number.analyzeExpression nearTieDraws "t").dominant = some .happy ∧
      (Number.analyzeExpression nearTieDraws "t").confidence = .int 14 ∧
      percentOf nearTieDraws .sad = 15 ∧
      (analyzeExpression nearTieDraws "t").dominant = some .sad := by
  set_option maxRecDepth 100000 in
  refine ⟨?_, ?_, ?_, ?_, ?_⟩
  · intro e
    cases e <;> with_unfolding_all decide
  · with_unfolding_all decide
  · with_unfolding_all decide
  · with_unfolding_all decide
  · with_unfolding_all decide

/-- Claim C16: for every vector of seven raw scores with positive total,
`analyzeExpression`, computed on Numbers as the program does, resolves with a
`confidence` that is the maximum of the seven normalized scores and a
`dominant` that is the first label, in the order of `EMOTIONS`, whose
normalized score attains it; hence `emotions[dominant] = confidence`. -/
theorem number_analyzeExpression_dominant_is_first_maximum (draw : Emotion → ℚ)
    (timestamp : String) (hpos : 0 < Number.totalScore draw) :
    ∃ c d, (Number.analyzeExpression draw timestamp).confidence = .int c ∧
      (Number.analyzeExpression draw timestamp).dominant = some d ∧
      (∀ e, (Number.analyzeExpression draw timestamp).score e =
        some (.int (Number.percentOf draw e))) ∧
      (∀ e, Number.percentOf draw e ≤ c) ∧
      Number.percentOf draw d = c ∧
      (∀ e, EMOTIONS.indexOf e < EMOTIONS.indexOf d → Number.percentOf draw e < c) ∧
      (Number.analyzeExpression draw timestamp).score d =
        some (Number.analyzeExpression draw timestamp).confidence := by
  have hne : Number.totalScore draw ≠ 0 := ne_of_gt hpos
  rw [number_analyzeExpression_of_total draw timestamp hne]
  have hlist : EMOTIONS.map (Number.percentOf draw) =
      Number.percentOf draw .happy :: (EMOTIONS.tail.map (Number.percentOf draw)) := rfl
  obtain ⟨c, hmax, hmem, hle⟩ :=
    mathMax_int (Number.percentOf draw .happy) (EMOTIONS.tail.map (Number.percentOf draw))
  rw [← hlist] at hmax hmem hle
  obtain ⟨d, hd, _, hfd, hfirst⟩ :=
    first_attaining (Number.percentOf draw) c EMOTIONS nodup_EMOTIONS hmem
  have hleAll : ∀ e, Number.percentOf draw e ≤ c := fun e =>
    hle _ (List.mem_map_of_mem _ (mem_EMOTIONS e))
  refine ⟨c, d, hmax, ?_, fun e => score_of_int _ _ _ _ e, hleAll, hfd, ?_, ?_⟩
  · simp only [hmax, indexOf_map_int _ c hmem, Option.some_bind, hd]
  · intro e he
    exact lt_of_le_of_ne (hleAll e) (hfirst e (mem_EMOTIONS e) he)
  · rw [score_of_int, hfd]
    simp only [hmax]

/-- Claim C16 at the draws 28, 29, 29, 29, 29, 28, 28 parts of 256. -/
theorem number_analyzeExpression_dominant_is_first_maximum_witness :
    0 < Number.totalScore nearTieDraws ∧
      ∃ c d, (Number.analyzeExpression nearTieDraws "t").confidence = .int c ∧
        (Number.analyzeExpression nearTieDraws "t").dominant = some d ∧
        (∀ e, (Number.analyzeExpression nearTieDraws "t").score e =
          some (.int (Number.percentOf nearTieDraws e))) ∧
        (∀ e, Number.percentOf nearTieDraws e ≤ c) ∧
        Number.percentOf nearTieDraws d = c ∧
        (∀ e, EMOTIONS.indexOf e < EMOTIONS.indexOf d → Number.percentOf nearTieDraws e < c) ∧
        (Number.analyzeExpression nearTieDraws "t").score d =
          some (Number.analyzeExpression nearTieDraws "t").confidence :=
  ⟨by set_option maxRecDepth 100000 in with_unfolding_all decide,
    number_analyzeExpression_dominant_is_first_maximum nearTieDraws "t"
      (by set_option maxRecDepth 100000 in with_unfolding_all decide)⟩

/-- Zero is a Number. -/
theorem ofRat_zero : Number.ofRat 0 = 0 := by
  set_option maxRecDepth 100000 in with_unfolding_all decide

/-- At the draws that are all 0 the computation on Numbers and the one on
exact rationals give the same result. -/
theorem number_analyzeExpression_zero_draws :
    Number.analyzeExpression (fun _ => 0) "t" = analyzeExpression (fun _ => 0) "t" := by
  have htotal : totalScore (fun _ => 0) = 0 := by simp [totalScore, EMOTIONS]
  have hnumber : Number.totalScore (fun _ => 0) = 0 := by
    simp [Number.totalScore, EMOTIONS, ofRat_zero]
  simp only [Number.analyzeExpression, analyzeExpression, htotal, hnumber, ofRat_zero,
    Number.percent, percent, List.map_map, Function.comp_def, if_true]

/-- Claim C17 fails on the code at the draws that are all 0: the total is 0,
every normalized score is `NaN`, `confidence` is `NaN` and `dominant` is
`undefined`. -/
theorem analyzeExpression_all_zero_draws :
    (analyzeExpression (fun _ => 0) "t").dominant = none ∧
      (analyzeExpression (fun _ => 0) "t").confidence = .nan ∧
      ∀ e, (analyzeExpression (fun _ => 0) "t").score e = some .nan := by
  have htotal : totalScore (fun _ => 0) = 0 := by simp [totalScore, EMOTIONS]
  have hnorm : (EMOTIONS.map (fun _ => (0 : ℚ))).map
      (fun s => percent s (totalScore (fun _ => 0))) = List.replicate 7 Num.nan := by
    simp [htotal, percent, EMOTIONS]
  have heq : analyzeExpression (fun _ => 0) "t" =
      { emotions := EMOTIONS.zip (List.replicate 7 Num.nan)
        dominant := (indexOf (List.replicate 7 Num.nan)
          (Math.max (List.replicate 7 Num.nan))).bind fun i => EMOTIONS[i]?
        confidence := Math.max (List.replicate 7 Num.nan)
        timestamp := "t" } := by
    simp only [analyzeExpression, hnorm]
  rw [heq]
  refine ⟨by decide, by decide, ?_⟩
  intro e
  cases e <;> rfl

/-! ## Export functions -/

/-- Joining strings. -/
theorem arrayJoin_some (sep : String) (xs : List String) :
    arrayJoin sep (xs.map some) = sep.intercalate xs := by
  simp [arrayJoin, List.map_map, Function.comp_def]

/-- A data line is the join of its cells. -/
theorem arrayJoin_cells (B : Browser) (row : Row) (headers : List String) :
    arrayJoin "," (headers.map fun h => (row.get h).map B.stringify) =
      ",".intercalate (headers.map (csvCell B row)) := by
  simp only [arrayJoin, List.map_map]
  congr 1
  apply List.map_congr_left
  intro h _
  simp only [Function.comp, csvCell]
  cases row.get h <;> rfl

/-- Claim C18: for every non-empty list of rows the text `exportToCSV` builds
is `rows + 1` lines joined by newline; the first line is the keys of the first
row, in order, joined by a comma; line `i + 1` is, for each of those keys in
order, the JSON serialization of the value row `i` has for it, empty when the
row has none, joined by a comma, keys of the row outside the header being left
out. For `[{a:1,b:2},{a:3}]` the text is `a,b`, `1,2`, `3,`. -/
theorem exportToCSV_text (B : Browser) (first : Row) (rest : List Row) (filename : String) :
    (∃ d lines, exportToCSV B (first :: rest) filename = some d ∧
        d.content = "\n".intercalate lines ∧
        lines.length = (first :: rest).length + 1 ∧
        lines[0]? = some (",".intercalate (first.map Prod.fst)) ∧
        ∀ i row, (first :: rest)[i]? = some row →
          lines[i + 1]? = some (",".intercalate ((first.map Prod.fst).map (csvCell B row)))) ∧
      (exportToCSV roomyBrowser abRows filename).map (fun d => d.content) =
        some "a,b\n1,2\n3," := by
  refine ⟨⟨_, ",".intercalate (first.map Prod.fst) ::
      (first :: rest).map (fun row => ",".intercalate ((first.map Prod.fst).map (csvCell B row))),
    rfl, ?_, by simp, rfl, ?_⟩, rfl⟩
  · simp only [arrayJoin_some, arrayJoin_cells]
    simp [arrayJoin, List.map_map, Function.comp_def]
  · intro i row hi
    rw [List.getElem?_cons_succ, List.getElem?_map, hi]
    rfl

/-- Claim C19 fails on the code at the rows `exportBatchResults` passes: the
`emotions` cell of a batch result is rendered as the bare object text, which
starts with a brace, not a double quote, and holds six commas, so the data
line splits into 16 fields under a header of 10. -/
theorem exportToCSV_nested_object_not_quoted :
    (exportToCSV roomyBrowser [batchRow] "batch_results.csv").map (fun d => d.content) =
        some (batchHeader ++ "\n" ++ batchLine) ∧
      fieldCount batchHeader = 10 ∧ fieldCount batchLine = 16 ∧
      (csvCell roomyBrowser batchRow "emotions").data.head? = some (Char.ofNat 123) ∧
      (csvCell roomyBrowser batchRow "emotions").data.count ',' = 6 := by
  refine ⟨by rfl, by decide, by decide, by rfl, by rfl⟩

/-- Different labels have different names. -/
theorem name_injective (a b : Emotion) (h : a.name = b.name) : a = b := by
  cases a <;> cases b <;> first | rfl | (exact absurd h (by decide))

/-- The object of the seven label scores determines the scores. -/
theorem emotionsToJSON_injective (f g : Emotion → Int)
    (h : emotionsToJSON f = emotionsToJSON g) : f = g := by
  simp only [emotionsToJSON, EMOTIONS, List.map_cons, List.map_nil, JSON.obj.injEq,
    List.cons.injEq, Prod.mk.injEq, JSON.num.injEq, true_and, and_true] at h
  obtain ⟨h1, h2, h3, h4, h5, h6, h7⟩ := h
  funext e
  cases e <;> assumption

/-- The JSON value of a sample determines the sample. -/
theorem sample_toJSON_injective (s t : Sample) (h : s.toJSON = t.toJSON) : s = t := by
  obtain ⟨⟨e₁, d₁, c₁, ts₁⟩, st₁⟩ := s
  obtain ⟨⟨e₂, d₂, c₂, ts₂⟩, st₂⟩ := t
  simp only [Sample.toJSON, JSON.obj.injEq, List.cons.injEq, Prod.mk.injEq, JSON.num.injEq,
    JSON.str.injEq, true_and, and_true] at h
  obtain ⟨h1, h2, h3, h4, h5⟩ := h
  have he := emotionsToJSON_injective _ _ h1
  have hd := name_injective _ _ h2
  subst he hd h3 h4 h5
  rfl

/-- The JSON value of a statistics object determines it. -/
theorem stats_toJSON_injective (s t : Stats) (h : s.toJSON = t.toJSON) : s = t := by
  obtain ⟨n₁, d₁, a₁⟩ := s
  obtain ⟨n₂, d₂, a₂⟩ := t
  simp only [Stats.toJSON, JSON.obj.injEq, List.cons.injEq, Prod.mk.injEq, JSON.num.injEq,
    JSON.str.injEq, true_and, and_true, Nat.cast_inj] at h
  obtain ⟨h1, h2, h3⟩ := h
  have hd := name_injective _ _ h2
  subst h1 hd h3
  rfl

/-- The JSON values of the samples determine the samples. -/
theorem map_toJSON_injective (xs ys : List Sample)
    (h : xs.map Sample.toJSON = ys.map Sample.toJSON) : xs = ys := by
  induction xs generalizing ys with
  | nil =>
    cases ys with
    | nil => rfl
    | cons y ys => simp at h
  | cons x xs ih =>
    cases ys with
    | nil => simp at h
    | cons y ys =>
      simp only [List.map_cons, List.cons.injEq] at h
      rw [sample_toJSON_injective x y h.1, ih ys h.2]

/-- The JSON value of a summary determines the summary. -/
theorem summary_toJSON_injective (s t : Summary) (h : s.toJSON = t.toJSON) : s = t := by
  obtain ⟨i₁, st₁, du₁, fc₁, da₁, ss₁⟩ := s
  obtain ⟨i₂, st₂, du₂, fc₂, da₂, ss₂⟩ := t
  simp only [Summary.toJSON, JSON.obj.injEq, List.cons.injEq, Prod.mk.injEq, JSON.num.injEq,
    JSON.str.injEq, JSON.arr.injEq, true_and, and_true, Nat.cast_inj] at h
  obtain ⟨h1, h2, h3, h4, h5, h6⟩ := h
  have hi : i₁ = i₂ := by
    cases i₁ <;> cases i₂ <;> simp_all
  have hda := map_toJSON_injective _ _ h5
  have hss := stats_toJSON_injective _ _ h6
  subst hi h2 h3 h4 hda hss
  rfl

/-- The JSON values of a list of summaries determine the list. -/
theorem map_summary_injective (xs ys : List Summary)
    (h : xs.map Summary.toJSON = ys.map Summary.toJSON) : xs = ys := by
  induction xs generalizing ys with
  | nil =>
    cases ys with
    | nil => rfl
    | cons y ys => simp at h
  | cons x xs ih =>
    cases ys with
    | nil => simp at h
    | cons y ys =>
      simp only [List.map_cons, List.cons.injEq] at h
      rw [summary_toJSON_injective x y h.1, ih ys h.2]

/-- Claim C20: for every session summary, those `SessionManager.export()`
produces among them, and for every list of summaries, parsing the text
`exportToJSON` builds gives back the value that was exported; and that value
determines the summary down to every field, every sample and every label
score, so nothing is lost. -/
theorem exportToJSON_round_trip (B : Browser) (hB : B.RoundTrips) (filename : String) :
    (∀ s : Summary, B.parse (exportToJSON B s.toJSON filename).content = some s.toJSON) ∧
      (∀ ss : List Summary,
        B.parse (exportToJSON B (.arr (ss.map Summary.toJSON)) filename).content =
          some (.arr (ss.map Summary.toJSON))) ∧
      (∀ s t : Summary, s.toJSON = t.toJSON → s = t) ∧
      ∀ ss ts : List Summary, ss.map Summary.toJSON = ts.map Summary.toJSON → ss = ts :=
  ⟨fun _ => hB.parse_indented _ 2, fun _ => hB.parse_indented _ 2, summary_toJSON_injective,
    map_summary_injective⟩

/-- Claim C20 with the JSON built-ins defined here. -/
theorem exportToJSON_round_trip_witness :
    roomyBrowser.RoundTrips ∧
      (∀ s : Summary,
        roomyBrowser.parse (exportToJSON roomyBrowser s.toJSON "session.json").content =
          some s.toJSON) ∧
      (∀ ss : List Summary,
        roomyBrowser.parse
            (exportToJSON roomyBrowser (.arr (ss.map Summary.toJSON)) "session.json").content =
          some (.arr (ss.map Summary.toJSON))) ∧
      (∀ s t : Summary, s.toJSON = t.toJSON → s = t) ∧
      ∀ ss ts : List Summary, ss.map Summary.toJSON = ts.map Summary.toJSON → ss = ts :=
  ⟨jsonBrowser_roundTrips _ _,
    exportToJSON_round_trip roomyBrowser (jsonBrowser_roundTrips _ _) "session.json"⟩

/-! ## Durations and percentages: the claims -/

/-- Padding a numeral below one hundred gives its two-digit numeral. -/
theorem padStart_two (k : Nat) (hk : k < 100) :
    padStart (toString k) 2 '0' = String.mk (twoDigits k) := by
  interval_cases k <;> rfl

/-- Padding never shortens and reaches the target length. -/
theorem padStart_length (s : String) (n : Nat) (c : Char) :
    (padStart s n c).length = max n s.length := by
  simp only [padStart, String.length, String.data_append, List.length_append,
    List.length_replicate]
  omega

/-! ## Numbers: rounding and printing -/

/-- With enough fuel the count of binary digits `b` of `n` satisfies
`2 ^ (b - 1) ≤ n < 2 ^ b`. -/
theorem bitLengthAux_spec (fuel : Nat) : ∀ n, n ≤ fuel →
    n < 2 ^ bitLengthAux fuel n ∧ (n ≠ 0 → 2 ^ (bitLengthAux fuel n - 1) ≤ n) := by
  induction fuel with
  | zero =>
    intro n hn
    have h0 : n = 0 := by omega
    subst h0
    exact ⟨by simp [bitLengthAux], fun h => absurd rfl h⟩
  | succ fuel ih =>
    intro n hn
    by_cases h0 : n = 0
    · subst h0
      exact ⟨by simp [bitLengthAux], fun h => absurd rfl h⟩
    · have hhalf : n / 2 ≤ fuel := by omega
      obtain ⟨hlt, hle⟩ := ih (n / 2) hhalf
      have hb : bitLengthAux (fuel + 1) n = bitLengthAux fuel (n / 2) + 1 := by
        simp [bitLengthAux, h0]
      rw [hb]
      refine ⟨?_, fun _ => ?_⟩
      · rw [pow_succ]
        omega
      · simp only [Nat.add_sub_cancel]
        by_cases h1 : n / 2 = 0
        · have hz : bitLengthAux fuel (n / 2) = 0 := by
            rw [h1]
            cases fuel <;> simp [bitLengthAux]
          rw [hz]
          simp
          omega
        · have h2 := hle h1
          have hpos : 0 < bitLengthAux fuel (n / 2) := by
            by_contra hc
            have hz : bitLengthAux fuel (n / 2) = 0 := by omega
            rw [hz] at hlt
            simp at hlt
            exact h1 hlt
          have e : bitLengthAux fuel (n / 2) = (bitLengthAux fuel (n / 2) - 1) + 1 := by omega
          rw [e, pow_succ]
          omega

/-- Every number is below two to the power of its bit length. -/
theorem lt_two_pow_bitLength (n : Nat) : n < 2 ^ bitLength n :=
  (bitLengthAux_spec n n (Nat.le_refl n)).1

/-- A number that is not zero is at least two to the power of its bit length
less one. -/
theorem two_pow_bitLength_le (n : Nat) (h : n ≠ 0) : 2 ^ (bitLength n - 1) ≤ n :=
  (bitLengthAux_spec n n (Nat.le_refl n)).2 h

/-- A number below `2 ^ k` has at most `k` binary digits. -/
theorem bitLength_le_of_lt (n k : Nat) (h : n < 2 ^ k) : bitLength n ≤ k := by
  by_contra hc
  have hn : n ≠ 0 := by
    intro h0
    subst h0
    have : bitLength 0 = 0 := rfl
    omega
  have h1 := two_pow_bitLength_le n hn
  have h2 : 2 ^ k ≤ 2 ^ (bitLength n - 1) := Nat.pow_le_pow_right (by omega) (by omega)
  omega

/-- A number that is not zero has a binary digit. -/
theorem bitLength_pos (n : Nat) (h : n ≠ 0) : 0 < bitLength n := by
  by_contra hc
  have h0 : bitLength n = 0 := by omega
  have := lt_two_pow_bitLength n
  rw [h0] at this
  simp at this
  exact h this

/-- Rounding to the nearest integer does not go below the quotient. -/
theorem le_roundHalfEven (a b : Nat) : a / b ≤ roundHalfEven a b := by
  unfold roundHalfEven
  split_ifs <;> omega

/-- Rounding `p * K / q` to the nearest integer and dividing by `K` gives the
quotient of `p` by `q`, when `K` is more than half of `q`. -/
theorem roundHalfEven_div (p q K : Nat) (hq : 0 < q) (hK : q < 2 * K) :
    roundHalfEven (p * K) q / K = p / q := by
  have hK0 : 0 < K := by omega
  have hp := Nat.div_add_mod p q
  have hr : p % q < q := Nat.mod_lt _ hq
  have ha := Nat.div_add_mod (p * K) q
  have hρ : p * K % q < q := Nat.mod_lt _ hq
  have hlo : p / q * K ≤ p * K / q := by
    rw [Nat.le_div_iff_mul_le hq]
    have : p / q * q ≤ p := Nat.div_mul_le_self p q
    calc p / q * K * q = p / q * q * K := by ring
      _ ≤ p * K := Nat.mul_le_mul_right K this
  have hhi : p * K / q < (p / q + 1) * K := by
    rw [Nat.div_lt_iff_lt_mul hq]
    have : p < (p / q + 1) * q := by
      have e : (p / q + 1) * q = q * (p / q) + q := by ring
      rw [e]
      omega
    calc p * K < (p / q + 1) * q * K := Nat.mul_lt_mul_of_pos_right this hK0
      _ = (p / q + 1) * K * q := by ring
  apply Nat.div_eq_of_lt_le
  · exact Nat.le_trans hlo (le_roundHalfEven _ _)
  · unfold roundHalfEven
    split_ifs with h1 h2 h3
    · exact hhi
    · -- rounded up: the quotient is not the last one below the next multiple
      by_contra hc
      have heq : p * K / q + 1 = (p / q + 1) * K := by omega
      have e1 : q * (p * K / q) + q = q * (p / q) * K + q * K := by
        have := congrArg (fun x => q * x) heq
        simp only at this
        rw [Nat.mul_add, Nat.mul_one] at this
        rw [this]
        ring
      have e2 : q * (p * K / q) + p * K % q = (q * (p / q) + p % q) * K := by
        rw [ha, hp]
      have e3 : (q * (p / q) + p % q) * K = q * (p / q) * K + p % q * K := by ring
      have e4 : p % q * K + K ≤ q * K := by
        have : p % q + 1 ≤ q := hr
        calc p % q * K + K = (p % q + 1) * K := by ring
          _ ≤ q * K := Nat.mul_le_mul_right K this
      omega
    · exact hhi
    · by_contra hc
      have heq : p * K / q + 1 = (p / q + 1) * K := by omega
      have e1 : q * (p * K / q) + q = q * (p / q) * K + q * K := by
        have := congrArg (fun x => q * x) heq
        simp only at this
        rw [Nat.mul_add, Nat.mul_one] at this
        rw [this]
        ring
      have e2 : q * (p * K / q) + p * K % q = (q * (p / q) + p % q) * K := by
        rw [ha, hp]
      have e3 : (q * (p / q) + p % q) * K = q * (p / q) * K + p % q * K := by ring
      have e4 : p % q * K + K ≤ q * K := by
        have : p % q + 1 ≤ q := hr
        calc p % q * K + K = (p % q + 1) * K := by ring
          _ ≤ q * K := Nat.mul_le_mul_right K this
      omega

/-- The scale of a quotient whose numerator is below `2 ^ 53`: nothing is
scaled down, and the scale up is by more than half the denominator. -/
theorem binaryScale_small (p q : Nat) (hp : p < 2 ^ 53) (hq : 0 < q) :
    (binaryScale p q).2 = 0 ∧ q < 2 * 2 ^ (binaryScale p q).1 := by
  have h1 := bitLength_le_of_lt p 53 hp
  have h2 := bitLength_pos q (by omega)
  have h3 := lt_two_pow_bitLength q
  have hle : ∀ s : Nat, bitLength q ≤ s + 1 → q < 2 * 2 ^ s := by
    intro s hs
    have : 2 ^ bitLength q ≤ 2 ^ (s + 1) := Nat.pow_le_pow_right (by omega) hs
    rw [pow_succ] at this
    omega
  unfold binaryScale
  simp only []
  split_ifs
  · refine ⟨by omega, hle _ (by omega)⟩
  · refine ⟨by omega, hle _ (by omega)⟩

/-- On a numerator below `2 ^ 53` the rounded division followed by
`Math.floor` is the quotient of the integers. -/
theorem floorDiv_eq (p q : Nat) (hp : p < 2 ^ 53) (hq : 0 < q) :
    Number.floorDiv p q = p / q := by
  obtain ⟨h2, h1⟩ := binaryScale_small p q hp hq
  simp only [Number.floorDiv, significand, h2, pow_zero, Nat.mul_one]
  exact roundHalfEven_div p q _ hq h1

/-- An integer below `2 ^ 53` is a Number. -/
theorem ofNat_eq (n : Nat) (h : n < 2 ^ 53) : Number.ofNat n = n := by
  rw [Number.ofNat, floorDiv_eq n 1 h (by omega), Nat.div_one]

/-- The Number nearest to an integer from `2 ^ 53` on is at least `2 ^ 53`. -/
theorem le_ofNat (n : Nat) (h : 2 ^ 53 ≤ n) : 2 ^ 53 ≤ Number.ofNat n := by
  have hn : n ≠ 0 := by
    have : 0 < 2 ^ 53 := by positivity
    omega
  have hb : 54 ≤ bitLength n := by
    by_contra hc
    have h1 := lt_two_pow_bitLength n
    have h2 : 2 ^ bitLength n ≤ 2 ^ 53 := Nat.pow_le_pow_right (by omega) (by omega)
    omega
  have hlow := two_pow_bitLength_le n hn
  have hone : bitLength 1 = 1 := rfl
  have hscale : (binaryScale n 1).1 = 0 ∧ (binaryScale n 1).2 + 53 ≤ bitLength n := by
    unfold binaryScale
    simp only [hone]
    split_ifs
    · exact ⟨by omega, by omega⟩
    · exact ⟨by omega, by omega⟩
  obtain ⟨hu, hd⟩ := hscale
  simp only [Number.ofNat, Number.floorDiv, significand, hu, pow_zero, Nat.mul_one, Nat.div_one,
    Nat.one_mul]
  have hsplit : 2 ^ (bitLength n - 1) =
      2 ^ (bitLength n - 1 - (binaryScale n 1).2) * 2 ^ (binaryScale n 1).2 := by
    rw [← pow_add]
    congr 1
    omega
  have hpos : 0 < 2 ^ (binaryScale n 1).2 := by positivity
  have hq : 2 ^ (bitLength n - 1 - (binaryScale n 1).2) ≤ n / 2 ^ (binaryScale n 1).2 := by
    rw [Nat.le_div_iff_mul_le hpos, ← hsplit]
    exact hlow
  have hm := le_roundHalfEven n (2 ^ (binaryScale n 1).2)
  have hbig : 2 ^ 53 ≤ 2 ^ (bitLength n - 1) := Nat.pow_le_pow_right (by omega) (by omega)
  calc 2 ^ 53 ≤ 2 ^ (bitLength n - 1) := hbig
    _ = 2 ^ (bitLength n - 1 - (binaryScale n 1).2) * 2 ^ (binaryScale n 1).2 := hsplit
    _ ≤ roundHalfEven n (2 ^ (binaryScale n 1).2) * 2 ^ (binaryScale n 1).2 :=
      Nat.mul_le_mul_right _ (Nat.le_trans hq hm)

/-- The only integer whose nearest Number is a given integer below `2 ^ 53` is
that integer. -/
theorem eq_of_ofNat_eq (n x : Nat) (hx : x < 2 ^ 53) (h : Number.ofNat n = x) : n = x := by
  by_cases hn : n < 2 ^ 53
  · rw [ofNat_eq n hn] at h
    exact h
  · have := le_ofNat n (by omega)
    omega

/-- A candidate for the digits of `x` has `x` as its nearest Number. -/
theorem ofNat_shortestCandidate (x j n : Nat) (h : shortestCandidate x j = some n) :
    Number.ofNat n = x := by
  unfold shortestCandidate at h
  simp only [] at h
  split_ifs at h with h1 h2 h3 h4 h5 h6
  all_goals (cases h; first | exact h1.1.2 | exact h1.2 | exact h5.2 | exact h6)

/-- An integer below `2 ^ 53` is printed with its own digits. -/
theorem toString_eq (x : Nat) (hx : x < 2 ^ 53) : Number.toString x = toString x := by
  have hs : shortest x = x := by
    unfold shortest
    split_ifs with h0
    · exact h0.symm
    · cases hf : (List.range (bitLength x + 1)).reverse.findSome? (shortestCandidate x) with
      | none => rfl
      | some n =>
        obtain ⟨j, _, hj⟩ := List.exists_of_findSome?_eq_some hf
        exact eq_of_ofNat_eq n x hx (ofNat_shortestCandidate x j n hj)
  have hlt : x < 10 ^ 21 := by
    have : (2 : Nat) ^ 53 < 10 ^ 21 := by norm_num
    omega
  simp only [Number.toString, hs, hlt, if_true]
  rfl

/-! ## Durations: the claim -/

/-- On an integer below `2 ^ 53` the fields of `formatDuration` are the
numerals of the exact quotients and remainders. -/
theorem formatDuration_eq (n : Nat) (hn : n < 2 ^ 53) :
    formatDuration n =
      padStart (toString (n / 3600)) 2 '0' ++ ":" ++ padStart (toString (n % 3600 / 60)) 2 '0' ++
        ":" ++ padStart (toString (n % 60)) 2 '0' := by
  have h1 : n / 3600 < 2 ^ 53 := Nat.lt_of_le_of_lt (Nat.div_le_self _ _) hn
  have h2 : n % 3600 < 2 ^ 53 := Nat.lt_of_le_of_lt (Nat.mod_le _ _) hn
  have h3 : n % 3600 / 60 < 2 ^ 53 := Nat.lt_of_le_of_lt (Nat.div_le_self _ _) h2
  have h4 : n % 60 < 2 ^ 53 := Nat.lt_of_le_of_lt (Nat.mod_le _ _) hn
  have h5 : ¬ 1024 < bitLength n := by
    have := bitLength_le_of_lt n 53 hn
    omega
  simp only [formatDuration, ofNat_eq n hn, h5, if_false, floorDiv_eq n 3600 hn (by omega),
    floorDiv_eq (n % 3600) 60 h2 (by omega), toString_eq _ h1, toString_eq _ h3, toString_eq _ h4]

/-- Claim C24, as stated, fails: from `2 ^ 53` on the fields are Numbers that
`Number.prototype.toString` prints with the fewest digits that identify them.
At `n = 2 ^ 70` the hours are `floor(n / 3600) = 327942116865947584`, and
`formatDuration(n)` is `327942116865947600:17:04`: its hour field is not the
numeral of the hours. -/
theorem formatDuration_two_pow_70 :
    formatDuration (2 ^ 70) = "327942116865947600:17:04" ∧
      toString (2 ^ 70 / 3600) = "327942116865947584" ∧
      formatDuration (2 ^ 70) ≠
        padStart (toString (2 ^ 70 / 3600)) 2 '0' ++ ":" ++
          padStart (toString (2 ^ 70 % 3600 / 60)) 2 '0' ++ ":" ++
          padStart (toString (2 ^ 70 % 60)) 2 '0' := by
  set_option maxRecDepth 100000 in decide

/-- Claim C24, amended: for every integer `n` with `0 ≤ n < 2 ^ 53`, the
integers a Number holds exactly, `formatDuration(n)` is the numerals of
`h = floor(n / 3600)`, `m = floor((n mod 3600) / 60)` and `s = n mod 60`, each
padded on the left with `0` to at least two characters, with colons in between;
`m < 60`, `s < 60` and `h * 3600 + m * 60 + s = n`; and for `n < 360000` the
result is exactly the eight characters `HH:MM:SS`. -/
theorem formatDuration_below_two_pow_53 (n : Nat) (hn : n < 2 ^ 53) :
    formatDuration n =
        padStart (toString (n / 3600)) 2 '0' ++ ":" ++ padStart (toString (n % 3600 / 60)) 2 '0' ++
          ":" ++ padStart (toString (n % 60)) 2 '0' ∧
      2 ≤ (padStart (toString (n / 3600)) 2 '0').length ∧
      2 ≤ (padStart (toString (n % 3600 / 60)) 2 '0').length ∧
      2 ≤ (padStart (toString (n % 60)) 2 '0').length ∧
      n % 3600 / 60 < 60 ∧ n % 60 < 60 ∧
      n / 3600 * 3600 + n % 3600 / 60 * 60 + n % 60 = n ∧
      (n < 360000 →
        formatDuration n =
            String.mk (twoDigits (n / 3600) ++ ':' :: (twoDigits (n % 3600 / 60) ++
              ':' :: twoDigits (n % 60))) ∧
          (formatDuration n).length = 8) := by
  have hm : n % 3600 / 60 < 60 := by omega
  have hs : n % 60 < 60 := by omega
  refine ⟨formatDuration_eq n hn, ?_, ?_, ?_, hm, hs, by omega, ?_⟩
  · rw [padStart_length]; omega
  · rw [padStart_length]; omega
  · rw [padStart_length]; omega
  · intro hsmall
    have hh : n / 3600 < 100 := by omega
    have e : formatDuration n =
        String.mk (twoDigits (n / 3600) ++ ':' :: (twoDigits (n % 3600 / 60) ++
          ':' :: twoDigits (n % 60))) := by
      rw [formatDuration_eq n hn]
      simp only [padStart_two _ hh, padStart_two _ (by omega : n % 3600 / 60 < 100),
        padStart_two _ (by omega : n % 60 < 100)]
      rfl
    exact ⟨e, by rw [e]; rfl⟩

/-- Claim C24, amended, at one hour, one minute and one second. -/
theorem formatDuration_below_two_pow_53_witness :
    3661 < 2 ^ 53 ∧
      (formatDuration 3661 =
          padStart (toString (3661 / 3600)) 2 '0' ++ ":" ++
            padStart (toString (3661 % 3600 / 60)) 2 '0' ++
            ":" ++ padStart (toString (3661 % 60)) 2 '0' ∧
        2 ≤ (padStart (toString (3661 / 3600)) 2 '0').length ∧
        2 ≤ (padStart (toString (3661 % 3600 / 60)) 2 '0').length ∧
        2 ≤ (padStart (toString (3661 % 60)) 2 '0').length ∧
        3661 % 3600 / 60 < 60 ∧ 3661 % 60 < 60 ∧
        3661 / 3600 * 3600 + 3661 % 3600 / 60 * 60 + 3661 % 60 = 3661 ∧
        (3661 < 360000 →
          formatDuration 3661 =
              String.mk (twoDigits (3661 / 3600) ++ ':' :: (twoDigits (3661 % 3600 / 60) ++
                ':' :: twoDigits (3661 % 60))) ∧
            (formatDuration 3661).length = 8)) :=
  ⟨by decide, formatDuration_below_two_pow_53 3661 (by decide)⟩

/-- A rounded value is within a half of the value rounded. -/
theorem round_bounds (x : ℚ) : x - 1 / 2 < (Math.round x : ℚ) ∧ (Math.round x : ℚ) ≤ x + 1 / 2 := by
  unfold Math.round
  have h1 := Int.floor_le (x + 1 / 2)
  have h2 := Int.lt_floor_add_one (x + 1 / 2)
  constructor <;> linarith

/-- The total of the draws is their sum. -/
theorem totalScore_eq (draw : Emotion → ℚ) :
    totalScore draw = draw .happy + draw .sad + draw .angry + draw .surprised + draw .fear +
      draw .disgust + draw .neutral := by
  simp [totalScore, EMOTIONS]

/-- The seven percentages before rounding add up to one hundred. -/
theorem exact_percentages_sum (draw : Emotion → ℚ) (h : totalScore draw ≠ 0) :
    draw .happy / totalScore draw * 100 + draw .sad / totalScore draw * 100 +
      draw .angry / totalScore draw * 100 + draw .surprised / totalScore draw * 100 +
      draw .fear / totalScore draw * 100 + draw .disgust / totalScore draw * 100 +
      draw .neutral / totalScore draw * 100 = 100 := by
  have e := totalScore_eq draw
  field_simp
  rw [e]
  ring

/-- Claim C26: for every vector of seven raw scores whose total is not zero
(in particular for non-negative scores with a positive total), computed in
exact rationals, the seven scores `analyzeExpression` reports are the rounded
percentages and their sum is an integer between 97 and 103; when the seven
scores are equal the sum is 98, not 100. -/
theorem percentages_sum_between_97_and_103 (draw : Emotion → ℚ) (timestamp : String)
    (h : totalScore draw ≠ 0) :
    (∀ e, (analyzeExpression draw timestamp).score e = some (.int (percentOf draw e))) ∧
      97 ≤ (EMOTIONS.map (percentOf draw)).sum ∧ (EMOTIONS.map (percentOf draw)).sum ≤ 103 ∧
      ∀ c, (∀ e, draw e = c) → (EMOTIONS.map (percentOf draw)).sum = 98 := by
  have hsum : (EMOTIONS.map (percentOf draw)).sum =
      percentOf draw .happy + percentOf draw .sad + percentOf draw .angry +
        percentOf draw .surprised + percentOf draw .fear + percentOf draw .disgust +
        percentOf draw .neutral := by
    simp [EMOTIONS]
    ring
  refine ⟨?_, ?_, ?_, ?_⟩
  · intro e
    rw [analyzeExpression_of_total draw timestamp h]
    exact score_of_int _ _ _ _ e
  · rw [hsum]
    have e := exact_percentages_sum draw h
    have b1 := (round_bounds (draw .happy / totalScore draw * 100)).1
    have b2 := (round_bounds (draw .sad / totalScore draw * 100)).1
    have b3 := (round_bounds (draw .angry / totalScore draw * 100)).1
    have b4 := (round_bounds (draw .surprised / totalScore draw * 100)).1
    have b5 := (round_bounds (draw .fear / totalScore draw * 100)).1
    have b6 := (round_bounds (draw .disgust / totalScore draw * 100)).1
    have b7 := (round_bounds (draw .neutral / totalScore draw * 100)).1
    have hq : ((96 : Int) : ℚ) < ((percentOf draw .happy + percentOf draw .sad +
        percentOf draw .angry + percentOf draw .surprised + percentOf draw .fear +
        percentOf draw .disgust + percentOf draw .neutral : Int) : ℚ) := by
      unfold percentOf
      push_cast
      linarith
    have hz := Int.cast_lt.1 hq
    omega
  · rw [hsum]
    have e := exact_percentages_sum draw h
    have b1 := (round_bounds (draw .happy / totalScore draw * 100)).2
    have b2 := (round_bounds (draw .sad / totalScore draw * 100)).2
    have b3 := (round_bounds (draw .angry / totalScore draw * 100)).2
    have b4 := (round_bounds (draw .surprised / totalScore draw * 100)).2
    have b5 := (round_bounds (draw .fear / totalScore draw * 100)).2
    have b6 := (round_bounds (draw .disgust / totalScore draw * 100)).2
    have b7 := (round_bounds (draw .neutral / totalScore draw * 100)).2
    have hq : ((percentOf draw .happy + percentOf draw .sad +
        percentOf draw .angry + percentOf draw .surprised + percentOf draw .fear +
        percentOf draw .disgust + percentOf draw .neutral : Int) : ℚ) < ((104 : Int) : ℚ) := by
      unfold percentOf
      push_cast
      linarith
    have hz := Int.cast_lt.1 hq
    omega
  · intro c hc
    have hT : totalScore draw = 7 * c := by
      rw [totalScore_eq]
      simp only [hc]
      ring
    have hc0 : c ≠ 0 := by
      intro e0
      apply h
      rw [hT, e0]
      ring
    have hp : ∀ e, percentOf draw e = 14 := by
      intro e
      unfold percentOf Math.round
      rw [hT, hc e]
      have e1 : c / (7 * c) * 100 + 1 / 2 = 207 / 14 := by
        field_simp
        ring
      rw [e1]
      norm_num [Int.floor_eq_iff]
    rw [hsum]
    simp only [hp]
    rfl

/-- Claim C26 at the draws of a half for sad and a quarter for the others. -/
theorem percentages_sum_between_97_and_103_witness :
    totalScore sadDraws ≠ 0 ∧
      ((∀ e, (analyzeExpression sadDraws "t").score e = some (.int (percentOf sadDraws e))) ∧
        97 ≤ (EMOTIONS.map (percentOf sadDraws)).sum ∧
        (EMOTIONS.map (percentOf sadDraws)).sum ≤ 103 ∧
        ∀ c, (∀ e, sadDraws e = c) → (EMOTIONS.map (percentOf sadDraws)).sum = 98) :=
  ⟨by norm_num [totalScore, EMOTIONS, sadDraws],
    percentages_sum_between_97_and_103 sadDraws "t" (by norm_num [totalScore, EMOTIONS, sadDraws])⟩

/-! ## The upload queue -/

/-- Changing the status of an item leaves the files of the queue as they
were. -/
theorem map_file_set (l : List QueueItem) (i : Nat) (item : QueueItem) (s : Status)
    (h : l[i]? = some item) :
    (l.set i { item with status := s }).map (fun q => q.file) = l.map fun q => q.file := by
  apply List.ext_getElem?
  intro j
  by_cases e : i = j
  · subst e
    simp only [List.getElem?_map, List.getElem?_set, h]
    have hi : i < l.length := by
      by_contra hn
      rw [List.getElem?_eq_none (by omega)] at h
      exact Option.noConfusion h
    simp [hi]
  · simp [List.getElem?_map, List.getElem?_set_ne e]

/-- The start of `processAllFiles` on a queue that has a pending item: the
first pending item is marked as processing and nothing else changes. -/
theorem processAllFilesBegin_spec (page : UploadPage)
    (h : ∃ item ∈ page.uploadedFiles, item.status = .pending) :
    ∃ i item, page.uploadedFiles[i]? = some item ∧ item.status = .pending ∧
      (∀ j it, j < i → page.uploadedFiles[j]? = some it → it.status ≠ .pending) ∧
      processAllFilesBegin page =
        { page with uploadedFiles := page.uploadedFiles.set i { item with status := .processing } } := by
  obtain ⟨w, hw, hwp⟩ := h
  have hlen : (page.uploadedFiles.filter fun f => decide (f.status = .pending)).length ≠ 0 := by
    intro h0
    have hnil := List.length_eq_zero.1 h0
    have hmem : w ∈ page.uploadedFiles.filter fun f => decide (f.status = .pending) :=
      List.mem_filter.2 ⟨hw, by simp [hwp]⟩
    rw [hnil] at hmem
    exact List.not_mem_nil _ hmem
  cases hfi : page.uploadedFiles.findIdx? (fun f => decide (f.status = .pending)) with
  | none =>
    rw [List.findIdx?_eq_none_iff] at hfi
    have := hfi w hw
    simp [hwp] at this
  | some i =>
    obtain ⟨hi, hp, hbefore⟩ := List.findIdx?_eq_some_iff_getElem.1 hfi
    have hget : page.uploadedFiles[i]? = some page.uploadedFiles[i] := List.getElem?_eq_getElem hi
    have hst : page.uploadedFiles[i].status = .pending := by simpa using hp
    refine ⟨i, page.uploadedFiles[i], hget, hst, ?_, ?_⟩
    · intro j it hj hit
      have hjl : j < page.uploadedFiles.length := Nat.lt_trans hj hi
      rw [List.getElem?_eq_getElem hjl] at hit
      have := hbefore j hj
      rw [Option.some.inj hit] at this
      simpa using this
    · simp only [processAllFilesBegin, hlen, if_false, hfi, processFileBegin, hget, hst,
        ne_eq, not_true_eq_false]

/-- The files of the items pushed are the valid files, in order. -/
theorem map_file_newItems (valid : List File) (now : Nat → Nat) (random : Nat → String) :
    (valid.enum.map fun p => newItem p.2 (now p.1) (random p.1)).map (fun q => q.file) = valid := by
  rw [List.map_map]
  exact List.enum_map_snd valid

/-- Claim C25, as stated, fails: with the box `autoProcess` checked,
`handleFiles` on an empty queue and one valid image leaves the item it added
with the status `processing`, not `pending`. -/
theorem handleFiles_autoProcess_not_pending :
    isValidFile pngFile = true ∧
      (handleFiles UploadPage.initial [pngFile] (fun _ => 5) (fun _ => "0.5") true).uploadedFiles.map
          (fun q => q.status) = [.processing] ∧
      (handleFiles UploadPage.initial [pngFile] (fun _ => 5) (fun _ => "0.5") true).uploadedFiles.map
          (fun q => q.status) ≠ [.pending] := by
  decide

/-- Claim C25, amended: after `handleFiles(files)` the files of the queue are
those of the previous queue followed, in input order, by exactly the input
files whose type starts with `image/` or `video/` and whose size is at most
`50 * 1024 * 1024` bytes, and `processedResults` is as before. With
auto-process off the queue is the previous queue followed by one item per
such file with status `pending` and result `null`; with auto-process on and at
least one such file, the first pending item of that queue has moreover been
set to `processing`. When no input file qualifies the page is unchanged. If
every item of the previous queue satisfies both conditions, so does every item
of the new queue. -/
theorem handleFiles_appends_valid_files (page : UploadPage) (files : List File) (now : Nat → Nat)
    (random : Nat → String) (autoProcess : Bool) :
    (handleFiles page files now random autoProcess).processedResults = page.processedResults ∧
      (handleFiles page files now random autoProcess).uploadedFiles.map (fun q => q.file) =
        page.uploadedFiles.map (fun q => q.file) ++ files.filter isValidFile ∧
      (∀ f, f ∈ files.filter isValidFile ↔
        f ∈ files ∧ (startsWith f.type "image/" = true ∨ startsWith f.type "video/" = true) ∧
          f.size ≤ 50 * 1024 * 1024) ∧
      (∀ q ∈ (files.filter isValidFile).enum.map fun p => newItem p.2 (now p.1) (random p.1),
        q.status = .pending ∧ q.result = none) ∧
      (autoProcess = false →
        (handleFiles page files now random autoProcess).uploadedFiles =
          page.uploadedFiles ++
            (files.filter isValidFile).enum.map fun p => newItem p.2 (now p.1) (random p.1)) ∧
      (autoProcess = true → files.filter isValidFile ≠ [] →
        ∃ i item,
          (page.uploadedFiles ++
            (files.filter isValidFile).enum.map fun p =>
              newItem p.2 (now p.1) (random p.1))[i]? = some item ∧
          item.status = .pending ∧
          (∀ j it, j < i →
            (page.uploadedFiles ++
              (files.filter isValidFile).enum.map fun p =>
                newItem p.2 (now p.1) (random p.1))[j]? = some it → it.status ≠ .pending) ∧
          (handleFiles page files now random autoProcess).uploadedFiles =
            (page.uploadedFiles ++
              (files.filter isValidFile).enum.map fun p =>
                newItem p.2 (now p.1) (random p.1)).set i { item with status := .processing }) ∧
      (files.filter isValidFile = [] → handleFiles page files now random autoProcess = page) ∧
      ((∀ q ∈ page.uploadedFiles, isValidFile q.file = true) →
        ∀ q ∈ (handleFiles page files now random autoProcess).uploadedFiles,
          isValidFile q.file = true) := by
  -- the queue after the pushes
  have hauto : files.filter isValidFile ≠ [] →
      ∃ i item,
        (page.uploadedFiles ++
          (files.filter isValidFile).enum.map fun p =>
            newItem p.2 (now p.1) (random p.1))[i]? = some item ∧
        item.status = .pending ∧
        (∀ j it, j < i →
          (page.uploadedFiles ++
            (files.filter isValidFile).enum.map fun p =>
              newItem p.2 (now p.1) (random p.1))[j]? = some it → it.status ≠ .pending) ∧
        handleFiles page files now random true =
          { page with
            uploadedFiles := (page.uploadedFiles ++
              (files.filter isValidFile).enum.map fun p =>
                newItem p.2 (now p.1) (random p.1)).set i { item with status := .processing } } := by
    intro hne
    obtain ⟨f, rest, hfr⟩ := List.exists_cons_of_ne_nil hne
    have hex : ∃ item ∈ ({ page with
        uploadedFiles := page.uploadedFiles ++
          (files.filter isValidFile).enum.map fun p =>
            newItem p.2 (now p.1) (random p.1) } : UploadPage).uploadedFiles,
        item.status = .pending := by
      refine ⟨newItem f (now 0) (random 0), ?_, rfl⟩
      apply List.mem_append_right
      rw [hfr]
      simp [List.enum, List.enumFrom]
    obtain ⟨i, item, h1, h2, h3, h4⟩ := processAllFilesBegin_spec _ hex
    refine ⟨i, item, h1, h2, h3, ?_⟩
    have hl : (files.filter isValidFile).length ≠ 0 := by
      rw [hfr]; simp
    simp only [handleFiles, hl, if_false, if_true, h4]
  have hoff : handleFiles page files now random false =
      { page with
        uploadedFiles := page.uploadedFiles ++
          (files.filter isValidFile).enum.map fun p => newItem p.2 (now p.1) (random p.1) } := by
    by_cases hv : files.filter isValidFile = []
    · simp [handleFiles, hv]
    · have hl : (files.filter isValidFile).length ≠ 0 := fun h0 => hv (List.length_eq_zero.1 h0)
      simp [handleFiles, hl]
  have hnone : files.filter isValidFile = [] →
      handleFiles page files now random autoProcess = page := by
    intro hv
    simp [handleFiles, hv]
  have hfiles : (handleFiles page files now random autoProcess).uploadedFiles.map (fun q => q.file) =
      page.uploadedFiles.map (fun q => q.file) ++ files.filter isValidFile := by
    cases autoProcess with
    | false => rw [hoff, List.map_append, map_file_newItems]
    | true =>
      by_cases hv : files.filter isValidFile = []
      · rw [hnone hv, hv, List.append_nil]
      · obtain ⟨i, item, h1, _, _, h4⟩ := hauto hv
        rw [h4, map_file_set _ i item .processing h1, List.map_append, map_file_newItems]
  refine ⟨?_, hfiles, ?_, ?_, ?_, ?_, hnone, ?_⟩
  · cases autoProcess with
    | false => rw [hoff]
    | true =>
      by_cases hv : files.filter isValidFile = []
      · rw [hnone hv]
      · obtain ⟨i, item, _, _, _, h4⟩ := hauto hv
        rw [h4]
  · intro f
    rw [List.mem_filter]
    simp only [isValidFile]
    cases startsWith f.type "image/" <;> cases startsWith f.type "video/" <;> simp
  · intro q hq
    obtain ⟨p, _, rfl⟩ := List.mem_map.1 hq
    exact ⟨rfl, rfl⟩
  · intro ha
    rw [ha, hoff]
  · intro ha hv
    obtain ⟨i, item, h1, h2, h3, h4⟩ := hauto hv
    refine ⟨i, item, h1, h2, h3, ?_⟩
    rw [ha, h4]
  · intro hall q hq
    have hqf : q.file ∈ (handleFiles page files now random autoProcess).uploadedFiles.map
        fun q => q.file := List.mem_map.2 ⟨q, hq, rfl⟩
    rw [hfiles] at hqf
    rcases List.mem_append.1 hqf with h | h
    · obtain ⟨q', hq', e⟩ := List.mem_map.1 h
      rw [← e]
      exact hall q' hq'
    · exact (List.mem_filter.1 h).2

/-- Claim C28 (failing input): one valid image is queued, processed to
completion and removed from the queue. `processedResults` then holds one
result while no queue item is completed. -/
theorem removeFile_keeps_result :
    (removeFile
        (processFile (handleFiles UploadPage.initial [pngFile] (fun _ => 5) (fun _ => "0.5") false)
          0 (some pngResult)) 0).processedResults.length = 1 ∧
      processedFiles
        (removeFile
          (processFile (handleFiles UploadPage.initial [pngFile] (fun _ => 5) (fun _ => "0.5") false)
            0 (some pngResult)) 0) = 0 ∧
      processedFiles
        (processFile (handleFiles UploadPage.initial [pngFile] (fun _ => 5) (fun _ => "0.5") false)
          0 (some pngResult)) = 1 ∧
      (clearQueue
        (processFile (handleFiles UploadPage.initial [pngFile] (fun _ => 5) (fun _ => "0.5") false)
          0 (some pngResult)) true).processedResults.length = 0 := by
  decide

/-! ## Video analysis and batches: the claims -/

/-- Claim C29 (failing input): with a sampling rate of 200 and a frame count
of 60 no frame is analysed, `sampledFrames` is `floor(60 / 200) = 0`, and
`analyzeVideo` resolves with `NaN` for each of the seven averaged scores and
for `confidence`, and with `undefined` for `dominant`. -/
theorem analyzeVideo_rate_above_frame_count :
    analyzeVideo 200 (1 / 2) (fun _ => sadDraws) (fun _ => "t") "t" =
      { emotions := EMOTIONS.map fun e => (e, .nan)
        dominant := none
        confidence := .nan
        frames := 60
        sampledFrames := .int 0
        timestamp := "t" } := by
  have hf : ⌊Number.ofRat (Number.ofRat (1 / 2 : ℚ) * 100)⌋ + 10 = 60 := by
    set_option maxRecDepth 100000 in with_unfolding_all decide
  have hs : sampledFrames 60 200 = .int 0 := by
    norm_num [sampledFrames, Int.floor_eq_iff]
  simp only [analyzeVideo, hf, hs]
  decide

/-- Cutting an array down to 20 when it is longer is taking its first 20
elements. -/
theorem keep20_eq_take (u : List JSON) :
    (if u.length > 20 then u.take 20 else u) = u.take 20 := by
  split_ifs with h
  · rfl
  · exact (List.take_of_length_le (by omega)).symm

/-- Claim C22: for every stored `batches` array `old` (an absent key counting
as the empty list, any length otherwise), after a `saveBatchResults()` whose
write `localStorage` accepts the stored array is the first 20 elements of the
new batch summary followed by `old`: newest first, the summary at index 0,
never longer than 20. -/
theorem saveBatchResults_keeps_first_20 (B : Browser) (hB : B.RoundTrips) (page : UploadPage)
    (now₁ now₂ : Nat) (ls : Store) (old : List JSON)
    (hold : (ls "expression_analyser_batches" = none ∧ old = []) ∨
      storage.load B ls "batches" = .arr old)
    (hq : ∀ k t, B.quotaExceeded ls k t = false) :
    ∃ ls', saveBatchResults B page now₁ now₂ ls = some ls' ∧
      storage.load B ls' "batches" = .arr ((batchSummary B page now₁ now₂ :: old).take 20) ∧
      ((batchSummary B page now₁ now₂ :: old).take 20).head? =
        some (batchSummary B page now₁ now₂) ∧
      ((batchSummary B page now₁ now₂ :: old).take 20).length = min 20 (old.length + 1) ∧
      ((batchSummary B page now₁ now₂ :: old).take 20).length ≤ 20 := by
  have hbatches : (if (storage.load B ls "batches").truthy then storage.load B ls "batches"
      else .arr []) = .arr old := by
    rcases hold with ⟨habs, rfl⟩ | hold
    · rw [load_absent B storage ls "batches" habs]
      rfl
    · rw [hold]
      rfl
  have hsave : saveBatchResults B page now₁ now₂ ls =
      some (storage.save B ls "batches"
        (.arr ((batchSummary B page now₁ now₂ :: old).take 20))).1 := by
    simp only [saveBatchResults, hbatches, keep20_eq_take]
  refine ⟨_, hsave, load_save B hB storage ls "batches" _ (hq _ _), rfl, ?_, ?_⟩
  · simp only [List.length_take, List.length_cons]
  · simp only [List.length_take]
    omega

/-- Claim C22 at a stored array of twenty-five entries. -/
theorem saveBatchResults_keeps_first_20_witness :
    ((batchStore "expression_analyser_batches" = none ∧ List.replicate 25 JSON.null = []) ∨
        storage.load roomyBrowser batchStore "batches" = .arr (List.replicate 25 .null)) ∧
      (∀ k t, roomyBrowser.quotaExceeded batchStore k t = false) ∧
      ∃ ls', saveBatchResults roomyBrowser processedPage 7 8 batchStore = some ls' ∧
        storage.load roomyBrowser ls' "batches" =
          .arr ((batchSummary roomyBrowser processedPage 7 8 :: List.replicate 25 .null).take 20) ∧
        ((batchSummary roomyBrowser processedPage 7 8 :: List.replicate 25 .null).take 20).head? =
          some (batchSummary roomyBrowser processedPage 7 8) ∧
        ((batchSummary roomyBrowser processedPage 7 8 :: List.replicate 25 .null).take 20).length =
          min 20 ((List.replicate 25 JSON.null).length + 1) ∧
        ((batchSummary roomyBrowser processedPage 7 8 ::
          List.replicate 25 .null).take 20).length ≤ 20 :=
  ⟨Or.inr (load_save roomyBrowser (jsonBrowser_roundTrips _ _) storage emptyStore "batches" _ rfl),
    fun _ _ => rfl,
    saveBatchResults_keeps_first_20 roomyBrowser (jsonBrowser_roundTrips _ _) processedPage 7 8
      batchStore (List.replicate 25 .null)
      (Or.inr (load_save roomyBrowser (jsonBrowser_roundTrips _ _) storage emptyStore "batches" _
        rfl))
      (fun _ _ => rfl)⟩

/-! ## The dashboard: loading -/

/-- On an array without `null` entries the filter of `loadDashboardData` does
not raise and keeps, in order, the entries whose start time is later than the
cutoff. -/
theorem filterSessions_eq (getTime : Option JSON → Num) (c : Num) (l : List JSON)
    (h : ∀ s ∈ l, s ≠ .null) :
    filterSessions getTime c l =
      some (l.filter fun s => (getTime (s.get "startTime")).gt c) := by
  induction l with
  | nil => rfl
  | cons s rest ih =>
    have hs : s ≠ .null := h s (List.mem_cons_self _ _)
    have ih' := ih fun x hx => h x (List.mem_cons_of_mem _ hx)
    cases s with
    | null => exact absurd rfl hs
    | bool b => simp only [filterSessions, ih', Option.map_some', List.filter_cons]
    | num n => simp only [filterSessions, ih', Option.map_some', List.filter_cons]
    | str t => simp only [filterSessions, ih', Option.map_some', List.filter_cons]
    | arr items => simp only [filterSessions, ih', Option.map_some', List.filter_cons]
    | obj members => simp only [filterSessions, ih', Option.map_some', List.filter_cons]

/-- A traversal whose steps all succeed succeeds, with one result per
element, each the result of a step. -/
theorem mapM_of_some {α β : Type} (f : α → Option β) (l : List α)
    (h : ∀ a ∈ l, ∃ b, f a = some b) :
    ∃ bs, l.mapM f = some bs ∧ bs.length = l.length ∧ ∀ b ∈ bs, ∃ a ∈ l, f a = some b := by
  induction l with
  | nil => exact ⟨[], rfl, rfl, fun b hb => absurd hb (List.not_mem_nil _)⟩
  | cons a rest ih =>
    obtain ⟨b, hb⟩ := h a (List.mem_cons_self _ _)
    obtain ⟨bs, hbs, hlen, hmem⟩ := ih fun x hx => h x (List.mem_cons_of_mem _ hx)
    refine ⟨b :: bs, ?_, by simp [hlen], ?_⟩
    · rw [List.mapM_cons, hb, hbs]
      rfl
    · intro x hx
      rcases List.mem_cons.1 hx with rfl | hx
      · exact ⟨a, List.mem_cons_self _ _, hb⟩
      · obtain ⟨y, hy, hfy⟩ := hmem x hx
        exact ⟨y, List.mem_cons_of_mem _ hy, hfy⟩

/-- A `reduce` over a non-empty array returns, so what is built from its
result is built. -/
theorem map_reduce_some {α β : Type} (f : α → α → α) (l : List α) (g : α → β) (P : β → Prop)
    (hl : l ≠ []) (hP : ∀ a, P (g a)) : ∃ v, (reduce f l).map g = some v ∧ P v := by
  cases l with
  | nil => exact absurd rfl hl
  | cons a rest => exact ⟨_, rfl, hP _⟩

/-- Every turn of the loop of `generateMockSessions` pushes an object; it has
no member `data`, `stats` or `sessionId`. -/
theorem mockSession_some (B : Browser) (input : MockInput) (i : Nat) :
    ∃ v, mockSession B input i = some v ∧ v.truthy = true ∧ v.get "data" = none ∧
      v.get "stats" = none ∧ v.get "sessionId" = none := by
  unfold mockSession
  simp only []
  exact @map_reduce_some Emotion JSON _ _ _
    (fun v : JSON => v.truthy = true ∧ v.get "data" = none ∧ v.get "stats" = none ∧
      v.get "sessionId" = none)
    (by simp [EMOTIONS]) (fun _ => ⟨rfl, rfl, rfl, rfl⟩)

/-- The function `generateMockSessions` returns `count` sessions, each the
object one turn of its loop pushed. -/
theorem generateMockSessions_spec (B : Browser) (getTime : Option JSON → Num) (count : Nat)
    (input : MockInput) :
    ∃ mock, generateMockSessions B getTime count input = some mock ∧ mock.length = count ∧
      ∀ s ∈ mock, ∃ i, i < count ∧ mockSession B input i = some s := by
  obtain ⟨bs, hbs, hlen, hmem⟩ := mapM_of_some (mockSession B input) (List.range count)
    fun a _ => by
      obtain ⟨v, hv, _⟩ := mockSession_some B input a
      exact ⟨v, hv⟩
  refine ⟨_, by rw [generateMockSessions, hbs]; rfl, ?_, ?_⟩
  · rw [List.length_mergeSort, hlen, List.length_range]
  · intro s hs
    rw [List.mem_mergeSort] at hs
    obtain ⟨a, ha, hfa⟩ := hmem s hs
    exact ⟨a, List.mem_range.1 ha, hfa⟩

/-- What `loadDashboardData` does when the value it reads for the archive is
the array `old` without `null` entries: with at least ten entries later than
the cutoff these become `sessionsData`, otherwise fifteen mock sessions do;
`currentPage` is not touched. -/
theorem loadDashboardData_of_array (B : Browser) (getTime : Option JSON → Num) (d : Dashboard)
    (timeRange : String) (now : Nat) (input : MockInput) (ls : Store) (old : List JSON)
    (hs : (if (storage.load B ls "sessions").truthy then storage.load B ls "sessions"
      else .arr []) = .arr old)
    (hnn : ∀ s ∈ old, s ≠ .null) :
    ∃ mock, generateMockSessions B getTime 15 input = some mock ∧ mock.length = 15 ∧
      (∀ s ∈ mock, ∃ i, i < 15 ∧ mockSession B input i = some s) ∧
      loadDashboardData B getTime d timeRange now input ls =
        some { d with
          sessionsData :=
            if (old.filter fun s =>
                (getTime (s.get "startTime")).gt (cutoff timeRange now)).length < 10 then mock
            else old.filter fun s => (getTime (s.get "startTime")).gt (cutoff timeRange now) } := by
  obtain ⟨mock, hmock, hlen, hmem⟩ := generateMockSessions_spec B getTime 15 input
  refine ⟨mock, hmock, hlen, hmem, ?_⟩
  simp only [loadDashboardData, hs, filterSessions_eq getTime _ old hnn, Option.some_bind, hmock,
    Option.map_some']
  split_ifs <;> rfl

/-! ## The dashboard: the claims -/

/-- The archive of `weekStore` reads back as its twenty-one summaries. -/
theorem weekStore_sessions :
    storage.load roomyBrowser weekStore "sessions" = .arr (List.replicate 21 storedSession) :=
  load_save roomyBrowser (jsonBrowser_roundTrips _ _) storage emptyStore "sessions" _ rfl

/-- No entry of that archive is `null`. -/
theorem weekStore_not_null : ∀ s ∈ List.replicate 21 storedSession, s ≠ .null := by
  intro s hs
  rw [List.eq_of_mem_replicate hs]
  intro h
  have : storedSession.truthy = JSON.null.truthy := by rw [h]
  exact absurd this (by decide)

/-- Nothing is later than a cutoff that is `NaN`. -/
theorem gt_nan (x : Num) : x.gt .nan = false := by
  cases x <;> rfl

/-- For the name of a member every object inherits from `Object.prototype`
the cutoff is `NaN`. -/
theorem cutoff_inherited (timeRange : String) (now : Nat) (h : timeRange ∈ inheritedNames) :
    cutoff timeRange now = .nan := by
  simp only [inheritedNames, List.mem_cons, List.mem_singleton, List.not_mem_nil, or_false] at h
  rcases h with h | h | h | h | h | h | h | h | h | h | h | h <;> subst h <;> rfl

/-- Claim C23, as stated, fails: a time range need not be one of the four
names to escape the week. With twenty-one stored sessions of the last week,
`loadDashboardData('week')` puts these in `sessionsData`, while
`loadDashboardData('constructor')` reads the member `constructor` that
`ranges` inherits, gets the cutoff `NaN`, keeps no stored session and puts
fifteen mock sessions in `sessionsData`. -/
theorem loadDashboardData_constructor_range :
    cutoff "constructor" 259200000 = .nan ∧
      cutoff "week" 259200000 = .int (-345600000) ∧
      loadDashboardData roomyBrowser exampleGetTime Dashboard.initial "week" 259200000
          exampleMock weekStore =
        some { Dashboard.initial with sessionsData := List.replicate 21 storedSession } ∧
      ∃ d mock,
        loadDashboardData roomyBrowser exampleGetTime Dashboard.initial "constructor" 259200000
          exampleMock weekStore = some d ∧
        generateMockSessions roomyBrowser exampleGetTime 15 exampleMock = some mock ∧
        d.sessionsData = mock ∧ d.sessionsData.length = 15 := by
  have hs := sessions_of_array roomyBrowser weekStore _ weekStore_sessions
  have hweek : ((List.replicate 21 storedSession).filter fun s =>
      (exampleGetTime (s.get "startTime")).gt (cutoff "week" 259200000)) =
      List.replicate 21 storedSession :=
    List.filter_replicate_of_pos (by decide)
  have hctor : ((List.replicate 21 storedSession).filter fun s =>
      (exampleGetTime (s.get "startTime")).gt (cutoff "constructor" 259200000)) = [] :=
    List.filter_replicate_of_neg (by decide)
  obtain ⟨_, _, _, _, h₁⟩ := loadDashboardData_of_array roomyBrowser exampleGetTime
    Dashboard.initial "week" 259200000 exampleMock weekStore _ hs weekStore_not_null
  rw [hweek] at h₁
  obtain ⟨mock, hmock, hlen, _, h₂⟩ := loadDashboardData_of_array roomyBrowser exampleGetTime
    Dashboard.initial "constructor" 259200000 exampleMock weekStore _ hs weekStore_not_null
  rw [hctor] at h₂
  exact ⟨by decide, by decide, h₁, _, mock, h₂, hmock, rfl, hlen⟩

/-- Claim C23, amended: for every stored `sessions` array `old` of sessions (an
absent key counting as the empty array, no entry being `null`), every clock
reading and every time range, `loadDashboardData(range)` sets `sessionsData`
as follows. The cutoff is `now` minus 24 hours for `today`, 7 days for `week`,
30 days for `month`, unbounded for `all`; for any other value that is not the
name of a member inherited from `Object.prototype` it is that of `week`, and
for such a name it is `NaN`, which no start time is later than. With `F` the
stored sessions whose start time is strictly later than the cutoff, in stored
order: when `F` has at least 10 entries `sessionsData` is `F`, otherwise it is
the 15 sessions `generateMockSessions(15)` returns, whatever `F` holds; in both
cases it has at least 10 entries. -/
theorem loadDashboardData_filters_or_mocks (B : Browser) (getTime : Option JSON → Num)
    (d : Dashboard) (timeRange : String) (now : Nat) (input : MockInput) (ls : Store)
    (old : List JSON)
    (hold : (ls "expression_analyser_sessions" = none ∧ old = []) ∨
      storage.load B ls "sessions" = .arr old)
    (hnn : ∀ s ∈ old, s ≠ .null) :
    cutoff "today" now = .int ((now : Int) - 86400000) ∧
      cutoff "week" now = .int ((now : Int) - 604800000) ∧
      cutoff "month" now = .int ((now : Int) - 2592000000) ∧
      cutoff "all" now = .negInf ∧
      (timeRange ∉ ["today", "week", "month", "all"] → timeRange ∉ inheritedNames →
        cutoff timeRange now = cutoff "week" now) ∧
      (timeRange ∈ inheritedNames →
        cutoff timeRange now = .nan ∧
          (old.filter fun s => (getTime (s.get "startTime")).gt (cutoff timeRange now)) = []) ∧
      (∀ t : Int, (Num.int t).gt .negInf = true) ∧
      (∀ t c : Int, (Num.int t).gt (.int c) = true ↔ c < t) ∧
      ∃ d' mock, loadDashboardData B getTime d timeRange now input ls = some d' ∧
        generateMockSessions B getTime 15 input = some mock ∧ mock.length = 15 ∧
        (∀ s ∈ mock, ∃ i, i < 15 ∧ mockSession B input i = some s) ∧
        d'.currentPage = d.currentPage ∧
        (10 ≤ (old.filter fun s =>
            (getTime (s.get "startTime")).gt (cutoff timeRange now)).length →
          d'.sessionsData =
            old.filter fun s => (getTime (s.get "startTime")).gt (cutoff timeRange now)) ∧
        ((old.filter fun s =>
            (getTime (s.get "startTime")).gt (cutoff timeRange now)).length < 10 →
          d'.sessionsData = mock) ∧
        10 ≤ d'.sessionsData.length := by
  have hs : (if (storage.load B ls "sessions").truthy then storage.load B ls "sessions"
      else .arr []) = .arr old := by
    rcases hold with ⟨habs, rfl⟩ | hold
    · exact sessions_of_null B ls (load_absent B storage ls "sessions" habs)
    · exact sessions_of_array B ls old hold
  obtain ⟨mock, hmock, hlen, hmem, hload⟩ :=
    loadDashboardData_of_array B getTime d timeRange now input ls old hs hnn
  refine ⟨by simp [cutoff, ranges, Num.sub], by simp [cutoff, ranges, Num.sub],
    by simp [cutoff, ranges, Num.sub], by simp [cutoff, ranges, Num.sub], ?_, ?_, fun _ => rfl, ?_,
    _, mock, hload, hmock, hlen, hmem, rfl, ?_, ?_, ?_⟩
  · intro hr hi
    simp only [List.mem_cons, List.mem_singleton, List.not_mem_nil, or_false, not_or] at hr
    simp [cutoff, ranges, hr.1, hr.2.1, hr.2.2.1, hr.2.2.2, hi]
  · intro hi
    rw [cutoff_inherited timeRange now hi]
    refine ⟨rfl, ?_⟩
    rw [List.filter_eq_nil_iff]
    intro s _
    simp [gt_nan]
  · intro t c
    simp [Num.gt]
  · intro h
    simp only [Nat.not_lt.2 h, if_false]
  · intro h
    simp only [h, if_true]
  · show 10 ≤ (if _ then _ else _ : List JSON).length
    split_ifs with h
    · omega
    · omega

/-- Claim C23, amended, at an archive of twenty-one summaries and the range
`week`. -/
theorem loadDashboardData_filters_or_mocks_witness :
    ((weekStore "expression_analyser_sessions" = none ∧ List.replicate 21 storedSession = []) ∨
        storage.load roomyBrowser weekStore "sessions" = .arr (List.replicate 21 storedSession)) ∧
      (∀ s ∈ List.replicate 21 storedSession, s ≠ .null) ∧
      (cutoff "today" 259200000 = .int (((259200000 : Nat) : Int) - 86400000) ∧
        cutoff "week" 259200000 = .int (((259200000 : Nat) : Int) - 604800000) ∧
        cutoff "month" 259200000 = .int (((259200000 : Nat) : Int) - 2592000000) ∧
        cutoff "all" 259200000 = .negInf ∧
        ("week" ∉ ["today", "week", "month", "all"] → "week" ∉ inheritedNames →
          cutoff "week" 259200000 = cutoff "week" 259200000) ∧
        ("week" ∈ inheritedNames →
          cutoff "week" 259200000 = .nan ∧
            ((List.replicate 21 storedSession).filter fun s =>
              (exampleGetTime (s.get "startTime")).gt (cutoff "week" 259200000)) = []) ∧
        (∀ t : Int, (Num.int t).gt .negInf = true) ∧
        (∀ t c : Int, (Num.int t).gt (.int c) = true ↔ c < t) ∧
        ∃ d' mock,
          loadDashboardData roomyBrowser exampleGetTime Dashboard.initial "week" 259200000
            exampleMock weekStore = some d' ∧
          generateMockSessions roomyBrowser exampleGetTime 15 exampleMock = some mock ∧
          mock.length = 15 ∧
          (∀ s ∈ mock, ∃ i, i < 15 ∧ mockSession roomyBrowser exampleMock i = some s) ∧
          d'.currentPage = Dashboard.initial.currentPage ∧
          (10 ≤ ((List.replicate 21 storedSession).filter fun s =>
              (exampleGetTime (s.get "startTime")).gt (cutoff "week" 259200000)).length →
            d'.sessionsData =
              (List.replicate 21 storedSession).filter fun s =>
                (exampleGetTime (s.get "startTime")).gt (cutoff "week" 259200000)) ∧
          (((List.replicate 21 storedSession).filter fun s =>
              (exampleGetTime (s.get "startTime")).gt (cutoff "week" 259200000)).length < 10 →
            d'.sessionsData = mock) ∧
          10 ≤ d'.sessionsData.length) :=
  ⟨Or.inr weekStore_sessions, weekStore_not_null,
    loadDashboardData_filters_or_mocks roomyBrowser exampleGetTime Dashboard.initial "week"
      259200000 exampleMock weekStore (List.replicate 21 storedSession)
      (Or.inr weekStore_sessions) weekStore_not_null⟩

/-- Claim C27 (failing input): the archive holds twenty-one sessions of the
last week, none of the last day. `loadDashboardData('week')` shows three
pages; `changePage(1)` twice, each time with the button `nextPage` enabled,
leads to page 3; `loadDashboardData('today')` then puts fifteen mock sessions
in `sessionsData`, which make two pages, and leaves `currentPage` at 3: the
page shown is beyond the last one and has no rows. -/
theorem loadDashboardData_leaves_currentPage :
    ∃ d₁ d₄,
      loadDashboardData roomyBrowser exampleGetTime Dashboard.initial "week" 259200000
        exampleMock weekStore = some d₁ ∧
      d₁.currentPage = 1 ∧ totalPages d₁ = 3 ∧
      nextDisabled d₁ = false ∧ nextDisabled (changePage d₁ 1) = false ∧
      (changePage (changePage d₁ 1) 1).currentPage = 3 ∧
      loadDashboardData roomyBrowser exampleGetTime (changePage (changePage d₁ 1) 1) "today"
        259200000 exampleMock weekStore = some d₄ ∧
      d₄.sessionsData.length = 15 ∧ totalPages d₄ = 2 ∧ d₄.currentPage = 3 ∧
      ¬ d₄.currentPage ≤ totalPages d₄ ∧ pageData d₄ = [] := by
  have hs := sessions_of_array roomyBrowser weekStore _ weekStore_sessions
  have hweek : ((List.replicate 21 storedSession).filter fun s =>
      (exampleGetTime (s.get "startTime")).gt (cutoff "week" 259200000)) =
      List.replicate 21 storedSession :=
    List.filter_replicate_of_pos (by decide)
  have htoday : ((List.replicate 21 storedSession).filter fun s =>
      (exampleGetTime (s.get "startTime")).gt (cutoff "today" 259200000)) = [] :=
    List.filter_replicate_of_neg (by decide)
  obtain ⟨_, _, _, _, h₁⟩ := loadDashboardData_of_array roomyBrowser exampleGetTime
    Dashboard.initial "week" 259200000 exampleMock weekStore _ hs weekStore_not_null
  rw [hweek] at h₁
  obtain ⟨mock, _, hlen, _, h₄⟩ := loadDashboardData_of_array roomyBrowser exampleGetTime
    (changePage (changePage
      { Dashboard.initial with sessionsData := List.replicate 21 storedSession } 1) 1)
    "today" 259200000 exampleMock weekStore _ hs weekStore_not_null
  rw [htoday] at h₄
  have h21 : totalPages { Dashboard.initial with
      sessionsData := List.replicate 21 storedSession } = 3 := by
    norm_num [totalPages, Int.ceil_eq_iff]
  have h15 : ∀ p : Int, totalPages { currentPage := p, sessionsData := mock } = 2 := by
    intro p
    simp only [totalPages, hlen]
    norm_num [Int.ceil_eq_iff]
  refine ⟨_, _, h₁, rfl, ?_, ?_, ?_, rfl, h₄, ?_, ?_, rfl, ?_, ?_⟩
  · simpa using h21
  · simp only [nextDisabled]
    simp only [List.length_replicate, Nat.reduceLT, if_false] at h21 ⊢
    rw [h21]
    decide
  · simp only [nextDisabled, changePage, totalPages] at h21 ⊢
    simp only [List.length_replicate, Nat.reduceLT, if_false] at h21 ⊢
    rw [h21]
    decide
  · simpa using hlen
  · simpa using h15 _
  · have := h15 3
    simp only [List.length_nil, Nat.lt_irrefl, Nat.zero_lt_succ, if_true] at this ⊢
    simp only [changePage, Dashboard.initial]
    rw [show (1 : Int) + 1 + 1 = 3 from rfl, this]
    decide
  · simp [pageData, slice, changePage, Dashboard.initial, hlen]

/-! ## The export entry points: the claims -/

/-- For a session without a member `data` and a format other than `json`,
`exportSession` raises. -/
theorem exportSession_without_data (B : Browser) (settings : Settings) (d : Dashboard)
    (index : Nat) (session : JSON) (h : d.sessionsData[index]? = some session)
    (ht : session.truthy = true) (hf : orDefault settings.exportFormat "json" ≠ "json")
    (hd : session.get "data" = none) : exportSession B settings d index = none := by
  simp only [exportSession, h, ht, Bool.not_true, Bool.false_eq_true, if_false, hf, hd]

/-- For a session that is an object and the format `json`, `exportSession`
starts a download of the session. -/
theorem exportSession_json (B : Browser) (settings : Settings) (d : Dashboard) (index : Nat)
    (session : JSON) (h : d.sessionsData[index]? = some session) (ht : session.truthy = true)
    (hf : orDefault settings.exportFormat "json" = "json") :
    exportSession B settings d index =
      some (.download (exportToJSON B session
        ("session_" ++ templateText (session.get "sessionId") ++ ".json"))) := by
  simp only [exportSession, h, ht, Bool.not_true, Bool.false_eq_true, if_false, hf, if_true]

/-- Claim C30 (failing input): on an empty archive `loadDashboardData` puts
fifteen mock sessions in `sessionsData`; with the default settings, whose
export format is `csv`, `exportSession(index)` raises for every one of the
fifteen indices, a mock session having no `data`; with the format `json` it
starts a download. -/
theorem exportSession_mock_csv_raises :
    ∃ d,
      loadDashboardData roomyBrowser exampleGetTime Dashboard.initial "week" 259200000
        exampleMock emptyStore = some d ∧
      d.sessionsData.length = 15 ∧ Settings.defaults.exportFormat = "csv" ∧
      exportSession roomyBrowser Settings.defaults d 0 = none ∧
      (∀ index, index < 15 → exportSession roomyBrowser Settings.defaults d index = none) ∧
      ∃ dl, exportSession roomyBrowser { Settings.defaults with exportFormat := "json" } d 0 =
        some (.download dl) := by
  obtain ⟨mock, _, hlen, hmem, h⟩ := loadDashboardData_of_array roomyBrowser exampleGetTime
    Dashboard.initial "week" 259200000 exampleMock emptyStore []
    (sessions_of_null roomyBrowser emptyStore rfl) (fun s hs => absurd hs (List.not_mem_nil _))
  simp only [List.filter_nil, List.length_nil, Nat.zero_lt_succ, if_true] at h
  have hcsv : ∀ index, index < 15 →
      exportSession roomyBrowser Settings.defaults
        { Dashboard.initial with sessionsData := mock } index = none := by
    intro index hi
    have hi' : index < mock.length := by omega
    obtain ⟨i, _, hsome⟩ := hmem mock[index] (List.getElem_mem _)
    obtain ⟨v, hv, htruthy, hdata, _, _⟩ := mockSession_some roomyBrowser exampleMock i
    have hv' : mock[index] = v := Option.some.inj (hsome.symm.trans hv)
    refine exportSession_without_data _ _ _ index mock[index] (List.getElem?_eq_getElem hi') ?_
      (by decide) ?_
    · rw [hv']; exact htruthy
    · rw [hv']; exact hdata
  refine ⟨_, h, hlen, rfl, hcsv 0 (by omega), hcsv, ?_⟩
  have h0 : 0 < mock.length := by omega
  obtain ⟨i, _, hsome⟩ := hmem mock[0] (List.getElem_mem _)
  obtain ⟨v, hv, htruthy, _, _, _⟩ := mockSession_some roomyBrowser exampleMock i
  have hv' : mock[0] = v := Option.some.inj (hsome.symm.trans hv)
  exact ⟨_, exportSession_json _ _ _ 0 mock[0] (List.getElem?_eq_getElem h0)
    (by rw [hv']; exact htruthy) (by decide)⟩

/-- Claim C21, as stated, fails: `exportToCSV` called with an empty list
raises, at `Object.keys(data[0])`. -/
theorem exportToCSV_empty_raises : exportToCSV roomyBrowser [] "export.csv" = none :=
  rfl

/-- Claim C21, amended: `exportToCSV` called with an empty list raises, for
every file name; the entry points `exportCurrentSession`, `exportBatchResults`
and `exportTableData` test for empty data before they call it: with no samples,
no results, no sessions each of them shows its alert and returns without
raising and without starting a download. -/
theorem export_entry_points_guard_empty_data (B : Browser) (settings : Settings)
    (filename : String) (m : SessionManager) (now₁ now₂ : Nat) (page : UploadPage)
    (d : Dashboard) (hm : m.data = []) (hp : page.processedResults = [])
    (hd : d.sessionsData = []) :
    exportToCSV B [] filename = none ∧
      exportCurrentSession B settings m now₁ now₂ =
        some (.alert "No data to export. Start analysis first.") ∧
      exportBatchResults B settings page now₂ = some (.alert "No results to export") ∧
      exportTableData B d = some (.alert "No data to export") := by
  refine ⟨rfl, ?_, ?_, ?_⟩
  · obtain ⟨summary, hs, _, hdata⟩ := export_of_data B m now₁
    simp [exportCurrentSession, hs, hdata, hm]
  · simp [exportBatchResults, hp]
  · simp [exportTableData, hd]

/-- Claim C21, amended, on the three pages as they are when they are
loaded. -/
theorem export_entry_points_guard_empty_data_witness :
    SessionManager.new.data = [] ∧ UploadPage.initial.processedResults = [] ∧
      Dashboard.initial.sessionsData = [] ∧
      (exportToCSV roomyBrowser [] "export.csv" = none ∧
        exportCurrentSession roomyBrowser Settings.defaults SessionManager.new 1000 2000 =
          some (.alert "No data to export. Start analysis first.") ∧
        exportBatchResults roomyBrowser Settings.defaults UploadPage.initial 2000 =
          some (.alert "No results to export") ∧
        exportTableData roomyBrowser Dashboard.initial = some (.alert "No data to export")) :=
  ⟨rfl, rfl, rfl,
    export_entry_points_guard_empty_data roomyBrowser Settings.defaults "export.csv"
      SessionManager.new 1000 2000 UploadPage.initial Dashboard.initial rfl rfl rfl⟩

end ExpressionAnalyser
